import Mathlib

/-!
SPI memory manager worker modes.

A shallow embedding of `applications/plugins/spi_mem_manager/lib/spi/spi_mem_worker_modes.c`.

The mode procedures talk to three collaborators whose code lives elsewhere: the chip
tooling (`spi_mem_tools_*`, `spi_mem_chip_*`), the file layer (`spi_mem_file_*`) and the
worker harness (`spi_mem_worker_check_for_stop`, the registered callback).  Their answers
are taken from an environment `Env` of oracles, one per collaborator function, indexed by
the number of earlier calls of that function.  Every call is appended to a trace, so that
the order of chip operations, file operations, stop checks and events can be stated.

`size_t` is modelled as the naturals below `2 ^ size_bits`; additions and subtractions on
`size_t` variables are reduced modulo `2 ^ size_bits`.
-/

namespace SpiMem

/-- Events delivered to the registered callback (the `SPIMemCustomEventWorker*` values
used by this file). -/
inductive SPIMemCustomEventWorker
  | ChipIdentified
  | ChipUnknown
  | ChipReadFail
  | WriteFileFail
  | ReadFileFail
  | VerifyFail
  | BlockReaded
  | ReadDone
  | VerifyDone
  | EraseDone
  deriving DecidableEq

/-- Modelled from the spec: the chip status enumeration is declared in `spi_mem_chip.h`,
which is not part of the sources at hand; the source only names `Busy` and `Error`, the
spec lists `Ready`, `Busy`, `Error`. -/
inductive SPIMemChipStatus
  | Ready
  | Busy
  | Error
  deriving DecidableEq

/-- The five worker modes indexing the dispatch table. -/
inductive SPIMemWorkerMode
  | Idle
  | ChipDetect
  | Read
  | Verify
  | ChipErase
  deriving DecidableEq

/-- The part of `SPIMemWorker` the mode procedures read: the optional callback (identified
by a number) and the context handed to it. -/
structure SPIMemWorker where
  callback : Option Nat
  cb_ctx : Nat
  deriving DecidableEq

/-- One entry of the call trace.  Each constructor is one call made by the mode procedures,
together with the arguments that matter and the answer of the collaborator.  Bytes are
naturals; a buffer of `len` valid bytes is a list of length `len`. -/
inductive Act
  | delay_tick (ticks : Nat)
  | delay_ms (ms : Nat)
  | check_for_stop (stop : Bool)
  | read_chip_info (ok : Bool)
  | complete_info (complete : Bool)
  | get_chip_status (status : SPIMemChipStatus)
  | read_block_data (offset len : Nat) (result : Option (List Nat))
  | set_write_enabled (enable ok : Bool)
  | erase_chip (ok : Bool)
  | file_open (ok : Bool)
  | file_close
  | file_write_block (data : List Nat) (ok : Bool)
  | file_read_block (len : Nat) (result : Option (List Nat))
  | emit (event : SPIMemCustomEventWorker)
  | callback (fn ctx : Nat) (event : SPIMemCustomEventWorker)
  deriving DecidableEq

/-- The environment of one run: the width of `size_t` and the buffer size constant
`SPI_MEM_FILE_BUFFER_SIZE` (both declared outside the sources at hand, hence parameters),
the sizes reported by chip and file, and the answer of every collaborator call as a
function of how many calls of the same function came before it.  `chip_data k a` is the
byte the `k`-th block read finds at chip address `a`; `file_data k p` is the byte the
`k`-th file read finds at file position `p`. -/
structure Env where
  size_bits : Nat
  SPI_MEM_FILE_BUFFER_SIZE : Nat
  chip_size : Nat
  file_size : Nat
  stop : Nat → Bool
  info_ok : Nat → Bool
  complete : Nat → Bool
  status : Nat → SPIMemChipStatus
  chip_ok : Nat → Bool
  chip_data : Nat → Nat → Nat
  wen_ok : Nat → Bool
  erase_ok : Nat → Bool
  open_ok : Nat → Bool
  write_ok : Nat → Bool
  fread_ok : Nat → Bool
  file_data : Nat → Nat → Nat

/-- The state of the collaborators during a run: the trace so far, the number of calls
made to each oracle, and the read position of the open file. -/
structure World where
  trace : List Act
  n_stop : Nat
  n_info : Nat
  n_complete : Nat
  n_status : Nat
  n_chip : Nat
  n_wen : Nat
  n_erase : Nat
  n_open : Nat
  n_write : Nat
  n_fread : Nat
  fpos : Nat
  deriving DecidableEq

/-- The world before the first call. -/
def World.init : World :=
  { trace := [], n_stop := 0, n_info := 0, n_complete := 0, n_status := 0, n_chip := 0,
    n_wen := 0, n_erase := 0, n_open := 0, n_write := 0, n_fread := 0, fpos := 0 }

/-- Append one call to the trace. -/
def World.log (w : World) (a : Act) : World :=
  { w with trace := w.trace ++ [a] }

/-- The number of `size_t` values, `SIZE_MAX + 1`. -/
def Env.size_mod (env : Env) : Nat := 2 ^ env.size_bits

/-- Addition of two `size_t` values. -/
def Env.size_add (env : Env) (a b : Nat) : Nat := (a + b) % env.size_mod

/-- Subtraction of two `size_t` values. -/
def Env.size_sub (env : Env) (a b : Nat) : Nat := (a + env.size_mod - b) % env.size_mod

/-- The `len` bytes starting at index `start` of a byte source. -/
def block (src : Nat → Nat) (start len : Nat) : List Nat :=
  (List.range len).map (fun i => src (start + i))

/-! ## Collaborator calls -/

/-- Modelled from the spec: `furi_delay_tick(n)`, the cooperative yield, is defined outside
the sources at hand; it only leaves a trace entry. -/
def furi_delay_tick (n : Nat) (w : World) : World := w.log (Act.delay_tick n)

/-- Modelled from the spec: `furi_delay_ms(n)`, the fixed poll interval, is defined outside
the sources at hand; it only leaves a trace entry. -/
def furi_delay_ms (n : Nat) (w : World) : World := w.log (Act.delay_ms n)

/-- Modelled from the spec: `spi_mem_worker_check_for_stop(worker)` is defined outside the
sources at hand; the answer of the next stop check is taken from the environment. -/
def spi_mem_worker_check_for_stop (env : Env) (w : World) : Bool × World :=
  let r := env.stop w.n_stop
  (r, { w with trace := w.trace ++ [Act.check_for_stop r], n_stop := w.n_stop + 1 })

/-- Modelled from the spec: `spi_mem_tools_read_chip_info(worker->chip_info)` is defined
outside the sources at hand; its result is taken from the environment. -/
def spi_mem_tools_read_chip_info (env : Env) (w : World) : Bool × World :=
  let r := env.info_ok w.n_info
  (r, { w with trace := w.trace ++ [Act.read_chip_info r], n_info := w.n_info + 1 })

/-- Modelled from the spec: `spi_mem_chip_complete_info(worker->chip_info)` is defined
outside the sources at hand; its result is taken from the environment. -/
def spi_mem_chip_complete_info (env : Env) (w : World) : Bool × World :=
  let r := env.complete w.n_complete
  (r, { w with trace := w.trace ++ [Act.complete_info r], n_complete := w.n_complete + 1 })

/-- Modelled from the spec: `spi_mem_tools_get_chip_status(worker->chip_info)` is defined
outside the sources at hand; its result is taken from the environment. -/
def spi_mem_tools_get_chip_status (env : Env) (w : World) : SPIMemChipStatus × World :=
  let r := env.status w.n_status
  (r, { w with trace := w.trace ++ [Act.get_chip_status r], n_status := w.n_status + 1 })

/-- Modelled from the spec: `spi_mem_tools_read_block_data(worker->chip_info, offset,
buffer, len)` is defined outside the sources at hand; success is taken from the
environment, and on success the first `len` bytes of the buffer hold the chip bytes from
`offset` on. -/
def spi_mem_tools_read_block_data (env : Env) (offset len : Nat) (w : World) :
    Option (List Nat) × World :=
  let r := if env.chip_ok w.n_chip then some (block (env.chip_data w.n_chip) offset len)
    else none
  (r, { w with trace := w.trace ++ [Act.read_block_data offset len r],
               n_chip := w.n_chip + 1 })

/-- Modelled from the spec: `spi_mem_tools_set_write_enabled(worker->chip_info, enable)` is
defined outside the sources at hand; its result is taken from the environment. -/
def spi_mem_tools_set_write_enabled (env : Env) (enable : Bool) (w : World) : Bool × World :=
  let r := env.wen_ok w.n_wen
  (r, { w with trace := w.trace ++ [Act.set_write_enabled enable r], n_wen := w.n_wen + 1 })

/-- Modelled from the spec: `spi_mem_tools_erase_chip(worker->chip_info)` is defined
outside the sources at hand; its result is taken from the environment. -/
def spi_mem_tools_erase_chip (env : Env) (w : World) : Bool × World :=
  let r := env.erase_ok w.n_erase
  (r, { w with trace := w.trace ++ [Act.erase_chip r], n_erase := w.n_erase + 1 })

/-- Modelled from the spec: `spi_mem_file_open(worker->cb_ctx)` is defined outside the
sources at hand; its result is taken from the environment, and a successful open starts
reading at position 0. -/
def spi_mem_file_open (env : Env) (w : World) : Bool × World :=
  let r := env.open_ok w.n_open
  (r, { w with trace := w.trace ++ [Act.file_open r], n_open := w.n_open + 1,
               fpos := if r then 0 else w.fpos })

/-- Modelled from the spec: `spi_mem_file_close(worker->cb_ctx)` is defined outside the
sources at hand; it only leaves a trace entry. -/
def spi_mem_file_close (w : World) : World := w.log Act.file_close

/-- Modelled from the spec: `spi_mem_file_write_block(worker->cb_ctx, buffer, len)` is
defined outside the sources at hand; its result is taken from the environment. `data` is
the first `len` bytes of the buffer. -/
def spi_mem_file_write_block (env : Env) (data : List Nat) (w : World) : Bool × World :=
  let r := env.write_ok w.n_write
  (r, { w with trace := w.trace ++ [Act.file_write_block data r], n_write := w.n_write + 1 })

/-- Modelled from the spec: `spi_mem_file_read_block(worker->cb_ctx, buffer, len)` is
defined outside the sources at hand; success is taken from the environment, and on success
the first `len` bytes of the buffer hold the file bytes from the current position on and
the position advances by `len`. -/
def spi_mem_file_read_block (env : Env) (len : Nat) (w : World) : Option (List Nat) × World :=
  let r := if env.fread_ok w.n_fread then some (block (env.file_data w.n_fread) w.fpos len)
    else none
  (r, { w with trace := w.trace ++ [Act.file_read_block len r], n_fread := w.n_fread + 1,
               fpos := if env.fread_ok w.n_fread then w.fpos + len else w.fpos })

/-- Modelled from the spec: `spi_mem_chip_get_size(worker->chip_info)` is defined outside
the sources at hand; the reported size is taken from the environment. -/
def spi_mem_chip_get_size (env : Env) : Nat := env.chip_size

/-- Modelled from the spec: `spi_mem_file_get_size(worker->cb_ctx)` is defined outside the
sources at hand; the reported size is taken from the environment. -/
def spi_mem_file_get_size (env : Env) : Nat := env.file_size

/-! ## The functions of `spi_mem_worker_modes.c` -/

/-- Function `spi_mem_run_worker_callback`: the call itself is recorded as
`Act.emit event`; if a callback is registered it is invoked with the stored context and
the event, recorded as `Act.callback`. -/
def spi_mem_run_worker_callback (worker : SPIMemWorker) (event : SPIMemCustomEventWorker)
    (w : World) : World :=
  let w := w.log (Act.emit event)
  match worker.callback with
  | some fn => w.log (Act.callback fn worker.cb_ctx event)
  | none => w

/-- Outcome of one pass through a loop body: leave the loop, or go round again. -/
inductive Step (σ ρ : Type)
  | brk (r : ρ)
  | cont (s : σ)

/-- Run a loop body until it leaves the loop; `none` when `fuel` passes do not suffice. -/
def loop {σ ρ : Type} (body : σ → Step σ ρ) : Nat → σ → Option ρ
  | 0, _ => none
  | fuel + 1, s =>
    match body s with
    | Step.brk r => some r
    | Step.cont s1 => loop body fuel s1

/-- One poll round of `spi_mem_worker_await_chip_busy`; leaving the loop carries the
returned flag. -/
def spi_mem_worker_await_chip_busy_body (env : Env) (w : World) : Step World (Bool × World) :=
  let w := furi_delay_ms 200 w
  let (stop, w) := spi_mem_worker_check_for_stop env w
  if stop then Step.brk (true, w)
  else
    let (chip_status, w) := spi_mem_tools_get_chip_status env w
    if chip_status = SPIMemChipStatus.Error then Step.brk (false, w)
    else if chip_status = SPIMemChipStatus.Busy then Step.cont w
    else Step.brk (true, w)

/-- Function `spi_mem_worker_await_chip_busy`. -/
def spi_mem_worker_await_chip_busy (env : Env) (fuel : Nat) (w : World) :
    Option (Bool × World) :=
  loop (spi_mem_worker_await_chip_busy_body env) fuel w

/-- Function `spi_mem_worker_modes_get_total_size`. -/
def spi_mem_worker_modes_get_total_size (env : Env) : Nat :=
  let chip_size := spi_mem_chip_get_size env
  let file_size := spi_mem_file_get_size env
  let total_size := chip_size
  if chip_size > file_size then file_size else total_size

/-- Loop-carried variables of the read and verify loops. -/
structure LoopState where
  world : World
  offset : Nat
  success : Bool
  deriving DecidableEq

/-- One pass through the `while(true)` of `spi_mem_read_process`. -/
def spi_mem_read_process_body (env : Env) (worker : SPIMemWorker) (chip_size : Nat)
    (s : LoopState) : Step LoopState LoopState :=
  let w := furi_delay_tick 10 s.world
  let block_size := env.SPI_MEM_FILE_BUFFER_SIZE
  let (stop, w) := spi_mem_worker_check_for_stop env w
  if stop then Step.brk { s with world := w }
  else if s.offset ≥ chip_size then Step.brk { s with world := w }
  else
    let block_size := if env.size_add s.offset block_size > chip_size
      then env.size_sub chip_size s.offset else block_size
    let (r, w) := spi_mem_tools_read_block_data env s.offset block_size w
    match r with
    | none =>
      let w := spi_mem_run_worker_callback worker SPIMemCustomEventWorker.ChipReadFail w
      Step.brk { s with world := w, success := false }
    | some data_buffer =>
      let (ok, w) := spi_mem_file_write_block env data_buffer w
      if !ok then
        let w := spi_mem_run_worker_callback worker SPIMemCustomEventWorker.WriteFileFail w
        Step.brk { s with world := w, success := false }
      else
        let offset := env.size_add s.offset block_size
        let w := spi_mem_run_worker_callback worker SPIMemCustomEventWorker.BlockReaded w
        Step.cont { s with world := w, offset := offset }

/-- Function `spi_mem_read_process`. -/
def spi_mem_read_process (env : Env) (worker : SPIMemWorker) (fuel : Nat) (w : World) :
    Option World :=
  let chip_size := spi_mem_chip_get_size env
  match loop (spi_mem_read_process_body env worker chip_size) fuel
      { world := w, offset := 0, success := true } with
  | none => none
  | some s =>
    let w := spi_mem_file_close s.world
    if s.success then
      some (spi_mem_run_worker_callback worker SPIMemCustomEventWorker.ReadDone w)
    else some w

/-- One pass through the `while(true)` of `spi_mem_verify_process`; `memcmp` over the
first `block_size` bytes of the two buffers is equality of the two blocks. -/
def spi_mem_verify_process_body (env : Env) (worker : SPIMemWorker) (total_size : Nat)
    (s : LoopState) : Step LoopState LoopState :=
  let w := furi_delay_tick 10 s.world
  let block_size := env.SPI_MEM_FILE_BUFFER_SIZE
  let (stop, w) := spi_mem_worker_check_for_stop env w
  if stop then Step.brk { s with world := w }
  else if s.offset ≥ total_size then Step.brk { s with world := w }
  else
    let block_size := if env.size_add s.offset block_size > total_size
      then env.size_sub total_size s.offset else block_size
    let (r, w) := spi_mem_tools_read_block_data env s.offset block_size w
    match r with
    | none =>
      let w := spi_mem_run_worker_callback worker SPIMemCustomEventWorker.ChipReadFail w
      Step.brk { s with world := w, success := false }
    | some data_buffer_chip =>
      let (r, w) := spi_mem_file_read_block env block_size w
      match r with
      | none =>
        let w := spi_mem_run_worker_callback worker SPIMemCustomEventWorker.ReadFileFail w
        Step.brk { s with world := w, success := false }
      | some data_buffer_file =>
        if data_buffer_chip ≠ data_buffer_file then
          let w := spi_mem_run_worker_callback worker SPIMemCustomEventWorker.VerifyFail w
          Step.brk { s with world := w, success := false }
        else
          let offset := env.size_add s.offset block_size
          let w := spi_mem_run_worker_callback worker SPIMemCustomEventWorker.BlockReaded w
          Step.cont { s with world := w, offset := offset }

/-- Function `spi_mem_verify_process`. -/
def spi_mem_verify_process (env : Env) (worker : SPIMemWorker) (fuel : Nat) (w : World) :
    Option World :=
  let total_size := spi_mem_worker_modes_get_total_size env
  let (opened, w) := spi_mem_file_open env w
  if !opened then some w
  else
    match loop (spi_mem_verify_process_body env worker total_size) fuel
        { world := w, offset := 0, success := true } with
    | none => none
    | some s =>
      let w := spi_mem_file_close s.world
      if s.success then
        some (spi_mem_run_worker_callback worker SPIMemCustomEventWorker.VerifyDone w)
      else some w

/-- One pass through the retry loop of `spi_mem_chip_detect_process`: leaving the loop
carries `true` when identification succeeded and `false` when the procedure returns
because a stop was observed. -/
def spi_mem_chip_detect_process_body (env : Env) (w : World) : Step World (Bool × World) :=
  let (ok, w) := spi_mem_tools_read_chip_info env w
  if ok then Step.brk (true, w)
  else
    let (stop, w) := spi_mem_worker_check_for_stop env w
    if stop then Step.brk (false, w) else Step.cont w

/-- Function `spi_mem_chip_detect_process`. -/
def spi_mem_chip_detect_process (env : Env) (worker : SPIMemWorker) (fuel : Nat)
    (w : World) : Option World :=
  match loop (spi_mem_chip_detect_process_body env) fuel w with
  | none => none
  | some (false, w) => some w
  | some (true, w) =>
    let (complete, w) := spi_mem_chip_complete_info env w
    let event := if complete then SPIMemCustomEventWorker.ChipIdentified
      else SPIMemCustomEventWorker.ChipUnknown
    some (spi_mem_run_worker_callback worker event w)

/-- Function `spi_mem_chip_erase_process`: the `do { ... } while(0)` block, each `break`
leaving `event` at its initial value. -/
def spi_mem_chip_erase_process (env : Env) (worker : SPIMemWorker) (fuel : Nat)
    (w : World) : Option World :=
  let event := SPIMemCustomEventWorker.ChipReadFail
  match spi_mem_worker_await_chip_busy env fuel w with
  | none => none
  | some (false, w) => some (spi_mem_run_worker_callback worker event w)
  | some (true, w) =>
    let (ok, w) := spi_mem_tools_set_write_enabled env true w
    if !ok then some (spi_mem_run_worker_callback worker event w)
    else
      let (ok, w) := spi_mem_tools_erase_chip env w
      if !ok then some (spi_mem_run_worker_callback worker event w)
      else
        match spi_mem_worker_await_chip_busy env fuel w with
        | none => none
        | some (false, w) => some (spi_mem_run_worker_callback worker event w)
        | some (true, w) =>
          let (ok, w) := spi_mem_tools_set_write_enabled env false w
          if !ok then some (spi_mem_run_worker_callback worker event w)
          else
            let event := SPIMemCustomEventWorker.EraseDone
            some (spi_mem_run_worker_callback worker event w)

/-- The four mode procedures of the file, as the names a table entry can hold (function
pointers in the source). -/
inductive ModeProcess
  | chip_detect
  | read
  | verify
  | chip_erase
  deriving DecidableEq

/-- Calling the procedure a table entry names. -/
def ModeProcess.run (env : Env) :
    ModeProcess → SPIMemWorker → Nat → World → Option World
  | ModeProcess.chip_detect => spi_mem_chip_detect_process env
  | ModeProcess.read => spi_mem_read_process env
  | ModeProcess.verify => spi_mem_verify_process env
  | ModeProcess.chip_erase => spi_mem_chip_erase_process env

/-- Modelled from the spec: the entry type `SPIMemWorkerModeType` is declared outside the
sources at hand; its field `process` holds a mode procedure or `NULL` (`none`). -/
structure SPIMemWorkerModeType where
  process : Option ModeProcess
  deriving DecidableEq

/-- The dispatch table `spi_mem_worker_modes`, indexed by the mode. -/
def spi_mem_worker_modes : SPIMemWorkerMode → SPIMemWorkerModeType
  | SPIMemWorkerMode.Idle => { process := none }
  | SPIMemWorkerMode.ChipDetect => { process := some ModeProcess.chip_detect }
  | SPIMemWorkerMode.Read => { process := some ModeProcess.read }
  | SPIMemWorkerMode.Verify => { process := some ModeProcess.verify }
  | SPIMemWorkerMode.ChipErase => { process := some ModeProcess.chip_erase }

/-! ## Reading traces -/

/-- The events passed to `spi_mem_run_worker_callback`, in call order. -/
def events (tr : List Act) : List SPIMemCustomEventWorker :=
  tr.filterMap (fun a => match a with | Act.emit e => some e | _ => none)

/-- The chip block reads of a trace: offset, length and result, in call order. -/
def chip_reads (tr : List Act) : List (Nat × Nat × Option (List Nat)) :=
  tr.filterMap (fun a => match a with | Act.read_block_data o l r => some (o, l, r) | _ => none)

/-- The file block writes of a trace: the block written and the result, in call order. -/
def file_writes (tr : List Act) : List (List Nat × Bool) :=
  tr.filterMap (fun a => match a with | Act.file_write_block d ok => some (d, ok) | _ => none)

/-- The file block reads of a trace: length and result, in call order. -/
def file_reads (tr : List Act) : List (Nat × Option (List Nat)) :=
  tr.filterMap (fun a => match a with | Act.file_read_block l r => some (l, r) | _ => none)

/-- The trace entries of one call of `spi_mem_run_worker_callback`. -/
def emit_trace (worker : SPIMemWorker) (event : SPIMemCustomEventWorker) : List Act :=
  match worker.callback with
  | some fn => [Act.emit event, Act.callback fn worker.cb_ctx event]
  | none => [Act.emit event]

/-- Number of chunks of size `c` needed to cover `s` bytes, `ceil(s / c)`. -/
def chunk_count (s c : Nat) : Nat := (s + c - 1) / c

/-- Length of chunk `i` when `s` bytes are cut into chunks of `c`. -/
def chunk_len (s c i : Nat) : Nat := min c (s - i * c)

/-- Trace of pass `i` of the read loop when nothing stops or fails. -/
def read_chunk (env : Env) (worker : SPIMemWorker) (i : Nat) : List Act :=
  let c := env.SPI_MEM_FILE_BUFFER_SIZE
  let data := block (env.chip_data i) (i * c) (chunk_len env.chip_size c i)
  [Act.delay_tick 10, Act.check_for_stop false,
    Act.read_block_data (i * c) (chunk_len env.chip_size c i) (some data),
    Act.file_write_block data true]
  ++ emit_trace worker SPIMemCustomEventWorker.BlockReaded

/-- Trace of the first `k` passes of the read loop when nothing stops or fails. -/
def read_trace (env : Env) (worker : SPIMemWorker) : Nat → List Act
  | 0 => []
  | k + 1 => read_trace env worker k ++ read_chunk env worker k

/-- Loop state of the read loop after `k` passes in which nothing stopped or failed. -/
def read_state (env : Env) (worker : SPIMemWorker) (k : Nat) : LoopState :=
  { world := { World.init with
      trace := read_trace env worker k, n_stop := k, n_chip := k, n_write := k },
    offset := min (k * env.SPI_MEM_FILE_BUFFER_SIZE) env.chip_size,
    success := true }

/-- Final world of a read run of `env` in which nothing stops or fails. -/
def read_done_world (env : Env) (worker : SPIMemWorker) : World :=
  let n := chunk_count env.chip_size env.SPI_MEM_FILE_BUFFER_SIZE
  { World.init with
    trace := read_trace env worker n
      ++ [Act.delay_tick 10, Act.check_for_stop false, Act.file_close]
      ++ emit_trace worker SPIMemCustomEventWorker.ReadDone,
    n_stop := n + 1, n_chip := n, n_write := n }

/-- Block size chosen by the verify loop at `offset`: the buffer size, clamped when the
`size_t` sum `offset + block_size` exceeds the total size. -/
def verify_len (env : Env) (offset : Nat) : Nat :=
  if env.size_add offset env.SPI_MEM_FILE_BUFFER_SIZE > spi_mem_worker_modes_get_total_size env
  then env.size_sub (spi_mem_worker_modes_get_total_size env) offset
  else env.SPI_MEM_FILE_BUFFER_SIZE

/-- Value of `offset` after `k` passes of the verify loop that all went round again. -/
def verify_offset (env : Env) : Nat → Nat
  | 0 => 0
  | k + 1 => env.size_add (verify_offset env k) (verify_len env (verify_offset env k))

/-- File position after `k` passes of the verify loop that all went round again. -/
def verify_fpos (env : Env) : Nat → Nat
  | 0 => 0
  | k + 1 => verify_fpos env k + verify_len env (verify_offset env k)

/-- The four calls pass `k` of the verify loop makes up to the comparison, when no stop is
observed and both reads succeed. -/
def verify_calls (env : Env) (k : Nat) : List Act :=
  [Act.delay_tick 10, Act.check_for_stop false,
    Act.read_block_data (verify_offset env k) (verify_len env (verify_offset env k))
      (some (block (env.chip_data k) (verify_offset env k)
        (verify_len env (verify_offset env k)))),
    Act.file_read_block (verify_len env (verify_offset env k))
      (some (block (env.file_data k) (verify_fpos env k)
        (verify_len env (verify_offset env k))))]

/-- Trace of the open and the first `k` passes of the verify loop when nothing stops or
fails and every compared block matches. -/
def verify_trace (env : Env) (worker : SPIMemWorker) : Nat → List Act
  | 0 => [Act.file_open true]
  | k + 1 => verify_trace env worker k ++ verify_calls env k
      ++ emit_trace worker SPIMemCustomEventWorker.BlockReaded

/-- World after the open and `k` passes of the verify loop that all went round again. -/
def verify_world (env : Env) (worker : SPIMemWorker) (k : Nat) : World :=
  { World.init with
    trace := verify_trace env worker k, n_open := 1, n_stop := k, n_chip := k,
    n_fread := k, fpos := verify_fpos env k }

/-- Loop state after the open and `k` passes of the verify loop that all went round
again. -/
def verify_state (env : Env) (worker : SPIMemWorker) (k : Nat) : LoopState :=
  { world := verify_world env worker k, offset := verify_offset env k, success := true }

/-- Final world of a verify run that leaves the loop in pass `k` because the offset has
reached the total size. -/
def verify_done_world (env : Env) (worker : SPIMemWorker) (k : Nat) : World :=
  { verify_world env worker k with
    trace := verify_trace env worker k
      ++ [Act.delay_tick 10, Act.check_for_stop false, Act.file_close]
      ++ emit_trace worker SPIMemCustomEventWorker.VerifyDone,
    n_stop := k + 1 }

/-- Final world of a verify run whose pass `k` finds the two blocks different. -/
def verify_mismatch_world (env : Env) (worker : SPIMemWorker) (k : Nat) : World :=
  { verify_world env worker (k + 1) with
    trace := verify_trace env worker k ++ verify_calls env k
      ++ emit_trace worker SPIMemCustomEventWorker.VerifyFail ++ [Act.file_close] }

/-- Final world of a verify run whose chip read fails in pass `k`. -/
def verify_chipfail_world (env : Env) (worker : SPIMemWorker) (k : Nat) : World :=
  { verify_world env worker k with
    trace := verify_trace env worker k
      ++ [Act.delay_tick 10, Act.check_for_stop false,
          Act.read_block_data (verify_offset env k) (verify_len env (verify_offset env k)) none]
      ++ emit_trace worker SPIMemCustomEventWorker.ChipReadFail ++ [Act.file_close],
    n_stop := k + 1, n_chip := k + 1 }

/-- The first `k` passes of the verify loop all go round again: each starts below the
total size, observes no stop, reads chip and file successfully and finds equal blocks. -/
def verify_prefix_ok (env : Env) (k : Nat) : Prop :=
  ∀ i, i < k →
    verify_offset env i < spi_mem_worker_modes_get_total_size env ∧
    env.stop i = false ∧ env.chip_ok i = true ∧ env.fread_ok i = true ∧
    block (env.chip_data i) (verify_offset env i) (verify_len env (verify_offset env i))
      = block (env.file_data i) (verify_fpos env i) (verify_len env (verify_offset env i))

/-- An environment in which nothing stops or fails: `size_t` has `bits` bits, the buffer
holds `c` bytes, chip and file report the sizes `a` and `b` and hold the bytes `mem` and
`art`; the chip is complete and ready. -/
def plain_env (bits c a b : Nat) (mem art : Nat → Nat) : Env :=
  { size_bits := bits, SPI_MEM_FILE_BUFFER_SIZE := c, chip_size := a, file_size := b,
    stop := fun _ => false, info_ok := fun _ => true, complete := fun _ => true,
    status := fun _ => SPIMemChipStatus.Ready, chip_ok := fun _ => true,
    chip_data := fun _ => mem, wen_ok := fun _ => true, erase_ok := fun _ => true,
    open_ok := fun _ => true, write_ok := fun _ => true, fread_ok := fun _ => true,
    file_data := fun _ => art }

/-- A worker with callback `1` registered for context `2`. -/
def demo_worker : SPIMemWorker := { callback := some 1, cb_ctx := 2 }

/-- A 16-bit environment with a 4-byte buffer and a 10-byte chip and file holding the
same bytes. -/
def demo_env : Env := plain_env 16 4 10 10 (fun a => a % 256) (fun a => a % 256)

/-- Chip and file of `2 ^ 32 - 1` bytes, all zero, on a 32-bit `size_t` with a 4096-byte
buffer; nothing stops or fails. -/
def overflow_env : Env := plain_env 32 4096 4294967295 4294967295 (fun _ => 0) (fun _ => 0)

/-- Chip and file of 8 bytes that differ in byte 0 only, with a 4-byte buffer. -/
def mismatch_env : Env :=
  plain_env 16 4 8 8 (fun _ => 0) (fun a => if a = 0 then 1 else 0)

/-- Block size chosen by the read loop at `offset`: the buffer size, clamped when the
`size_t` sum `offset + block_size` exceeds the chip size. -/
def read_len (env : Env) (offset : Nat) : Nat :=
  if env.size_add offset env.SPI_MEM_FILE_BUFFER_SIZE > env.chip_size
  then env.size_sub env.chip_size offset
  else env.SPI_MEM_FILE_BUFFER_SIZE

/-- Final world of a read run whose chip read fails in pass `k`, after `k` full chunks. -/
def read_chipfail_world (env : Env) (worker : SPIMemWorker) (k : Nat) : World :=
  { World.init with
    trace := read_trace env worker k
      ++ [Act.delay_tick 10, Act.check_for_stop false,
          Act.read_block_data (k * env.SPI_MEM_FILE_BUFFER_SIZE)
            (read_len env (k * env.SPI_MEM_FILE_BUFFER_SIZE)) none]
      ++ emit_trace worker SPIMemCustomEventWorker.ChipReadFail ++ [Act.file_close],
    n_stop := k + 1, n_chip := k + 1, n_write := k }

/-- Number of `spi_mem_file_close` calls in a trace. -/
def closes (tr : List Act) : Nat := tr.count Act.file_close

/-- Demo environment in which every stop check observes a stop request. -/
def stop_env : Env := { demo_env with stop := fun _ => true }

/-- A read trace without failure: only `BlockReaded` events, every chip read and every
file write successful. -/
def read_clean (tr : List Act) : Prop :=
  (∀ e ∈ events tr, e = SPIMemCustomEventWorker.BlockReaded) ∧
  (∀ x ∈ chip_reads tr, x.2.2 ≠ none) ∧ (∀ p ∈ file_writes tr, p.2 = true)

/-- A read trace with a failure: no `ReadDone`, a failure event, and a failed chip read
or file write. -/
def read_failed (tr : List Act) : Prop :=
  (∀ e ∈ events tr, e ≠ SPIMemCustomEventWorker.ReadDone) ∧
  (SPIMemCustomEventWorker.ChipReadFail ∈ events tr
    ∨ SPIMemCustomEventWorker.WriteFileFail ∈ events tr) ∧
  ((∃ x ∈ chip_reads tr, x.2.2 = none) ∨ (∃ p ∈ file_writes tr, p.2 = false))

/-- A verify trace without failure: only `BlockReaded` events. -/
def verify_clean (tr : List Act) : Prop :=
  ∀ e ∈ events tr, e = SPIMemCustomEventWorker.BlockReaded

/-- A verify trace with a failure: no `VerifyDone` and a failure event. -/
def verify_failed (tr : List Act) : Prop :=
  (∀ e ∈ events tr, e ≠ SPIMemCustomEventWorker.VerifyDone) ∧
  (SPIMemCustomEventWorker.ChipReadFail ∈ events tr
    ∨ SPIMemCustomEventWorker.ReadFileFail ∈ events tr
    ∨ SPIMemCustomEventWorker.VerifyFail ∈ events tr)

/-- The loop state a pass ends in, whether it leaves the loop or goes round again. -/
def Step.out {σ : Type} : Step σ σ → σ
  | Step.brk r => r
  | Step.cont s => s

/-- Whether a pass leaves the loop. -/
def Step.leaves {σ ρ : Type} : Step σ ρ → Bool
  | Step.brk _ => true
  | Step.cont _ => false

/-- Calls made by `spi_mem_worker_await_chip_busy`: delay, stop check, status query. -/
def is_poll : Act → Bool
  | Act.delay_ms _ => true
  | Act.check_for_stop _ => true
  | Act.get_chip_status _ => true
  | _ => false

/-- The flag `spi_mem_worker_await_chip_busy` returns, read off the calls it made: `false`
exactly when its last call is a status query answered `Error`. -/
def await_reports (a : List Act) : Bool :=
  decide (a.getLast? ≠ some (Act.get_chip_status SPIMemChipStatus.Error))

/-- Run an ordered list of steps, each given by the calls it makes and the flag it
reports, up to and including the first step that reports failure: the calls made, and
whether every step reported success. -/
def run_steps : List (List Act × Bool) → List Act × Bool
  | [] => ([], true)
  | (calls, ok) :: rest =>
    if ok then (calls ++ (run_steps rest).1, (run_steps rest).2) else (calls, false)

/-- The five ordered steps of the erase procedure: await ready (calls `a1`), write-enable
on (reporting `r2`), erase chip (`r3`), await ready (calls `a2`), write-enable off (`r5`). -/
def erase_steps (a1 : List Act) (r2 r3 : Bool) (a2 : List Act) (r5 : Bool) :
    List (List Act × Bool) :=
  [(a1, await_reports a1), ([Act.set_write_enabled true r2], r2), ([Act.erase_chip r3], r3),
    (a2, await_reports a2), ([Act.set_write_enabled false r5], r5)]

/-- Demo environment whose erase command fails. -/
def erase_fail_env : Env := { demo_env with erase_ok := fun _ => false }

/-- Chip and file of 10 bytes that differ in byte 5 only, with a 4-byte buffer. -/
def diff5_env : Env :=
  plain_env 16 4 10 10 (fun _ => 0) (fun a => if a = 5 then 1 else 0)

/-- Demo environment whose second chip read (chunk 1) fails. -/
def chipfail_env : Env := { demo_env with chip_ok := fun k => decide (k ≠ 1) }

/-- Demo environment whose second stop check observes a stop request. -/
def stop_second_env : Env := { demo_env with stop := fun k => decide (k = 1) }

/-- Calls of one poll round of the busy-wait helper that observes no stop request and
finds the chip busy. -/
def busy_round : List Act :=
  [Act.delay_ms 200, Act.check_for_stop false, Act.get_chip_status SPIMemChipStatus.Busy]

/-- Calls of a poll round of the busy-wait helper given the stop flag and the chip status
of the round: the status is queried only when no stop request is observed. -/
def poll_round (stop : Bool) (status : SPIMemChipStatus) : List Act :=
  if stop then [Act.delay_ms 200, Act.check_for_stop true]
  else [Act.delay_ms 200, Act.check_for_stop false, Act.get_chip_status status]

/-- World after `j` poll rounds of the busy-wait helper started in `w`, each observing no
stop request and finding the chip busy. -/
def await_world (w : World) (j : Nat) : World :=
  { w with
    trace := w.trace ++ (List.replicate j busy_round).flatten,
    n_stop := w.n_stop + j, n_status := w.n_status + j }

/-- Demo environment whose chip is busy in the first two polls and reports an error in
the third. -/
def busy_env : Env :=
  { demo_env with
    status := fun k => if k < 2 then SPIMemChipStatus.Busy else SPIMemChipStatus.Error }

/-- Calls of one pass of the chip-detect loop whose identification attempt fails and
whose stop check observes no stop request. -/
def retry_round : List Act := [Act.read_chip_info false, Act.check_for_stop false]

/-- World after `j` passes of the chip-detect loop started in `w`, each with a failed
attempt and no stop request observed. -/
def detect_world (w : World) (j : Nat) : World :=
  { w with
    trace := w.trace ++ (List.replicate j retry_round).flatten,
    n_info := w.n_info + j, n_stop := w.n_stop + j }

/-- Demo environment whose identification succeeds at the third attempt and finds the chip
information incomplete. -/
def detect_env : Env :=
  { demo_env with info_ok := fun k => decide (2 ≤ k), complete := fun _ => false }

/-- Demo environment whose identification never succeeds and whose second stop check
observes a stop request. -/
def detect_stop_env : Env :=
  { demo_env with info_ok := fun _ => false, stop := fun k => decide (k = 1) }


/-- Demo environment in which opening the file fails. -/
def open_fail_env : Env := { demo_env with open_ok := fun _ => false }

/-- The chip and file transfers of a trace: block reads from the chip and block writes to
and reads from the file. -/
def is_transfer : Act → Bool
  | Act.read_block_data _ _ _ => true
  | Act.file_write_block _ _ => true
  | Act.file_read_block _ _ => true
  | _ => false

/-- Whether a trace entry is an invocation of the registered callback. -/
def is_callback : Act → Bool
  | Act.callback _ _ _ => true
  | _ => false

/-- The calls of a trace apart from the invocations of the registered callback: every chip
and file operation, delay, stop check and event, in call order. -/
def ops (tr : List Act) : List Act := tr.filter (fun a => !is_callback a)

/-- The invocations of the registered callback in a trace: callback, context and event. -/
def callbacks (tr : List Act) : List (Nat × Nat × SPIMemCustomEventWorker) :=
  tr.filterMap (fun a => match a with | Act.callback fn ctx e => some (fn, ctx, e) | _ => none)

/-- A world with the callback invocations removed from its trace. -/
def World.hide (w : World) : World := { w with trace := ops w.trace }

/-- A loop state with the callback invocations removed from its trace. -/
def LoopState.hide (s : LoopState) : LoopState := { s with world := s.world.hide }

/-- A worker without a registered callback. -/
def silent : SPIMemWorker := { callback := none, cb_ctx := 0 }

/-- Apply a function to the state or result a pass ends in. -/
def Step.map {σ ρ σ1 ρ1 : Type} (f : σ → σ1) (g : ρ → ρ1) : Step σ ρ → Step σ1 ρ1
  | Step.brk r => Step.brk (g r)
  | Step.cont s => Step.cont (f s)

/-- Value of `offset` after `k` passes of the read loop that all went round again. -/
def read_offset (env : Env) : Nat → Nat
  | 0 => 0
  | k + 1 => env.size_add (read_offset env k) (read_len env (read_offset env k))

/-- The calls pass `k` of the read loop makes when no stop is observed and the chip read
and the file write succeed, whatever the offset arithmetic does. -/
def read_calls (env : Env) (worker : SPIMemWorker) (k : Nat) : List Act :=
  [Act.delay_tick 10, Act.check_for_stop false,
    Act.read_block_data (read_offset env k) (read_len env (read_offset env k))
      (some (block (env.chip_data k) (read_offset env k) (read_len env (read_offset env k)))),
    Act.file_write_block
      (block (env.chip_data k) (read_offset env k) (read_len env (read_offset env k))) true]
  ++ emit_trace worker SPIMemCustomEventWorker.BlockReaded

/-- Trace of the first `k` passes of the read loop that all went round again. -/
def read_pass_trace (env : Env) (worker : SPIMemWorker) : Nat → List Act
  | 0 => []
  | k + 1 => read_pass_trace env worker k ++ read_calls env worker k

/-- Loop state after `k` passes of the read loop that all went round again. -/
def read_pass_state (env : Env) (worker : SPIMemWorker) (k : Nat) : LoopState :=
  { world := { World.init with
      trace := read_pass_trace env worker k, n_stop := k, n_chip := k, n_write := k },
    offset := read_offset env k, success := true }

/-- The calls of a run of the busy-wait helper that ends in poll round `j`, when `n_stop`
stop checks and `n_status` status queries were made before it: `j` rounds that observe no
stop request and find the chip busy, then the round that ends the wait. -/
def wait_calls (env : Env) (n_stop n_status j : Nat) : List Act :=
  (List.replicate j busy_round).flatten
    ++ poll_round (env.stop (n_stop + j)) (env.status (n_status + j))

/-- Poll round `j` is the one that ends a run of the busy-wait helper started after
`n_stop` stop checks and `n_status` status queries: every earlier round observes no stop
request and finds the chip busy, round `j` observes a stop request or a status other than
`Busy`. -/
def wait_ends (env : Env) (n_stop n_status j : Nat) : Prop :=
  (∀ i, i < j → env.stop (n_stop + i) = false
    ∧ env.status (n_status + i) = SPIMemChipStatus.Busy) ∧
  (env.stop (n_stop + j) = true ∨ env.status (n_status + j) ≠ SPIMemChipStatus.Busy)

/-- Number of status queries made once a run of the busy-wait helper has ended in round
`j`: the last round queries the status only if it observes no stop request. -/
def wait_status_count (env : Env) (n_stop n_status j : Nat) : Nat :=
  if env.stop (n_stop + j) then n_status + j else n_status + j + 1

/-! ## Loop and trace lemmas -/

theorem loop_brk {σ ρ : Type} (body : σ → Step σ ρ) (fuel : Nat) (s : σ) (r : ρ)
    (h : body s = Step.brk r) : loop body (fuel + 1) s = some r := by
  simp [loop, h]

theorem loop_cont {σ ρ : Type} (body : σ → Step σ ρ) (fuel : Nat) (s s1 : σ)
    (h : body s = Step.cont s1) : loop body (fuel + 1) s = loop body fuel s1 := by
  simp [loop, h]

theorem loop_iterate {σ ρ : Type} (body : σ → Step σ ρ) (f : Nat → σ) (k : Nat)
    (h : ∀ i, i < k → body (f i) = Step.cont (f (i + 1))) (fuel : Nat) :
    loop body (fuel + k) (f 0) = loop body fuel (f k) := by
  induction k generalizing fuel with
  | zero => rfl
  | succ k ih =>
    have h1 := ih (fun i hi => h i (Nat.lt_succ_of_lt hi)) (fuel + 1)
    rw [show fuel + (k + 1) = fuel + 1 + k by omega, h1]
    exact loop_cont body fuel _ _ (h k (Nat.lt_succ_self k))

theorem loop_mono {σ ρ : Type} (body : σ → Step σ ρ) {fuel fuel1 : Nat} {s : σ} {r : ρ}
    (h : loop body fuel s = some r) (hle : fuel ≤ fuel1) : loop body fuel1 s = some r := by
  induction fuel generalizing fuel1 s with
  | zero => simp [loop] at h
  | succ n ih =>
    obtain ⟨m, rfl⟩ : ∃ m, fuel1 = m + 1 := ⟨fuel1 - 1, by omega⟩
    cases hb : body s with
    | brk r1 => simp [loop, hb] at h ⊢; exact h
    | cont s1 =>
      simp only [loop, hb] at h ⊢
      exact ih h (by omega)

theorem run_worker_callback_eq (worker : SPIMemWorker) (event : SPIMemCustomEventWorker)
    (w : World) :
    spi_mem_run_worker_callback worker event w
      = { w with trace := w.trace ++ emit_trace worker event } := by
  cases hcb : worker.callback <;>
    simp [spi_mem_run_worker_callback, emit_trace, World.log, hcb]

theorem events_append (a b : List Act) : events (a ++ b) = events a ++ events b := by
  simp [events]

theorem events_emit_trace (worker : SPIMemWorker) (e : SPIMemCustomEventWorker) :
    events (emit_trace worker e) = [e] := by
  cases hcb : worker.callback <;> simp [events, emit_trace, hcb]

theorem size_add_eq (env : Env) (a b : Nat) (h : a + b < env.size_mod) :
    env.size_add a b = a + b := by
  simp [Env.size_add, Nat.mod_eq_of_lt h]

theorem size_sub_eq (env : Env) (a b : Nat) (hb : b ≤ a) (ha : a < env.size_mod) :
    env.size_sub a b = a - b := by
  unfold Env.size_sub
  rw [show a + env.size_mod - b = (a - b) + env.size_mod by omega, Nat.add_mod_right]
  exact Nat.mod_eq_of_lt (by omega)

theorem read_step (env : Env) (worker : SPIMemWorker) (i : Nat)
    (hi : i * env.SPI_MEM_FILE_BUFFER_SIZE < env.chip_size)
    (hw : i * env.SPI_MEM_FILE_BUFFER_SIZE + env.SPI_MEM_FILE_BUFFER_SIZE < env.size_mod)
    (hS : env.chip_size < env.size_mod)
    (hstop : env.stop i = false) (hchip : env.chip_ok i = true)
    (hwrite : env.write_ok i = true) :
    spi_mem_read_process_body env worker env.chip_size (read_state env worker i)
      = Step.cont (read_state env worker (i + 1)) := by
  have hoff : min (i * env.SPI_MEM_FILE_BUFFER_SIZE) env.chip_size
      = i * env.SPI_MEM_FILE_BUFFER_SIZE := by omega
  have hadd := size_add_eq env _ _ hw
  have hsub := size_sub_eq env env.chip_size (i * env.SPI_MEM_FILE_BUFFER_SIZE) (by omega) hS
  by_cases hc : i * env.SPI_MEM_FILE_BUFFER_SIZE + env.SPI_MEM_FILE_BUFFER_SIZE > env.chip_size
  · have hlen : chunk_len env.chip_size env.SPI_MEM_FILE_BUFFER_SIZE i
        = env.chip_size - i * env.SPI_MEM_FILE_BUFFER_SIZE := by
      unfold chunk_len; omega
    have hadd2 : env.size_add (i * env.SPI_MEM_FILE_BUFFER_SIZE)
        (env.chip_size - i * env.SPI_MEM_FILE_BUFFER_SIZE) = env.chip_size := by
      rw [size_add_eq env _ _ (by omega)]; omega
    have hnext : min ((i + 1) * env.SPI_MEM_FILE_BUFFER_SIZE) env.chip_size = env.chip_size := by
      rw [Nat.succ_mul]; omega
    simp [spi_mem_read_process_body, read_state, furi_delay_tick, World.log,
      spi_mem_worker_check_for_stop, spi_mem_tools_read_block_data, spi_mem_file_write_block,
      run_worker_callback_eq, World.init, hstop, hchip, hwrite, hoff, hadd, hsub, hc, hlen,
      hadd2, hnext, read_trace, read_chunk, Nat.not_le.mpr hi]
  · have hlen : chunk_len env.chip_size env.SPI_MEM_FILE_BUFFER_SIZE i
        = env.SPI_MEM_FILE_BUFFER_SIZE := by
      unfold chunk_len; omega
    have hnext : min ((i + 1) * env.SPI_MEM_FILE_BUFFER_SIZE) env.chip_size
        = i * env.SPI_MEM_FILE_BUFFER_SIZE + env.SPI_MEM_FILE_BUFFER_SIZE := by
      rw [Nat.succ_mul]; omega
    simp [spi_mem_read_process_body, read_state, furi_delay_tick, World.log,
      spi_mem_worker_check_for_stop, spi_mem_tools_read_block_data, spi_mem_file_write_block,
      run_worker_callback_eq, World.init, hstop, hchip, hwrite, hoff, hadd, hc, hlen,
      hnext, read_trace, read_chunk, Nat.not_le.mpr hi]

theorem chunk_count_lt (s c i : Nat) (hc : 0 < c) : i < chunk_count s c ↔ i * c < s := by
  unfold chunk_count
  rw [Nat.lt_iff_add_one_le, Nat.le_div_iff_mul_le hc, Nat.succ_mul]
  omega

theorem chunk_count_mul_ge (s c : Nat) (hc : 0 < c) : s ≤ chunk_count s c * c := by
  have h := (chunk_count_lt s c (chunk_count s c) hc).not.mp (Nat.lt_irrefl _)
  omega

theorem read_last (env : Env) (worker : SPIMemWorker) (k : Nat)
    (hk : env.chip_size ≤ k * env.SPI_MEM_FILE_BUFFER_SIZE) (hstop : env.stop k = false) :
    spi_mem_read_process_body env worker env.chip_size (read_state env worker k)
      = Step.brk
        { world :=
            { World.init with
              trace := read_trace env worker k ++ [Act.delay_tick 10, Act.check_for_stop false],
              n_stop := k + 1, n_chip := k, n_write := k },
          offset := env.chip_size, success := true } := by
  simp [spi_mem_read_process_body, read_state, furi_delay_tick, World.log,
    spi_mem_worker_check_for_stop, World.init, hstop, Nat.min_eq_right hk]

theorem read_state_zero (env : Env) (worker : SPIMemWorker) :
    read_state env worker 0 = { world := World.init, offset := 0, success := true } := by
  simp [read_state, read_trace, World.init]

theorem read_run (env : Env) (worker : SPIMemWorker)
    (hC : 0 < env.SPI_MEM_FILE_BUFFER_SIZE)
    (hrange : env.chip_size + env.SPI_MEM_FILE_BUFFER_SIZE < env.size_mod)
    (hstop : ∀ k, k ≤ chunk_count env.chip_size env.SPI_MEM_FILE_BUFFER_SIZE → env.stop k = false)
    (hchip : ∀ k, k < chunk_count env.chip_size env.SPI_MEM_FILE_BUFFER_SIZE → env.chip_ok k = true)
    (hwrite : ∀ k, k < chunk_count env.chip_size env.SPI_MEM_FILE_BUFFER_SIZE → env.write_ok k = true) (fuel : Nat)
    (hfuel : chunk_count env.chip_size env.SPI_MEM_FILE_BUFFER_SIZE < fuel) :
    spi_mem_read_process env worker fuel World.init = some (read_done_world env worker) := by
  obtain ⟨m, rfl⟩ : ∃ m, fuel
      = (m + 1) + chunk_count env.chip_size env.SPI_MEM_FILE_BUFFER_SIZE :=
    ⟨fuel - chunk_count env.chip_size env.SPI_MEM_FILE_BUFFER_SIZE - 1, by omega⟩
  have hsteps : ∀ i, i < chunk_count env.chip_size env.SPI_MEM_FILE_BUFFER_SIZE →
      spi_mem_read_process_body env worker env.chip_size (read_state env worker i)
        = Step.cont (read_state env worker (i + 1)) := by
    intro i hi
    have h1 := (chunk_count_lt _ _ i hC).mp hi
    exact read_step env worker i h1 (by omega) (by omega) (hstop i (Nat.le_of_lt hi))
      (hchip i hi) (hwrite i hi)
  have hge := chunk_count_mul_ge env.chip_size env.SPI_MEM_FILE_BUFFER_SIZE hC
  simp only [spi_mem_read_process, spi_mem_chip_get_size]
  rw [← read_state_zero env worker, loop_iterate _ (read_state env worker) _ hsteps (m + 1),
    loop_brk _ _ _ _ (read_last env worker _ hge (hstop _ (Nat.le_refl _)))]
  simp [read_done_world, spi_mem_file_close, World.log, run_worker_callback_eq, World.init]

theorem events_read_trace (env : Env) (worker : SPIMemWorker) (k : Nat) :
    events (read_trace env worker k)
      = List.replicate k SPIMemCustomEventWorker.BlockReaded := by
  induction k with
  | zero => rfl
  | succ k ih =>
    rw [read_trace, events_append, ih, List.replicate_succ', read_chunk, events_append,
      events_emit_trace]
    rfl

theorem chip_reads_emit_trace (worker : SPIMemWorker) (e : SPIMemCustomEventWorker) :
    chip_reads (emit_trace worker e) = [] := by
  cases hcb : worker.callback <;> simp [chip_reads, emit_trace, hcb]

theorem file_writes_emit_trace (worker : SPIMemWorker) (e : SPIMemCustomEventWorker) :
    file_writes (emit_trace worker e) = [] := by
  cases hcb : worker.callback <;> simp [file_writes, emit_trace, hcb]

theorem chip_reads_append (a b : List Act) :
    chip_reads (a ++ b) = chip_reads a ++ chip_reads b := by
  simp [chip_reads]

theorem file_writes_append (a b : List Act) :
    file_writes (a ++ b) = file_writes a ++ file_writes b := by
  simp [file_writes]

theorem chip_reads_read_trace (env : Env) (worker : SPIMemWorker) (k : Nat) :
    chip_reads (read_trace env worker k)
      = (List.range k).map (fun i =>
          (i * env.SPI_MEM_FILE_BUFFER_SIZE,
            chunk_len env.chip_size env.SPI_MEM_FILE_BUFFER_SIZE i,
            some (block (env.chip_data i) (i * env.SPI_MEM_FILE_BUFFER_SIZE)
              (chunk_len env.chip_size env.SPI_MEM_FILE_BUFFER_SIZE i)))) := by
  induction k with
  | zero => rfl
  | succ k ih =>
    rw [read_trace, chip_reads_append, ih, List.range_succ, List.map_append, read_chunk,
      chip_reads_append, chip_reads_emit_trace]
    rfl

theorem file_writes_read_trace (env : Env) (worker : SPIMemWorker) (k : Nat) :
    file_writes (read_trace env worker k)
      = (List.range k).map (fun i =>
          (block (env.chip_data i) (i * env.SPI_MEM_FILE_BUFFER_SIZE)
              (chunk_len env.chip_size env.SPI_MEM_FILE_BUFFER_SIZE i), true)) := by
  induction k with
  | zero => rfl
  | succ k ih =>
    rw [read_trace, file_writes_append, ih, List.range_succ, List.map_append, read_chunk,
      file_writes_append, file_writes_emit_trace]
    rfl
theorem block_length (src : Nat → Nat) (start len : Nat) : (block src start len).length = len := by
  simp [block]

theorem chunk_len_step (s c k : Nat) : min ((k + 1) * c) s = min (k * c) s + chunk_len s c k := by
  unfold chunk_len
  rw [Nat.succ_mul]
  omega

theorem chunk_len_sum (s c k : Nat) :
    ((List.range k).map (chunk_len s c)).sum = min (k * c) s := by
  induction k with
  | zero => simp
  | succ k ih =>
    rw [List.range_succ, List.map_append, List.sum_append, ih, chunk_len_step]
    simp

theorem flatten_blocks (f : Nat → Nat → Nat) (s c k : Nat) :
    ((List.range k).map (fun i => block (f i) (i * c) (chunk_len s c i))).flatten
      = (List.range (min (k * c) s)).map (fun a => f (a / c) a) := by
  induction k with
  | zero => simp
  | succ k ih =>
    rw [List.range_succ, List.map_append, List.flatten_append, ih, chunk_len_step,
      List.range_add, List.map_append]
    congr 1
    simp only [List.map_cons, List.map_nil, List.flatten_cons, List.flatten_nil,
      List.append_nil, block, List.map_map]
    apply List.map_congr_left
    intro j hj
    have hj1 : j < chunk_len s c k := List.mem_range.mp hj
    have hlt : k * c < s := by unfold chunk_len at hj1; omega
    have hjc : j < c := by unfold chunk_len at hj1; omega
    have hmin : min (k * c) s = k * c := by omega
    have hdiv : (k * c + j) / c = k := Nat.div_eq_of_lt_le (by omega) (by rw [Nat.succ_mul]; omega)
    simp [hmin, hdiv]

theorem verify_state_zero (env : Env) (worker : SPIMemWorker)
    (hopen : env.open_ok 0 = true) :
    spi_mem_file_open env World.init = (true, (verify_state env worker 0).world) := by
  simp [spi_mem_file_open, verify_state, verify_world, verify_trace, verify_fpos, World.init,
    hopen]

theorem verify_step (env : Env) (worker : SPIMemWorker) (k : Nat)
    (hlt : verify_offset env k < spi_mem_worker_modes_get_total_size env)
    (hstop : env.stop k = false) (hchip : env.chip_ok k = true)
    (hfread : env.fread_ok k = true)
    (heq : block (env.chip_data k) (verify_offset env k) (verify_len env (verify_offset env k))
      = block (env.file_data k) (verify_fpos env k) (verify_len env (verify_offset env k))) :
    spi_mem_verify_process_body env worker (spi_mem_worker_modes_get_total_size env)
        (verify_state env worker k)
      = Step.cont (verify_state env worker (k + 1)) := by
  have hlen : (if env.size_add (verify_offset env k) env.SPI_MEM_FILE_BUFFER_SIZE
        > spi_mem_worker_modes_get_total_size env
      then env.size_sub (spi_mem_worker_modes_get_total_size env) (verify_offset env k)
      else env.SPI_MEM_FILE_BUFFER_SIZE) = verify_len env (verify_offset env k) := rfl
  simp only [spi_mem_verify_process_body, verify_state, verify_world, furi_delay_tick,
    World.log, spi_mem_worker_check_for_stop, spi_mem_tools_read_block_data,
    spi_mem_file_read_block, run_worker_callback_eq, World.init, hstop, hchip, hfread,
    hlen, heq]
  simp [Nat.not_le.mpr hlt, verify_trace, verify_calls, verify_offset, verify_fpos, heq]

theorem verify_step_mismatch (env : Env) (worker : SPIMemWorker) (k : Nat)
    (hlt : verify_offset env k < spi_mem_worker_modes_get_total_size env)
    (hstop : env.stop k = false) (hchip : env.chip_ok k = true)
    (hfread : env.fread_ok k = true)
    (hne : block (env.chip_data k) (verify_offset env k) (verify_len env (verify_offset env k))
      ≠ block (env.file_data k) (verify_fpos env k) (verify_len env (verify_offset env k))) :
    spi_mem_verify_process_body env worker (spi_mem_worker_modes_get_total_size env)
        (verify_state env worker k)
      = Step.brk
        { world :=
            { verify_world env worker (k + 1) with
              trace := verify_trace env worker k ++ verify_calls env k
                ++ emit_trace worker SPIMemCustomEventWorker.VerifyFail },
          offset := verify_offset env k, success := false } := by
  have hlen : (if env.size_add (verify_offset env k) env.SPI_MEM_FILE_BUFFER_SIZE
        > spi_mem_worker_modes_get_total_size env
      then env.size_sub (spi_mem_worker_modes_get_total_size env) (verify_offset env k)
      else env.SPI_MEM_FILE_BUFFER_SIZE) = verify_len env (verify_offset env k) := rfl
  simp only [spi_mem_verify_process_body, verify_state, verify_world, furi_delay_tick,
    World.log, spi_mem_worker_check_for_stop, spi_mem_tools_read_block_data,
    spi_mem_file_read_block, run_worker_callback_eq, World.init, hstop, hchip, hfread,
    hlen]
  simp [Nat.not_le.mpr hlt, verify_trace, verify_calls, verify_offset, verify_fpos, hne]

theorem verify_step_chipfail (env : Env) (worker : SPIMemWorker) (k : Nat)
    (hlt : verify_offset env k < spi_mem_worker_modes_get_total_size env)
    (hstop : env.stop k = false) (hchip : env.chip_ok k = false) :
    spi_mem_verify_process_body env worker (spi_mem_worker_modes_get_total_size env)
        (verify_state env worker k)
      = Step.brk
        { world :=
            { verify_world env worker k with
              trace := verify_trace env worker k
                ++ [Act.delay_tick 10, Act.check_for_stop false,
                  Act.read_block_data (verify_offset env k)
                    (verify_len env (verify_offset env k)) none]
                ++ emit_trace worker SPIMemCustomEventWorker.ChipReadFail,
              n_stop := k + 1, n_chip := k + 1 },
          offset := verify_offset env k, success := false } := by
  have hlen : (if env.size_add (verify_offset env k) env.SPI_MEM_FILE_BUFFER_SIZE
        > spi_mem_worker_modes_get_total_size env
      then env.size_sub (spi_mem_worker_modes_get_total_size env) (verify_offset env k)
      else env.SPI_MEM_FILE_BUFFER_SIZE) = verify_len env (verify_offset env k) := rfl
  simp only [spi_mem_verify_process_body, verify_state, verify_world, furi_delay_tick,
    World.log, spi_mem_worker_check_for_stop, spi_mem_tools_read_block_data,
    run_worker_callback_eq, World.init, hstop, hchip, hlen]
  simp [Nat.not_le.mpr hlt]

theorem verify_step_done (env : Env) (worker : SPIMemWorker) (k : Nat)
    (hge : spi_mem_worker_modes_get_total_size env ≤ verify_offset env k)
    (hstop : env.stop k = false) :
    spi_mem_verify_process_body env worker (spi_mem_worker_modes_get_total_size env)
        (verify_state env worker k)
      = Step.brk
        { world :=
            { verify_world env worker k with
              trace := verify_trace env worker k
                ++ [Act.delay_tick 10, Act.check_for_stop false],
              n_stop := k + 1 },
          offset := verify_offset env k, success := true } := by
  simp [spi_mem_verify_process_body, verify_state, verify_world, furi_delay_tick,
    World.log, spi_mem_worker_check_for_stop, World.init, hstop, hge]
theorem verify_prefix_steps (env : Env) (worker : SPIMemWorker) (k : Nat)
    (h : verify_prefix_ok env k) (i : Nat) (hi : i < k) :
    spi_mem_verify_process_body env worker (spi_mem_worker_modes_get_total_size env)
        (verify_state env worker i)
      = Step.cont (verify_state env worker (i + 1)) := by
  obtain ⟨h1, h2, h3, h4, h5⟩ := h i hi
  exact verify_step env worker i h1 h2 h3 h4 h5

theorem verify_run_of_brk (env : Env) (worker : SPIMemWorker) (k : Nat) (r : LoopState)
    (hopen : env.open_ok 0 = true) (hpre : verify_prefix_ok env k)
    (hlast : spi_mem_verify_process_body env worker (spi_mem_worker_modes_get_total_size env)
        (verify_state env worker k) = Step.brk r)
    (fuel : Nat) (hfuel : k < fuel) :
    spi_mem_verify_process env worker fuel World.init
      = some (if r.success then
          spi_mem_run_worker_callback worker SPIMemCustomEventWorker.VerifyDone
            (spi_mem_file_close r.world)
        else spi_mem_file_close r.world) := by
  obtain ⟨m, rfl⟩ : ∃ m, fuel = (m + 1) + k := ⟨fuel - k - 1, by omega⟩
  have h0 : ({ world := (verify_state env worker 0).world, offset := 0, success := true }
      : LoopState) = verify_state env worker 0 := rfl
  simp only [spi_mem_verify_process, verify_state_zero env worker hopen, Bool.not_true,
    Bool.false_eq_true, if_false]
  rw [h0, loop_iterate _ (verify_state env worker) k (verify_prefix_steps env worker k hpre)
    (m + 1), loop_brk _ _ _ _ hlast]
  by_cases hs : r.success = true <;> simp [hs]

theorem verify_run_done (env : Env) (worker : SPIMemWorker) (k : Nat)
    (hopen : env.open_ok 0 = true) (hpre : verify_prefix_ok env k)
    (hge : spi_mem_worker_modes_get_total_size env ≤ verify_offset env k)
    (hstop : env.stop k = false) (fuel : Nat) (hfuel : k < fuel) :
    spi_mem_verify_process env worker fuel World.init
      = some (verify_done_world env worker k) := by
  rw [verify_run_of_brk env worker k _ hopen hpre (verify_step_done env worker k hge hstop)
    fuel hfuel]
  simp [verify_done_world, verify_world, spi_mem_file_close, World.log,
    run_worker_callback_eq, World.init]

theorem verify_run_mismatch (env : Env) (worker : SPIMemWorker) (k : Nat)
    (hopen : env.open_ok 0 = true) (hpre : verify_prefix_ok env k)
    (hlt : verify_offset env k < spi_mem_worker_modes_get_total_size env)
    (hstop : env.stop k = false) (hchip : env.chip_ok k = true)
    (hfread : env.fread_ok k = true)
    (hne : block (env.chip_data k) (verify_offset env k) (verify_len env (verify_offset env k))
      ≠ block (env.file_data k) (verify_fpos env k) (verify_len env (verify_offset env k)))
    (fuel : Nat) (hfuel : k < fuel) :
    spi_mem_verify_process env worker fuel World.init
      = some (verify_mismatch_world env worker k) := by
  rw [verify_run_of_brk env worker k _ hopen hpre
    (verify_step_mismatch env worker k hlt hstop hchip hfread hne) fuel hfuel]
  simp [verify_mismatch_world, verify_world, spi_mem_file_close, World.log, World.init]

theorem verify_run_chipfail (env : Env) (worker : SPIMemWorker) (k : Nat)
    (hopen : env.open_ok 0 = true) (hpre : verify_prefix_ok env k)
    (hlt : verify_offset env k < spi_mem_worker_modes_get_total_size env)
    (hstop : env.stop k = false) (hchip : env.chip_ok k = false)
    (fuel : Nat) (hfuel : k < fuel) :
    spi_mem_verify_process env worker fuel World.init
      = some (verify_chipfail_world env worker k) := by
  rw [verify_run_of_brk env worker k _ hopen hpre
    (verify_step_chipfail env worker k hlt hstop hchip) fuel hfuel]
  simp [verify_chipfail_world, verify_world, spi_mem_file_close, World.log, World.init]

theorem total_size_eq_min (env : Env) :
    spi_mem_worker_modes_get_total_size env = min env.chip_size env.file_size := by
  simp only [spi_mem_worker_modes_get_total_size, spi_mem_chip_get_size,
    spi_mem_file_get_size]
  split <;> omega

theorem verify_len_in_range (env : Env) (k : Nat)
    (hrange : spi_mem_worker_modes_get_total_size env + env.SPI_MEM_FILE_BUFFER_SIZE
      < env.size_mod) :
    verify_len env (min (k * env.SPI_MEM_FILE_BUFFER_SIZE)
        (spi_mem_worker_modes_get_total_size env))
      = chunk_len (spi_mem_worker_modes_get_total_size env) env.SPI_MEM_FILE_BUFFER_SIZE k := by
  unfold verify_len chunk_len
  rw [size_add_eq env _ _ (by omega), size_sub_eq env _ _ (by omega) (by omega)]
  split <;> omega

theorem verify_offset_in_range (env : Env) (k : Nat)
    (hrange : spi_mem_worker_modes_get_total_size env + env.SPI_MEM_FILE_BUFFER_SIZE
      < env.size_mod) :
    verify_offset env k = min (k * env.SPI_MEM_FILE_BUFFER_SIZE)
        (spi_mem_worker_modes_get_total_size env) ∧
    verify_fpos env k = min (k * env.SPI_MEM_FILE_BUFFER_SIZE)
        (spi_mem_worker_modes_get_total_size env) := by
  induction k with
  | zero => simp [verify_offset, verify_fpos]
  | succ k ih =>
    obtain ⟨ih1, ih2⟩ := ih
    have hl := verify_len_in_range env k hrange
    have hs := chunk_len_step (spi_mem_worker_modes_get_total_size env)
      env.SPI_MEM_FILE_BUFFER_SIZE k
    simp only [verify_offset, verify_fpos, ih1, ih2, hl]
    rw [size_add_eq env _ _ (by unfold chunk_len; omega)]
    omega

theorem verify_offset_full (env : Env) (k : Nat)
    (hS : spi_mem_worker_modes_get_total_size env < env.size_mod)
    (hk : k * env.SPI_MEM_FILE_BUFFER_SIZE ≤ spi_mem_worker_modes_get_total_size env) :
    verify_offset env k = k * env.SPI_MEM_FILE_BUFFER_SIZE ∧
    verify_fpos env k = k * env.SPI_MEM_FILE_BUFFER_SIZE := by
  induction k with
  | zero => simp [verify_offset, verify_fpos]
  | succ k ih =>
    rw [Nat.succ_mul] at hk
    obtain ⟨ih1, ih2⟩ := ih (by omega)
    have hl : verify_len env (k * env.SPI_MEM_FILE_BUFFER_SIZE)
        = env.SPI_MEM_FILE_BUFFER_SIZE := by
      unfold verify_len
      rw [size_add_eq env _ _ (by omega)]
      simp [Nat.not_lt.mpr hk]
    simp only [verify_offset, verify_fpos, ih1, ih2, hl, Nat.succ_mul]
    rw [size_add_eq env _ _ (by omega)]
    simp
theorem file_reads_append (a b : List Act) :
    file_reads (a ++ b) = file_reads a ++ file_reads b := by
  simp [file_reads]

theorem file_reads_emit_trace (worker : SPIMemWorker) (e : SPIMemCustomEventWorker) :
    file_reads (emit_trace worker e) = [] := by
  cases hcb : worker.callback <;> simp [file_reads, emit_trace, hcb]

theorem events_verify_trace (env : Env) (worker : SPIMemWorker) (k : Nat) :
    events (verify_trace env worker k)
      = List.replicate k SPIMemCustomEventWorker.BlockReaded := by
  induction k with
  | zero => rfl
  | succ k ih =>
    rw [verify_trace, events_append, events_append, ih, List.replicate_succ',
      events_emit_trace]
    simp [events, verify_calls]

theorem chip_reads_verify_trace (env : Env) (worker : SPIMemWorker) (k : Nat) :
    chip_reads (verify_trace env worker k)
      = (List.range k).map (fun i =>
          (verify_offset env i, verify_len env (verify_offset env i),
            some (block (env.chip_data i) (verify_offset env i)
              (verify_len env (verify_offset env i))))) := by
  induction k with
  | zero => rfl
  | succ k ih =>
    rw [verify_trace, chip_reads_append, chip_reads_append, ih, List.range_succ,
      List.map_append, chip_reads_emit_trace]
    simp [chip_reads, verify_calls]

theorem file_reads_verify_trace (env : Env) (worker : SPIMemWorker) (k : Nat) :
    file_reads (verify_trace env worker k)
      = (List.range k).map (fun i =>
          (verify_len env (verify_offset env i),
            some (block (env.file_data i) (verify_fpos env i)
              (verify_len env (verify_offset env i))))) := by
  induction k with
  | zero => rfl
  | succ k ih =>
    rw [verify_trace, file_reads_append, file_reads_append, ih, List.range_succ,
      List.map_append, file_reads_emit_trace]
    simp [file_reads, verify_calls]

theorem events_verify_done (env : Env) (worker : SPIMemWorker) (k : Nat) :
    events (verify_done_world env worker k).trace
      = List.replicate k SPIMemCustomEventWorker.BlockReaded
        ++ [SPIMemCustomEventWorker.VerifyDone] := by
  simp only [verify_done_world, events_append, events_emit_trace, events_verify_trace]
  simp [events]

theorem events_verify_mismatch (env : Env) (worker : SPIMemWorker) (k : Nat) :
    events (verify_mismatch_world env worker k).trace
      = List.replicate k SPIMemCustomEventWorker.BlockReaded
        ++ [SPIMemCustomEventWorker.VerifyFail] := by
  simp only [verify_mismatch_world, events_append, events_emit_trace, events_verify_trace,
    verify_calls]
  simp [events]

theorem events_verify_chipfail (env : Env) (worker : SPIMemWorker) (k : Nat) :
    events (verify_chipfail_world env worker k).trace
      = List.replicate k SPIMemCustomEventWorker.BlockReaded
        ++ [SPIMemCustomEventWorker.ChipReadFail] := by
  simp only [verify_chipfail_world, events_append, events_emit_trace, events_verify_trace]
  simp [events]

theorem chip_reads_verify_done (env : Env) (worker : SPIMemWorker) (k : Nat) :
    chip_reads (verify_done_world env worker k).trace
      = chip_reads (verify_trace env worker k) := by
  simp only [verify_done_world, chip_reads_append, chip_reads_emit_trace]
  simp [chip_reads]

theorem file_reads_verify_done (env : Env) (worker : SPIMemWorker) (k : Nat) :
    file_reads (verify_done_world env worker k).trace
      = file_reads (verify_trace env worker k) := by
  simp only [verify_done_world, file_reads_append, file_reads_emit_trace]
  simp [file_reads]

theorem chip_reads_verify_mismatch (env : Env) (worker : SPIMemWorker) (k : Nat) :
    chip_reads (verify_mismatch_world env worker k).trace
      = chip_reads (verify_trace env worker (k + 1)) := by
  simp only [verify_mismatch_world, verify_trace, chip_reads_append, chip_reads_emit_trace]
  simp [chip_reads]

theorem file_reads_verify_mismatch (env : Env) (worker : SPIMemWorker) (k : Nat) :
    file_reads (verify_mismatch_world env worker k).trace
      = file_reads (verify_trace env worker (k + 1)) := by
  simp only [verify_mismatch_world, verify_trace, file_reads_append, file_reads_emit_trace]
  simp [file_reads]

theorem block_getElem (src : Nat → Nat) (start len i : Nat) (hi : i < len) :
    (block src start len)[i]? = some (src (start + i)) := by
  simp [block, List.getElem?_range hi]

theorem block_congr (f g : Nat → Nat) (start len : Nat)
    (h : ∀ a, a < start + len → f a = g a) : block f start len = block g start len := by
  unfold block
  apply List.map_congr_left
  intro i hi
  exact h _ (by have := List.mem_range.mp hi; omega)

theorem block_eq_at (f g : Nat → Nat) (start len a : Nat)
    (h : block f start len = block g start len) (h1 : start ≤ a) (h2 : a < start + len) :
    f a = g a := by
  have hf := block_getElem f start len (a - start) (by omega)
  have hg := block_getElem g start len (a - start) (by omega)
  rw [h, hg, show start + (a - start) = a by omega] at hf
  exact (Option.some.inj hf).symm
theorem verify_lens_in_range (env : Env) (k : Nat)
    (hrange : spi_mem_worker_modes_get_total_size env + env.SPI_MEM_FILE_BUFFER_SIZE
      < env.size_mod) :
    (List.range k).map (fun i => verify_len env (verify_offset env i))
      = (List.range k).map
          (chunk_len (spi_mem_worker_modes_get_total_size env) env.SPI_MEM_FILE_BUFFER_SIZE) := by
  apply List.map_congr_left
  intro i _
  rw [(verify_offset_in_range env i hrange).1, verify_len_in_range env i hrange]

theorem loop_diverge {σ ρ : Type} (body : σ → Step σ ρ) (f : Nat → σ)
    (h : ∀ i, body (f i) = Step.cont (f (i + 1))) (fuel : Nat) :
    ∀ i, loop body fuel (f i) = none := by
  induction fuel with
  | zero => intro i; rfl
  | succ n ih => intro i; rw [loop_cont body n _ _ (h i)]; exact ih (i + 1)

theorem loop_invariant {σ ρ : Type} (body : σ → Step σ ρ) (I : σ → Prop) (Q : ρ → Prop)
    (hbrk : ∀ s r, I s → body s = Step.brk r → Q r)
    (hcont : ∀ s s1, I s → body s = Step.cont s1 → I s1)
    (fuel : Nat) (s : σ) (r : ρ) (hs : I s) (h : loop body fuel s = some r) : Q r := by
  induction fuel generalizing s with
  | zero => simp [loop] at h
  | succ n ih =>
    cases hb : body s with
    | brk r1 =>
      simp only [loop, hb, Option.some.injEq] at h
      exact h ▸ hbrk s r1 hs hb
    | cont s1 =>
      simp only [loop, hb] at h
      exact ih s1 (hcont s s1 hs hb) h

theorem loop_terminates {σ ρ : Type} (body : σ → Step σ ρ) (I : σ → Prop) (μ : σ → Nat)
    (hcont : ∀ s s1, I s → body s = Step.cont s1 → I s1 ∧ μ s1 < μ s)
    (fuel : Nat) (s : σ) (hs : I s) (hfuel : μ s < fuel) :
    ∃ r, loop body fuel s = some r := by
  induction fuel generalizing s with
  | zero => omega
  | succ n ih =>
    cases hb : body s with
    | brk r1 => exact ⟨r1, by simp [loop, hb]⟩
    | cont s1 =>
      obtain ⟨h1, h2⟩ := hcont s s1 hs hb
      simp only [loop, hb]
      exact ih s1 h1 (by omega)

theorem overflow_env_offsets (k : Nat) :
    verify_offset overflow_env k % 4096 = 0 ∧ verify_offset overflow_env k < 4294967296 ∧
    verify_len overflow_env (verify_offset overflow_env k) = 4096 := by
  have hT : spi_mem_worker_modes_get_total_size overflow_env = 4294967295 := rfl
  have hM : overflow_env.size_mod = 4294967296 := by
    simp [Env.size_mod, overflow_env, plain_env]
  have hC : overflow_env.SPI_MEM_FILE_BUFFER_SIZE = 4096 := rfl
  have hlen : ∀ o, o % 4096 = 0 → verify_len overflow_env o = 4096 := by
    intro o ho
    simp only [verify_len, Env.size_add, hT, hM, hC]
    rw [if_neg (by omega)]
  induction k with
  | zero => exact ⟨rfl, by simp [verify_offset], hlen 0 rfl⟩
  | succ k ih =>
    obtain ⟨h1, h2, h3⟩ := ih
    have ho : verify_offset overflow_env (k + 1)
        = (verify_offset overflow_env k + 4096) % 4294967296 := by
      simp only [verify_offset, h3, Env.size_add, hM]
    have hmod : verify_offset overflow_env (k + 1) % 4096 = 0 := by rw [ho]; omega
    exact ⟨hmod, by rw [ho]; omega, hlen _ hmod⟩

theorem verify_prefix_full (env : Env) (k : Nat)
    (hS : spi_mem_worker_modes_get_total_size env < env.size_mod)
    (hk : k * env.SPI_MEM_FILE_BUFFER_SIZE ≤ spi_mem_worker_modes_get_total_size env)
    (hC : 0 < env.SPI_MEM_FILE_BUFFER_SIZE)
    (hstop : ∀ i, i < k → env.stop i = false) (hchip : ∀ i, i < k → env.chip_ok i = true)
    (hfread : ∀ i, i < k → env.fread_ok i = true)
    (heq : ∀ i, i < k →
      block (env.chip_data i) (i * env.SPI_MEM_FILE_BUFFER_SIZE) env.SPI_MEM_FILE_BUFFER_SIZE
        = block (env.file_data i) (i * env.SPI_MEM_FILE_BUFFER_SIZE)
            env.SPI_MEM_FILE_BUFFER_SIZE) :
    verify_prefix_ok env k := by
  intro i hi
  have hle : (i + 1) * env.SPI_MEM_FILE_BUFFER_SIZE ≤ k * env.SPI_MEM_FILE_BUFFER_SIZE :=
    Nat.mul_le_mul_right _ hi
  rw [Nat.succ_mul] at hle
  obtain ⟨h1, h2⟩ := verify_offset_full env i hS (by omega)
  have hl : verify_len env (i * env.SPI_MEM_FILE_BUFFER_SIZE)
      = env.SPI_MEM_FILE_BUFFER_SIZE := by
    unfold verify_len
    rw [size_add_eq env _ _ (by omega)]
    simp [Nat.not_lt.mpr (show i * env.SPI_MEM_FILE_BUFFER_SIZE + env.SPI_MEM_FILE_BUFFER_SIZE
      ≤ spi_mem_worker_modes_get_total_size env by omega)]
  rw [h1, h2, hl]
  exact ⟨by omega, hstop i hi, hchip i hi, hfread i hi, heq i hi⟩

theorem verify_len_covers (env : Env) (o x : Nat)
    (hS : spi_mem_worker_modes_get_total_size env < env.size_mod)
    (hx : x < spi_mem_worker_modes_get_total_size env) (ho : o ≤ x)
    (hxo : x < o + env.SPI_MEM_FILE_BUFFER_SIZE) :
    x < o + verify_len env o := by
  unfold verify_len
  split
  · rw [size_sub_eq env _ _ (by omega) hS]; omega
  · exact hxo

theorem closes_append (a b : List Act) : closes (a ++ b) = closes a + closes b := by
  simp [closes]

theorem closes_emit_trace (worker : SPIMemWorker) (e : SPIMemCustomEventWorker) :
    closes (emit_trace worker e) = 0 := by
  cases hcb : worker.callback <;> simp [closes, emit_trace, hcb]

theorem closes_read_trace (env : Env) (worker : SPIMemWorker) (k : Nat) :
    closes (read_trace env worker k) = 0 := by
  induction k with
  | zero => rfl
  | succ k ih =>
    rw [read_trace, closes_append, ih, read_chunk, closes_append, closes_emit_trace]
    simp [closes]

theorem closes_verify_trace (env : Env) (worker : SPIMemWorker) (k : Nat) :
    closes (verify_trace env worker k) = 0 := by
  induction k with
  | zero => simp [verify_trace, closes]
  | succ k ih =>
    rw [verify_trace, closes_append, closes_append, ih, closes_emit_trace]
    simp [closes, verify_calls]

theorem read_step_chipfail (env : Env) (worker : SPIMemWorker) (k : Nat)
    (hk : k * env.SPI_MEM_FILE_BUFFER_SIZE < env.chip_size)
    (hstop : env.stop k = false) (hchip : env.chip_ok k = false) :
    spi_mem_read_process_body env worker env.chip_size (read_state env worker k)
      = Step.brk
        { world :=
            { World.init with
              trace := read_trace env worker k
                ++ [Act.delay_tick 10, Act.check_for_stop false,
                    Act.read_block_data (k * env.SPI_MEM_FILE_BUFFER_SIZE)
                      (read_len env (k * env.SPI_MEM_FILE_BUFFER_SIZE)) none]
                ++ emit_trace worker SPIMemCustomEventWorker.ChipReadFail,
              n_stop := k + 1, n_chip := k + 1, n_write := k },
          offset := k * env.SPI_MEM_FILE_BUFFER_SIZE, success := false } := by
  have hoff : min (k * env.SPI_MEM_FILE_BUFFER_SIZE) env.chip_size
      = k * env.SPI_MEM_FILE_BUFFER_SIZE := by omega
  have hlen : (if env.size_add (k * env.SPI_MEM_FILE_BUFFER_SIZE) env.SPI_MEM_FILE_BUFFER_SIZE
        > env.chip_size
      then env.size_sub env.chip_size (k * env.SPI_MEM_FILE_BUFFER_SIZE)
      else env.SPI_MEM_FILE_BUFFER_SIZE)
      = read_len env (k * env.SPI_MEM_FILE_BUFFER_SIZE) := rfl
  simp only [spi_mem_read_process_body, read_state, furi_delay_tick, World.log,
    spi_mem_worker_check_for_stop, spi_mem_tools_read_block_data, run_worker_callback_eq,
    World.init, hstop, hchip, hoff, hlen]
  simp [Nat.not_le.mpr hk]

theorem read_run_of_brk (env : Env) (worker : SPIMemWorker) (k : Nat) (r : LoopState)
    (hsteps : ∀ i, i < k →
      spi_mem_read_process_body env worker env.chip_size (read_state env worker i)
        = Step.cont (read_state env worker (i + 1)))
    (hlast : spi_mem_read_process_body env worker env.chip_size (read_state env worker k)
      = Step.brk r)
    (fuel : Nat) (hfuel : k < fuel) :
    spi_mem_read_process env worker fuel World.init
      = some (if r.success then
          spi_mem_run_worker_callback worker SPIMemCustomEventWorker.ReadDone
            (spi_mem_file_close r.world)
        else spi_mem_file_close r.world) := by
  obtain ⟨m, rfl⟩ : ∃ m, fuel = (m + 1) + k := ⟨fuel - k - 1, by omega⟩
  simp only [spi_mem_read_process, spi_mem_chip_get_size]
  rw [← read_state_zero env worker, loop_iterate _ (read_state env worker) k hsteps (m + 1),
    loop_brk _ _ _ _ hlast]
  by_cases hs : r.success = true <;> simp [hs]

theorem read_run_chipfail (env : Env) (worker : SPIMemWorker) (k : Nat)
    (hC : 0 < env.SPI_MEM_FILE_BUFFER_SIZE) (hS : env.chip_size < env.size_mod)
    (hk : k * env.SPI_MEM_FILE_BUFFER_SIZE < env.chip_size)
    (hstop : ∀ i, i ≤ k → env.stop i = false) (hchip : ∀ i, i < k → env.chip_ok i = true)
    (hwrite : ∀ i, i < k → env.write_ok i = true) (hfail : env.chip_ok k = false)
    (fuel : Nat) (hfuel : k < fuel) :
    spi_mem_read_process env worker fuel World.init
      = some (read_chipfail_world env worker k) := by
  have hsteps : ∀ i, i < k →
      spi_mem_read_process_body env worker env.chip_size (read_state env worker i)
        = Step.cont (read_state env worker (i + 1)) := by
    intro i hi
    have hle : (i + 1) * env.SPI_MEM_FILE_BUFFER_SIZE ≤ k * env.SPI_MEM_FILE_BUFFER_SIZE :=
      Nat.mul_le_mul_right _ hi
    rw [Nat.succ_mul] at hle
    exact read_step env worker i (by omega) (by omega) hS (hstop i (by omega)) (hchip i hi)
      (hwrite i hi)
  rw [read_run_of_brk env worker k _ hsteps
    (read_step_chipfail env worker k hk (hstop k (Nat.le_refl k)) hfail) fuel hfuel]
  simp [read_chipfail_world, spi_mem_file_close, World.log, World.init]

theorem read_body_cases (env : Env) (worker : SPIMemWorker) (s : LoopState) :
    (env.stop s.world.n_stop = true ∧
      spi_mem_read_process_body env worker env.chip_size s = Step.brk
        { s with world := { s.world with
            trace := s.world.trace ++ [Act.delay_tick 10, Act.check_for_stop true],
            n_stop := s.world.n_stop + 1 } }) ∨
    (env.stop s.world.n_stop = false ∧ env.chip_size ≤ s.offset ∧
      spi_mem_read_process_body env worker env.chip_size s = Step.brk
        { s with world := { s.world with
            trace := s.world.trace ++ [Act.delay_tick 10, Act.check_for_stop false],
            n_stop := s.world.n_stop + 1 } }) ∨
    (env.stop s.world.n_stop = false ∧ s.offset < env.chip_size ∧ env.chip_ok s.world.n_chip = false ∧
      ∃ len, spi_mem_read_process_body env worker env.chip_size s = Step.brk
        { s with
          world := { s.world with
            trace := s.world.trace ++ [Act.delay_tick 10, Act.check_for_stop false,
                Act.read_block_data s.offset len none]
              ++ emit_trace worker SPIMemCustomEventWorker.ChipReadFail,
            n_stop := s.world.n_stop + 1, n_chip := s.world.n_chip + 1 },
          success := false }) ∨
    (env.stop s.world.n_stop = false ∧ s.offset < env.chip_size ∧ env.chip_ok s.world.n_chip = true ∧
      env.write_ok s.world.n_write = false ∧
      ∃ len data, spi_mem_read_process_body env worker env.chip_size s = Step.brk
        { s with
          world := { s.world with
            trace := s.world.trace ++ [Act.delay_tick 10, Act.check_for_stop false,
                Act.read_block_data s.offset len (some data), Act.file_write_block data false]
              ++ emit_trace worker SPIMemCustomEventWorker.WriteFileFail,
            n_stop := s.world.n_stop + 1, n_chip := s.world.n_chip + 1,
            n_write := s.world.n_write + 1 },
          success := false }) ∨
    (env.stop s.world.n_stop = false ∧ s.offset < env.chip_size ∧ env.chip_ok s.world.n_chip = true ∧
      env.write_ok s.world.n_write = true ∧
      ∃ data,
        spi_mem_read_process_body env worker env.chip_size s = Step.cont
        { s with
          world := { s.world with
            trace := s.world.trace ++ [Act.delay_tick 10, Act.check_for_stop false,
                Act.read_block_data s.offset (read_len env s.offset) (some data),
                Act.file_write_block data true]
              ++ emit_trace worker SPIMemCustomEventWorker.BlockReaded,
            n_stop := s.world.n_stop + 1, n_chip := s.world.n_chip + 1,
            n_write := s.world.n_write + 1 },
          offset := env.size_add s.offset (read_len env s.offset) }) := by
  by_cases hstop : env.stop s.world.n_stop = true
  · left
    simp [spi_mem_read_process_body, furi_delay_tick, World.log,
      spi_mem_worker_check_for_stop, hstop]
  · right
    have hstop1 : env.stop s.world.n_stop = false := by simpa using hstop
    by_cases hoff : env.chip_size ≤ s.offset
    · left
      simp [spi_mem_read_process_body, furi_delay_tick, World.log,
        spi_mem_worker_check_for_stop, hstop1, hoff]
    · right
      by_cases hchip : env.chip_ok s.world.n_chip = true
      · right
        by_cases hwrite : env.write_ok s.world.n_write = true
        · right
          refine ⟨hstop1, by omega, hchip, hwrite,
            block (env.chip_data s.world.n_chip) s.offset (read_len env s.offset), ?_⟩
          simp [spi_mem_read_process_body, furi_delay_tick, World.log,
            spi_mem_worker_check_for_stop, spi_mem_tools_read_block_data,
            spi_mem_file_write_block, run_worker_callback_eq, hstop1, hoff, hchip, hwrite,
            read_len]
        · left
          have hwrite1 : env.write_ok s.world.n_write = false := by simpa using hwrite
          refine ⟨hstop1, by omega, hchip, hwrite1, read_len env s.offset,
            block (env.chip_data s.world.n_chip) s.offset (read_len env s.offset), ?_⟩
          simp [spi_mem_read_process_body, furi_delay_tick, World.log,
            spi_mem_worker_check_for_stop, spi_mem_tools_read_block_data,
            spi_mem_file_write_block, run_worker_callback_eq, hstop1, hoff, hchip, hwrite1,
            read_len]
      · left
        have hchip1 : env.chip_ok s.world.n_chip = false := by simpa using hchip
        refine ⟨hstop1, by omega, hchip1, read_len env s.offset, ?_⟩
        simp [spi_mem_read_process_body, furi_delay_tick, World.log,
          spi_mem_worker_check_for_stop, spi_mem_tools_read_block_data,
          run_worker_callback_eq, hstop1, hoff, hchip1, read_len]
theorem verify_body_cases (env : Env) (worker : SPIMemWorker) (s : LoopState) :
    (env.stop s.world.n_stop = true ∧
      spi_mem_verify_process_body env worker (spi_mem_worker_modes_get_total_size env) s
        = Step.brk
        { s with world := { s.world with
            trace := s.world.trace ++ [Act.delay_tick 10, Act.check_for_stop true],
            n_stop := s.world.n_stop + 1 } }) ∨
    (env.stop s.world.n_stop = false ∧ spi_mem_worker_modes_get_total_size env ≤ s.offset ∧
      spi_mem_verify_process_body env worker (spi_mem_worker_modes_get_total_size env) s
        = Step.brk
        { s with world := { s.world with
            trace := s.world.trace ++ [Act.delay_tick 10, Act.check_for_stop false],
            n_stop := s.world.n_stop + 1 } }) ∨
    (env.stop s.world.n_stop = false ∧ s.offset < spi_mem_worker_modes_get_total_size env ∧
      env.chip_ok s.world.n_chip = false ∧
      ∃ len, spi_mem_verify_process_body env worker
          (spi_mem_worker_modes_get_total_size env) s = Step.brk
        { s with
          world := { s.world with
            trace := s.world.trace ++ [Act.delay_tick 10, Act.check_for_stop false,
                Act.read_block_data s.offset len none]
              ++ emit_trace worker SPIMemCustomEventWorker.ChipReadFail,
            n_stop := s.world.n_stop + 1, n_chip := s.world.n_chip + 1 },
          success := false }) ∨
    (env.stop s.world.n_stop = false ∧ s.offset < spi_mem_worker_modes_get_total_size env ∧
      env.chip_ok s.world.n_chip = true ∧ env.fread_ok s.world.n_fread = false ∧
      ∃ len data, spi_mem_verify_process_body env worker
          (spi_mem_worker_modes_get_total_size env) s = Step.brk
        { s with
          world := { s.world with
            trace := s.world.trace ++ [Act.delay_tick 10, Act.check_for_stop false,
                Act.read_block_data s.offset len (some data), Act.file_read_block len none]
              ++ emit_trace worker SPIMemCustomEventWorker.ReadFileFail,
            n_stop := s.world.n_stop + 1, n_chip := s.world.n_chip + 1,
            n_fread := s.world.n_fread + 1 },
          success := false }) ∨
    (env.stop s.world.n_stop = false ∧ s.offset < spi_mem_worker_modes_get_total_size env ∧
      env.chip_ok s.world.n_chip = true ∧ env.fread_ok s.world.n_fread = true ∧
      ∃ len data1 data2, data1 ≠ data2 ∧ spi_mem_verify_process_body env worker
          (spi_mem_worker_modes_get_total_size env) s = Step.brk
        { s with
          world := { s.world with
            trace := s.world.trace ++ [Act.delay_tick 10, Act.check_for_stop false,
                Act.read_block_data s.offset len (some data1),
                Act.file_read_block len (some data2)]
              ++ emit_trace worker SPIMemCustomEventWorker.VerifyFail,
            n_stop := s.world.n_stop + 1, n_chip := s.world.n_chip + 1,
            n_fread := s.world.n_fread + 1, fpos := s.world.fpos + len },
          success := false }) ∨
    (env.stop s.world.n_stop = false ∧ s.offset < spi_mem_worker_modes_get_total_size env ∧
      env.chip_ok s.world.n_chip = true ∧ env.fread_ok s.world.n_fread = true ∧
      ∃ data, spi_mem_verify_process_body env worker
          (spi_mem_worker_modes_get_total_size env) s = Step.cont
        { s with
          world := { s.world with
            trace := s.world.trace ++ [Act.delay_tick 10, Act.check_for_stop false,
                Act.read_block_data s.offset (verify_len env s.offset) (some data),
                Act.file_read_block (verify_len env s.offset) (some data)]
              ++ emit_trace worker SPIMemCustomEventWorker.BlockReaded,
            n_stop := s.world.n_stop + 1, n_chip := s.world.n_chip + 1,
            n_fread := s.world.n_fread + 1,
            fpos := s.world.fpos + verify_len env s.offset },
          offset := env.size_add s.offset (verify_len env s.offset) }) := by
  by_cases hstop : env.stop s.world.n_stop = true
  · left
    simp [spi_mem_verify_process_body, furi_delay_tick, World.log,
      spi_mem_worker_check_for_stop, hstop]
  · right
    have hstop1 : env.stop s.world.n_stop = false := by simpa using hstop
    by_cases hoff : spi_mem_worker_modes_get_total_size env ≤ s.offset
    · left
      simp [spi_mem_verify_process_body, furi_delay_tick, World.log,
        spi_mem_worker_check_for_stop, hstop1, hoff]
    · right
      by_cases hchip : env.chip_ok s.world.n_chip = true
      · right
        by_cases hfread : env.fread_ok s.world.n_fread = true
        · right
          by_cases heq : block (env.chip_data s.world.n_chip) s.offset (verify_len env s.offset)
              = block (env.file_data s.world.n_fread) s.world.fpos (verify_len env s.offset)
          · right
            refine ⟨hstop1, by omega, hchip, hfread,
              block (env.chip_data s.world.n_chip) s.offset (verify_len env s.offset), ?_⟩
            have heq1 := heq
            unfold verify_len at heq1
            simp [spi_mem_verify_process_body, furi_delay_tick, World.log,
              spi_mem_worker_check_for_stop, spi_mem_tools_read_block_data,
              spi_mem_file_read_block, run_worker_callback_eq, hstop1, hoff, hchip, hfread,
              verify_len, heq1]
          · left
            refine ⟨hstop1, by omega, hchip, hfread, verify_len env s.offset,
              block (env.chip_data s.world.n_chip) s.offset (verify_len env s.offset),
              block (env.file_data s.world.n_fread) s.world.fpos (verify_len env s.offset),
              heq, ?_⟩
            have heq1 := heq
            unfold verify_len at heq1
            simp [spi_mem_verify_process_body, furi_delay_tick, World.log,
              spi_mem_worker_check_for_stop, spi_mem_tools_read_block_data,
              spi_mem_file_read_block, run_worker_callback_eq, hstop1, hoff, hchip, hfread,
              verify_len, heq1]
        · left
          have hfread1 : env.fread_ok s.world.n_fread = false := by simpa using hfread
          refine ⟨hstop1, by omega, hchip, hfread1, verify_len env s.offset,
            block (env.chip_data s.world.n_chip) s.offset (verify_len env s.offset), ?_⟩
          simp [spi_mem_verify_process_body, furi_delay_tick, World.log,
            spi_mem_worker_check_for_stop, spi_mem_tools_read_block_data,
            spi_mem_file_read_block, run_worker_callback_eq, hstop1, hoff, hchip, hfread1,
            verify_len]
      · left
        have hchip1 : env.chip_ok s.world.n_chip = false := by simpa using hchip
        refine ⟨hstop1, by omega, hchip1, verify_len env s.offset, ?_⟩
        simp [spi_mem_verify_process_body, furi_delay_tick, World.log,
          spi_mem_worker_check_for_stop, spi_mem_tools_read_block_data,
          run_worker_callback_eq, hstop1, hoff, hchip1, verify_len]

theorem events_cons (a : Act) (l : List Act) :
    events (a :: l) = (match a with | Act.emit e => [e] | _ => []) ++ events l := by
  cases a <;> rfl

theorem chip_reads_cons (a : Act) (l : List Act) :
    chip_reads (a :: l)
      = (match a with | Act.read_block_data o n r => [(o, n, r)] | _ => []) ++ chip_reads l := by
  cases a <;> rfl

theorem file_writes_cons (a : Act) (l : List Act) :
    file_writes (a :: l)
      = (match a with | Act.file_write_block d ok => [(d, ok)] | _ => [])
        ++ file_writes l := by
  cases a <;> rfl

theorem file_reads_cons (a : Act) (l : List Act) :
    file_reads (a :: l)
      = (match a with | Act.file_read_block n r => [(n, r)] | _ => []) ++ file_reads l := by
  cases a <;> rfl

theorem events_nil : events [] = [] := rfl

theorem chip_reads_nil : chip_reads [] = [] := rfl

theorem file_writes_nil : file_writes [] = [] := rfl

theorem file_reads_nil : file_reads [] = [] := rfl

theorem check_not_mem_emit_trace (worker : SPIMemWorker) (e : SPIMemCustomEventWorker)
    (b : Bool) : Act.check_for_stop b ∉ emit_trace worker e := by
  cases hcb : worker.callback <;> simp [emit_trace, hcb]

theorem read_clean_append (a b : List Act) (ha : read_clean a) (hb : read_clean b) :
    read_clean (a ++ b) := by
  obtain ⟨a1, a2, a3⟩ := ha
  obtain ⟨b1, b2, b3⟩ := hb
  refine ⟨?_, ?_, ?_⟩
  · intro e he
    rw [events_append] at he
    rcases List.mem_append.mp he with h | h
    · exact a1 e h
    · exact b1 e h
  · intro x hx
    rw [chip_reads_append] at hx
    rcases List.mem_append.mp hx with h | h
    · exact a2 x h
    · exact b2 x h
  · intro p hp
    rw [file_writes_append] at hp
    rcases List.mem_append.mp hp with h | h
    · exact a3 p h
    · exact b3 p h

theorem read_clean_block_readed (worker : SPIMemWorker) :
    read_clean (emit_trace worker SPIMemCustomEventWorker.BlockReaded) := by
  refine ⟨?_, ?_, ?_⟩
  · rw [events_emit_trace]; simp
  · rw [chip_reads_emit_trace]; simp
  · rw [file_writes_emit_trace]; simp

theorem read_loop_post (env : Env) (worker : SPIMemWorker) (fuel : Nat) (r : LoopState)
    (h : loop (spi_mem_read_process_body env worker env.chip_size) fuel
      { world := World.init, offset := 0, success := true } = some r) :
    (r.success = true ∧ read_clean r.world.trace) ∨
    (r.success = false ∧ read_failed r.world.trace) := by
  refine loop_invariant (spi_mem_read_process_body env worker env.chip_size)
    (fun s => s.success = true ∧ read_clean s.world.trace)
    (fun r => (r.success = true ∧ read_clean r.world.trace) ∨
      (r.success = false ∧ read_failed r.world.trace)) ?_ ?_ fuel _ r ?_ h
  · intro s r ⟨hs, hc⟩ hb
    rcases read_body_cases env worker s with
      ⟨_, h1⟩ | ⟨_, _, h1⟩ | ⟨_, _, _, len, h1⟩ | ⟨_, _, _, _, len, data, h1⟩ | ⟨_, _, _, _, data, h1⟩
    all_goals rw [h1] at hb
    · injection hb with hb; subst hb
      exact Or.inl ⟨hs, read_clean_append _ _ hc
        (by simp [read_clean, events_cons, events_nil, chip_reads_cons, chip_reads_nil,
          file_writes_cons, file_writes_nil])⟩
    · injection hb with hb; subst hb
      exact Or.inl ⟨hs, read_clean_append _ _ hc
        (by simp [read_clean, events_cons, events_nil, chip_reads_cons, chip_reads_nil,
          file_writes_cons, file_writes_nil])⟩
    · injection hb with hb; subst hb
      right
      refine ⟨rfl, ?_, ?_, ?_⟩
      · intro e he
        simp only [events_append, events_emit_trace, events_cons, events_nil, List.append_nil,
          List.nil_append, List.mem_append, List.mem_singleton] at he
        rcases he with he | he
        · rw [hc.1 e he]; simp
        · rw [he]; simp
      · left
        simp only [events_append, events_emit_trace, events_cons, events_nil]
        simp
      · left
        refine ⟨(s.offset, len, none), ?_, rfl⟩
        simp only [chip_reads_append, chip_reads_cons, chip_reads_nil, chip_reads_emit_trace]
        simp
    · injection hb with hb; subst hb
      right
      refine ⟨rfl, ?_, ?_, ?_⟩
      · intro e he
        simp only [events_append, events_emit_trace, events_cons, events_nil, List.append_nil,
          List.nil_append, List.mem_append, List.mem_singleton] at he
        rcases he with he | he
        · rw [hc.1 e he]; simp
        · rw [he]; simp
      · right
        simp only [events_append, events_emit_trace, events_cons, events_nil]
        simp
      · right
        refine ⟨(data, false), ?_, rfl⟩
        simp only [file_writes_append, file_writes_cons, file_writes_nil,
          file_writes_emit_trace]
        simp
    · cases hb
  · intro s s1 ⟨hs, hc⟩ hb
    rcases read_body_cases env worker s with
      ⟨_, h1⟩ | ⟨_, _, h1⟩ | ⟨_, _, _, len, h1⟩ | ⟨_, _, _, _, len, data, h1⟩ | ⟨_, _, _, _, data, h1⟩
    all_goals rw [h1] at hb
    · cases hb
    · cases hb
    · cases hb
    · cases hb
    · injection hb with hb; subst hb
      exact ⟨hs, read_clean_append _ _ (read_clean_append _ _ hc
        (by simp [read_clean, events_cons, events_nil, chip_reads_cons, chip_reads_nil,
          file_writes_cons, file_writes_nil])) (read_clean_block_readed worker)⟩
  · exact ⟨rfl, by simp [read_clean, World.init, events, chip_reads, file_writes]⟩

theorem verify_clean_append (a b : List Act) (ha : verify_clean a) (hb : verify_clean b) :
    verify_clean (a ++ b) := by
  intro e he
  rw [events_append] at he
  rcases List.mem_append.mp he with h | h
  · exact ha e h
  · exact hb e h

theorem verify_failed_of_clean (tr l : List Act) (worker : SPIMemWorker)
    (e : SPIMemCustomEventWorker) (hc : verify_clean tr) (hl : events l = [])
    (he : e = SPIMemCustomEventWorker.ChipReadFail ∨ e = SPIMemCustomEventWorker.ReadFileFail
      ∨ e = SPIMemCustomEventWorker.VerifyFail) :
    verify_failed (tr ++ l ++ emit_trace worker e) := by
  have hev : events (tr ++ l ++ emit_trace worker e) = events tr ++ [e] := by
    rw [events_append, events_append, events_emit_trace, hl, List.append_nil]
  refine ⟨?_, ?_⟩
  · intro x hx
    rw [hev] at hx
    rcases List.mem_append.mp hx with h | h
    · rw [hc x h]; simp
    · rw [List.mem_singleton.mp h]
      rcases he with h1 | h1 | h1 <;> rw [h1] <;> simp
  · rw [hev]
    rcases he with h1 | h1 | h1 <;> simp [h1]

theorem verify_loop_post (env : Env) (worker : SPIMemWorker) (w0 : World)
    (h0 : verify_clean w0.trace) (fuel : Nat) (r : LoopState)
    (h : loop (spi_mem_verify_process_body env worker (spi_mem_worker_modes_get_total_size env))
      fuel { world := w0, offset := 0, success := true } = some r) :
    (r.success = true ∧ verify_clean r.world.trace) ∨
    (r.success = false ∧ verify_failed r.world.trace) := by
  refine loop_invariant
    (spi_mem_verify_process_body env worker (spi_mem_worker_modes_get_total_size env))
    (fun s => s.success = true ∧ verify_clean s.world.trace)
    (fun r => (r.success = true ∧ verify_clean r.world.trace) ∨
      (r.success = false ∧ verify_failed r.world.trace)) ?_ ?_ fuel _ r ⟨rfl, h0⟩ h
  · intro s r ⟨hs, hc⟩ hb
    rcases verify_body_cases env worker s with
      ⟨_, h1⟩ | ⟨_, _, h1⟩ | ⟨_, _, _, len, h1⟩ | ⟨_, _, _, _, len, data, h1⟩
        | ⟨_, _, _, _, len, d1, d2, _, h1⟩ | ⟨_, _, _, _, data, h1⟩
    all_goals rw [h1] at hb
    · injection hb with hb; subst hb
      exact Or.inl ⟨hs, verify_clean_append _ _ hc (by simp [verify_clean, events_cons, events_nil])⟩
    · injection hb with hb; subst hb
      exact Or.inl ⟨hs, verify_clean_append _ _ hc (by simp [verify_clean, events_cons, events_nil])⟩
    · injection hb with hb; subst hb
      exact Or.inr ⟨rfl, verify_failed_of_clean _ _ worker _ hc rfl (Or.inl rfl)⟩
    · injection hb with hb; subst hb
      exact Or.inr ⟨rfl, verify_failed_of_clean _ _ worker _ hc rfl (Or.inr (Or.inl rfl))⟩
    · injection hb with hb; subst hb
      exact Or.inr ⟨rfl, verify_failed_of_clean _ _ worker _ hc rfl (Or.inr (Or.inr rfl))⟩
    · cases hb
  · intro s s1 ⟨hs, hc⟩ hb
    rcases verify_body_cases env worker s with
      ⟨_, h1⟩ | ⟨_, _, h1⟩ | ⟨_, _, _, len, h1⟩ | ⟨_, _, _, _, len, data, h1⟩
        | ⟨_, _, _, _, len, d1, d2, _, h1⟩ | ⟨_, _, _, _, data, h1⟩
    all_goals rw [h1] at hb
    · cases hb
    · cases hb
    · cases hb
    · cases hb
    · cases hb
    · injection hb with hb; subst hb
      refine ⟨hs, verify_clean_append _ _ (verify_clean_append _ _ hc
        (by simp [verify_clean, events_cons, events_nil])) ?_⟩
      intro e he
      rw [events_emit_trace] at he
      exact List.mem_singleton.mp he

theorem read_len_in_range (env : Env) (o : Nat)
    (hrange : env.chip_size + env.SPI_MEM_FILE_BUFFER_SIZE < env.size_mod)
    (ho : o < env.chip_size) :
    read_len env o = min env.SPI_MEM_FILE_BUFFER_SIZE (env.chip_size - o) := by
  unfold read_len
  rw [size_add_eq env _ _ (by omega), size_sub_eq env _ _ (by omega) (by omega)]
  split <;> omega

theorem verify_len_in_range_at (env : Env) (o : Nat)
    (hrange : spi_mem_worker_modes_get_total_size env + env.SPI_MEM_FILE_BUFFER_SIZE
      < env.size_mod)
    (ho : o < spi_mem_worker_modes_get_total_size env) :
    verify_len env o
      = min env.SPI_MEM_FILE_BUFFER_SIZE (spi_mem_worker_modes_get_total_size env - o) := by
  unfold verify_len
  rw [size_add_eq env _ _ (by omega), size_sub_eq env _ _ (by omega) (by omega)]
  split <;> omega

theorem read_loop_terminates (env : Env) (worker : SPIMemWorker)
    (hC : 0 < env.SPI_MEM_FILE_BUFFER_SIZE)
    (hrange : env.chip_size + env.SPI_MEM_FILE_BUFFER_SIZE < env.size_mod) (w0 : World) :
    ∃ r, loop (spi_mem_read_process_body env worker env.chip_size) (env.chip_size + 1)
      { world := w0, offset := 0, success := true } = some r := by
  refine loop_terminates (spi_mem_read_process_body env worker env.chip_size)
    (fun s => s.offset ≤ env.chip_size) (fun s => env.chip_size - s.offset) ?_ _ _
    (Nat.zero_le _) (by simp)
  intro s s1 hs hb
  rcases read_body_cases env worker s with
    ⟨_, h1⟩ | ⟨_, _, h1⟩ | ⟨_, _, _, len, h1⟩ | ⟨_, _, _, _, len, data, h1⟩ | ⟨_, hlt, _, _, data, h1⟩
  all_goals rw [h1] at hb
  · cases hb
  · cases hb
  · cases hb
  · cases hb
  · injection hb with hb; subst hb
    have hl := read_len_in_range env s.offset hrange hlt
    simp only
    rw [size_add_eq env _ _ (by omega)]
    omega

theorem verify_loop_terminates (env : Env) (worker : SPIMemWorker)
    (hC : 0 < env.SPI_MEM_FILE_BUFFER_SIZE)
    (hrange : spi_mem_worker_modes_get_total_size env + env.SPI_MEM_FILE_BUFFER_SIZE
      < env.size_mod) (w0 : World) :
    ∃ r, loop (spi_mem_verify_process_body env worker (spi_mem_worker_modes_get_total_size env))
      (spi_mem_worker_modes_get_total_size env + 1)
      { world := w0, offset := 0, success := true } = some r := by
  refine loop_terminates
    (spi_mem_verify_process_body env worker (spi_mem_worker_modes_get_total_size env))
    (fun s => s.offset ≤ spi_mem_worker_modes_get_total_size env)
    (fun s => spi_mem_worker_modes_get_total_size env - s.offset) ?_ _ _
    (Nat.zero_le _) (by simp)
  intro s s1 hs hb
  rcases verify_body_cases env worker s with
    ⟨_, h1⟩ | ⟨_, _, h1⟩ | ⟨_, _, _, len, h1⟩ | ⟨_, _, _, _, len, data, h1⟩
      | ⟨_, _, _, _, len, d1, d2, _, h1⟩ | ⟨_, hlt, _, _, data, h1⟩
  all_goals rw [h1] at hb
  · cases hb
  · cases hb
  · cases hb
  · cases hb
  · cases hb
  · injection hb with hb; subst hb
    have hl := verify_len_in_range_at env s.offset hrange hlt
    simp only
    rw [size_add_eq env _ _ (by omega)]
    omega
theorem read_pass_shape (env : Env) (worker : SPIMemWorker) (s : LoopState) :
    ∃ rest,
      (spi_mem_read_process_body env worker env.chip_size s).out.world.trace
        = s.world.trace
          ++ [Act.delay_tick 10, Act.check_for_stop (env.stop s.world.n_stop)] ++ rest ∧
      (∀ c, Act.check_for_stop c ∉ rest) ∧
      (env.stop s.world.n_stop = true →
        rest = [] ∧ (spi_mem_read_process_body env worker env.chip_size s).leaves = true) := by
  rcases read_body_cases env worker s with
    ⟨h0, h1⟩ | ⟨h0, _, h1⟩ | ⟨h0, _, _, len, h1⟩ | ⟨h0, _, _, _, len, data, h1⟩
      | ⟨h0, _, _, _, data, h1⟩
  · exact ⟨[], by simp [h1, h0, Step.out, Step.leaves]⟩
  · exact ⟨[], by simp [h1, h0, Step.out, Step.leaves]⟩
  · refine ⟨[Act.read_block_data s.offset len none]
      ++ emit_trace worker SPIMemCustomEventWorker.ChipReadFail, ?_, ?_, ?_⟩
    · simp [h1, h0, Step.out]
    · intro c; simp [check_not_mem_emit_trace]
    · intro h; rw [h0] at h; cases h
  · refine ⟨[Act.read_block_data s.offset len (some data), Act.file_write_block data false]
      ++ emit_trace worker SPIMemCustomEventWorker.WriteFileFail, ?_, ?_, ?_⟩
    · simp [h1, h0, Step.out]
    · intro c; simp [check_not_mem_emit_trace]
    · intro h; rw [h0] at h; cases h
  · refine ⟨[Act.read_block_data s.offset (read_len env s.offset) (some data),
        Act.file_write_block data true]
      ++ emit_trace worker SPIMemCustomEventWorker.BlockReaded, ?_, ?_, ?_⟩
    · simp [h1, h0, Step.out]
    · intro c; simp [check_not_mem_emit_trace]
    · intro h; rw [h0] at h; cases h

theorem verify_pass_shape (env : Env) (worker : SPIMemWorker) (s : LoopState) :
    ∃ rest,
      (spi_mem_verify_process_body env worker (spi_mem_worker_modes_get_total_size env)
          s).out.world.trace
        = s.world.trace
          ++ [Act.delay_tick 10, Act.check_for_stop (env.stop s.world.n_stop)] ++ rest ∧
      (∀ c, Act.check_for_stop c ∉ rest) ∧
      (env.stop s.world.n_stop = true →
        rest = [] ∧ (spi_mem_verify_process_body env worker
          (spi_mem_worker_modes_get_total_size env) s).leaves = true) := by
  rcases verify_body_cases env worker s with
    ⟨h0, h1⟩ | ⟨h0, _, h1⟩ | ⟨h0, _, _, len, h1⟩ | ⟨h0, _, _, _, len, data, h1⟩
      | ⟨h0, _, _, _, len, d1, d2, _, h1⟩ | ⟨h0, _, _, _, data, h1⟩
  · exact ⟨[], by simp [h1, h0, Step.out, Step.leaves]⟩
  · exact ⟨[], by simp [h1, h0, Step.out, Step.leaves]⟩
  · refine ⟨[Act.read_block_data s.offset len none]
      ++ emit_trace worker SPIMemCustomEventWorker.ChipReadFail, ?_, ?_, ?_⟩
    · simp [h1, h0, Step.out]
    · intro c; simp [check_not_mem_emit_trace]
    · intro h; rw [h0] at h; cases h
  · refine ⟨[Act.read_block_data s.offset len (some data), Act.file_read_block len none]
      ++ emit_trace worker SPIMemCustomEventWorker.ReadFileFail, ?_, ?_, ?_⟩
    · simp [h1, h0, Step.out]
    · intro c; simp [check_not_mem_emit_trace]
    · intro h; rw [h0] at h; cases h
  · refine ⟨[Act.read_block_data s.offset len (some d1), Act.file_read_block len (some d2)]
      ++ emit_trace worker SPIMemCustomEventWorker.VerifyFail, ?_, ?_, ?_⟩
    · simp [h1, h0, Step.out]
    · intro c; simp [check_not_mem_emit_trace]
    · intro h; rw [h0] at h; cases h
  · refine ⟨[Act.read_block_data s.offset (verify_len env s.offset) (some data),
        Act.file_read_block (verify_len env s.offset) (some data)]
      ++ emit_trace worker SPIMemCustomEventWorker.BlockReaded, ?_, ?_, ?_⟩
    · simp [h1, h0, Step.out]
    · intro c; simp [check_not_mem_emit_trace]
    · intro h; rw [h0] at h; cases h

theorem read_loop_stop_post (env : Env) (worker : SPIMemWorker) (w0 : World)
    (h0 : Act.check_for_stop true ∉ w0.trace) (fuel : Nat) (r : LoopState)
    (h : loop (spi_mem_read_process_body env worker env.chip_size) fuel
      { world := w0, offset := 0, success := true } = some r) :
    Act.check_for_stop true ∉ r.world.trace ∨
    (r.success = true ∧ ∃ pre, r.world.trace = pre ++ [Act.check_for_stop true]
      ∧ Act.check_for_stop true ∉ pre) := by
  refine loop_invariant (spi_mem_read_process_body env worker env.chip_size)
    (fun s => s.success = true ∧ Act.check_for_stop true ∉ s.world.trace)
    (fun r => Act.check_for_stop true ∉ r.world.trace ∨
      (r.success = true ∧ ∃ pre, r.world.trace = pre ++ [Act.check_for_stop true]
        ∧ Act.check_for_stop true ∉ pre)) ?_ ?_ fuel _ r ⟨rfl, h0⟩ h
  · intro s r ⟨hs, hc⟩ hb
    rcases read_body_cases env worker s with
      ⟨_, h1⟩ | ⟨_, _, h1⟩ | ⟨_, _, _, len, h1⟩ | ⟨_, _, _, _, len, data, h1⟩ | ⟨_, _, _, _, data, h1⟩
    all_goals rw [h1] at hb
    · injection hb with hb; subst hb
      exact Or.inr ⟨hs, s.world.trace ++ [Act.delay_tick 10], by simp, by simp [hc]⟩
    · injection hb with hb; subst hb
      exact Or.inl (by simp [hc])
    · injection hb with hb; subst hb
      exact Or.inl (by simp [hc, check_not_mem_emit_trace])
    · injection hb with hb; subst hb
      exact Or.inl (by simp [hc, check_not_mem_emit_trace])
    · cases hb
  · intro s s1 ⟨hs, hc⟩ hb
    rcases read_body_cases env worker s with
      ⟨_, h1⟩ | ⟨_, _, h1⟩ | ⟨_, _, _, len, h1⟩ | ⟨_, _, _, _, len, data, h1⟩ | ⟨_, _, _, _, data, h1⟩
    all_goals rw [h1] at hb
    · cases hb
    · cases hb
    · cases hb
    · cases hb
    · injection hb with hb; subst hb
      exact ⟨hs, by simp [hc, check_not_mem_emit_trace]⟩

theorem verify_loop_stop_post (env : Env) (worker : SPIMemWorker) (w0 : World)
    (h0 : Act.check_for_stop true ∉ w0.trace) (fuel : Nat) (r : LoopState)
    (h : loop (spi_mem_verify_process_body env worker
        (spi_mem_worker_modes_get_total_size env)) fuel
      { world := w0, offset := 0, success := true } = some r) :
    Act.check_for_stop true ∉ r.world.trace ∨
    (r.success = true ∧ ∃ pre, r.world.trace = pre ++ [Act.check_for_stop true]
      ∧ Act.check_for_stop true ∉ pre) := by
  refine loop_invariant
    (spi_mem_verify_process_body env worker (spi_mem_worker_modes_get_total_size env))
    (fun s => s.success = true ∧ Act.check_for_stop true ∉ s.world.trace)
    (fun r => Act.check_for_stop true ∉ r.world.trace ∨
      (r.success = true ∧ ∃ pre, r.world.trace = pre ++ [Act.check_for_stop true]
        ∧ Act.check_for_stop true ∉ pre)) ?_ ?_ fuel _ r ⟨rfl, h0⟩ h
  · intro s r ⟨hs, hc⟩ hb
    rcases verify_body_cases env worker s with
      ⟨_, h1⟩ | ⟨_, _, h1⟩ | ⟨_, _, _, len, h1⟩ | ⟨_, _, _, _, len, data, h1⟩
        | ⟨_, _, _, _, len, d1, d2, _, h1⟩ | ⟨_, _, _, _, data, h1⟩
    all_goals rw [h1] at hb
    · injection hb with hb; subst hb
      exact Or.inr ⟨hs, s.world.trace ++ [Act.delay_tick 10], by simp, by simp [hc]⟩
    · injection hb with hb; subst hb
      exact Or.inl (by simp [hc])
    · injection hb with hb; subst hb
      exact Or.inl (by simp [hc, check_not_mem_emit_trace])
    · injection hb with hb; subst hb
      exact Or.inl (by simp [hc, check_not_mem_emit_trace])
    · injection hb with hb; subst hb
      exact Or.inl (by simp [hc, check_not_mem_emit_trace])
    · cases hb
  · intro s s1 ⟨hs, hc⟩ hb
    rcases verify_body_cases env worker s with
      ⟨_, h1⟩ | ⟨_, _, h1⟩ | ⟨_, _, _, len, h1⟩ | ⟨_, _, _, _, len, data, h1⟩
        | ⟨_, _, _, _, len, d1, d2, _, h1⟩ | ⟨_, _, _, _, data, h1⟩
    all_goals rw [h1] at hb
    · cases hb
    · cases hb
    · cases hb
    · cases hb
    · cases hb
    · injection hb with hb; subst hb
      exact ⟨hs, by simp [hc, check_not_mem_emit_trace]⟩

theorem read_loop_stops (env : Env) (worker : SPIMemWorker) (k : Nat)
    (hk : env.stop k = true) (w0 : World) (h0 : w0.n_stop = 0) :
    ∃ r, loop (spi_mem_read_process_body env worker env.chip_size) (k + 1)
      { world := w0, offset := 0, success := true } = some r := by
  refine loop_terminates (spi_mem_read_process_body env worker env.chip_size)
    (fun s => s.world.n_stop ≤ k) (fun s => k - s.world.n_stop) ?_ _ _
    (by simp [h0]) (by simp [h0])
  intro s s1 hs hb
  rcases read_body_cases env worker s with
    ⟨_, h1⟩ | ⟨_, _, h1⟩ | ⟨_, _, _, len, h1⟩ | ⟨_, _, _, _, len, data, h1⟩ | ⟨hst, _, _, _, data, h1⟩
  all_goals rw [h1] at hb
  · cases hb
  · cases hb
  · cases hb
  · cases hb
  · injection hb with hb; subst hb
    have hne : s.world.n_stop ≠ k := by
      intro heq; rw [heq, hk] at hst; cases hst
    simp only
    omega

theorem verify_loop_stops (env : Env) (worker : SPIMemWorker) (k : Nat)
    (hk : env.stop k = true) (w0 : World) (h0 : w0.n_stop = 0) :
    ∃ r, loop (spi_mem_verify_process_body env worker
        (spi_mem_worker_modes_get_total_size env)) (k + 1)
      { world := w0, offset := 0, success := true } = some r := by
  refine loop_terminates
    (spi_mem_verify_process_body env worker (spi_mem_worker_modes_get_total_size env))
    (fun s => s.world.n_stop ≤ k) (fun s => k - s.world.n_stop) ?_ _ _
    (by simp [h0]) (by simp [h0])
  intro s s1 hs hb
  rcases verify_body_cases env worker s with
    ⟨_, h1⟩ | ⟨_, _, h1⟩ | ⟨_, _, _, len, h1⟩ | ⟨_, _, _, _, len, data, h1⟩
      | ⟨_, _, _, _, len, d1, d2, _, h1⟩ | ⟨hst, _, _, _, data, h1⟩
  all_goals rw [h1] at hb
  · cases hb
  · cases hb
  · cases hb
  · cases hb
  · cases hb
  · injection hb with hb; subst hb
    have hne : s.world.n_stop ≠ k := by
      intro heq; rw [heq, hk] at hst; cases hst
    simp only
    omega
theorem await_post (env : Env) (fuel : Nat) (w : World) (r : Bool × World)
    (h : spi_mem_worker_await_chip_busy env fuel w = some r) :
    ∃ a, r.2.trace = w.trace ++ a ∧ (∀ x ∈ a, is_poll x = true) ∧ r.1 = await_reports a ∧
      r.2.n_wen = w.n_wen ∧ r.2.n_erase = w.n_erase := by
  refine loop_invariant (spi_mem_worker_await_chip_busy_body env)
    (fun s => ∃ a, s.trace = w.trace ++ a ∧ (∀ x ∈ a, is_poll x = true) ∧
      s.n_wen = w.n_wen ∧ s.n_erase = w.n_erase)
    (fun r => ∃ a, r.2.trace = w.trace ++ a ∧ (∀ x ∈ a, is_poll x = true) ∧
      r.1 = await_reports a ∧ r.2.n_wen = w.n_wen ∧ r.2.n_erase = w.n_erase)
    ?_ ?_ fuel w r ⟨[], by simp⟩ h
  · intro s r ⟨a, ha, hp, hw, he⟩ hb
    by_cases hstop : env.stop s.n_stop = true
    · simp [spi_mem_worker_await_chip_busy_body, furi_delay_ms, World.log,
        spi_mem_worker_check_for_stop, hstop] at hb
      subst hb
      refine ⟨a ++ [Act.delay_ms 200, Act.check_for_stop true], by simp [ha], ?_, ?_, hw, he⟩
      · intro x hx
        rcases List.mem_append.mp hx with h1 | h1
        · exact hp x h1
        · simp at h1; rcases h1 with h1 | h1 <;> rw [h1] <;> rfl
      · simp [await_reports]
    · have hstop1 : env.stop s.n_stop = false := by simpa using hstop
      cases hst : env.status s.n_status with
      | Error =>
        simp [spi_mem_worker_await_chip_busy_body, furi_delay_ms, World.log,
          spi_mem_worker_check_for_stop, spi_mem_tools_get_chip_status, hstop1, hst] at hb
        subst hb
        refine ⟨a ++ [Act.delay_ms 200, Act.check_for_stop false,
          Act.get_chip_status SPIMemChipStatus.Error], by simp [ha], ?_, ?_, hw, he⟩
        · intro x hx
          rcases List.mem_append.mp hx with h1 | h1
          · exact hp x h1
          · simp at h1; rcases h1 with h1 | h1 | h1 <;> rw [h1] <;> rfl
        · simp [await_reports]
      | Busy =>
        simp [spi_mem_worker_await_chip_busy_body, furi_delay_ms, World.log,
          spi_mem_worker_check_for_stop, spi_mem_tools_get_chip_status, hstop1, hst] at hb
      | Ready =>
        simp [spi_mem_worker_await_chip_busy_body, furi_delay_ms, World.log,
          spi_mem_worker_check_for_stop, spi_mem_tools_get_chip_status, hstop1, hst] at hb
        subst hb
        refine ⟨a ++ [Act.delay_ms 200, Act.check_for_stop false,
          Act.get_chip_status SPIMemChipStatus.Ready], by simp [ha], ?_, ?_, hw, he⟩
        · intro x hx
          rcases List.mem_append.mp hx with h1 | h1
          · exact hp x h1
          · simp at h1; rcases h1 with h1 | h1 | h1 <;> rw [h1] <;> rfl
        · simp [await_reports]
  · intro s s1 ⟨a, ha, hp, hw, he⟩ hb
    by_cases hstop : env.stop s.n_stop = true
    · simp [spi_mem_worker_await_chip_busy_body, furi_delay_ms, World.log,
        spi_mem_worker_check_for_stop, hstop] at hb
    · have hstop1 : env.stop s.n_stop = false := by simpa using hstop
      cases hst : env.status s.n_status with
      | Error =>
        simp [spi_mem_worker_await_chip_busy_body, furi_delay_ms, World.log,
          spi_mem_worker_check_for_stop, spi_mem_tools_get_chip_status, hstop1, hst] at hb
      | Busy =>
        simp [spi_mem_worker_await_chip_busy_body, furi_delay_ms, World.log,
          spi_mem_worker_check_for_stop, spi_mem_tools_get_chip_status, hstop1, hst] at hb
        subst hb
        refine ⟨a ++ [Act.delay_ms 200, Act.check_for_stop false,
          Act.get_chip_status SPIMemChipStatus.Busy], by simp [ha], ?_, hw, he⟩
        intro x hx
        rcases List.mem_append.mp hx with h1 | h1
        · exact hp x h1
        · simp at h1; rcases h1 with h1 | h1 | h1 <;> rw [h1] <;> rfl
      | Ready =>
        simp [spi_mem_worker_await_chip_busy_body, furi_delay_ms, World.log,
          spi_mem_worker_check_for_stop, spi_mem_tools_get_chip_status, hstop1, hst] at hb

theorem await_terminates (env : Env) (w : World) (j : Nat) (hj : w.n_status ≤ j)
    (hst : env.status j ≠ SPIMemChipStatus.Busy) :
    ∃ r, spi_mem_worker_await_chip_busy env (j + 1 - w.n_status) w = some r := by
  refine loop_terminates (spi_mem_worker_await_chip_busy_body env)
    (fun s => s.n_status ≤ j) (fun s => j - s.n_status) ?_ _ _ hj
    (by show j - w.n_status < j + 1 - w.n_status; omega)
  intro s s1 hs hb
  by_cases hstop : env.stop s.n_stop = true
  · simp [spi_mem_worker_await_chip_busy_body, furi_delay_ms, World.log,
      spi_mem_worker_check_for_stop, hstop] at hb
  · have hstop1 : env.stop s.n_stop = false := by simpa using hstop
    cases hs1 : env.status s.n_status with
    | Error =>
      simp [spi_mem_worker_await_chip_busy_body, furi_delay_ms, World.log,
        spi_mem_worker_check_for_stop, spi_mem_tools_get_chip_status, hstop1, hs1] at hb
    | Busy =>
      simp [spi_mem_worker_await_chip_busy_body, furi_delay_ms, World.log,
        spi_mem_worker_check_for_stop, spi_mem_tools_get_chip_status, hstop1, hs1] at hb
      subst hb
      have hne : s.n_status ≠ j := by
        intro heq; rw [heq] at hs1; exact hst hs1
      simp only
      omega
    | Ready =>
      simp [spi_mem_worker_await_chip_busy_body, furi_delay_ms, World.log,
        spi_mem_worker_check_for_stop, spi_mem_tools_get_chip_status, hstop1, hs1] at hb
theorem events_of_polls (a : List Act) (h : ∀ x ∈ a, is_poll x = true) : events a = [] := by
  induction a with
  | nil => rfl
  | cons x l ih =>
    rw [events_cons, ih (fun y hy => h y (List.mem_cons_of_mem _ hy))]
    have hx := h x (List.mem_cons_self _ _)
    cases x <;> simp [is_poll] at hx ⊢

theorem run_steps_all (a1 : List Act) (r2 r3 : Bool) (a2 : List Act) (r5 : Bool) :
    (run_steps (erase_steps a1 r2 r3 a2 r5)).2
      = (await_reports a1 && r2 && r3 && await_reports a2 && r5) := by
  cases hr1 : await_reports a1 <;> cases r2 <;> cases r3 <;> cases hr4 : await_reports a2 <;>
    cases r5 <;> simp [run_steps, erase_steps, hr1, hr4]

theorem events_run_steps (a1 : List Act) (r2 r3 : Bool) (a2 : List Act) (r5 : Bool)
    (h1 : ∀ x ∈ a1, is_poll x = true) (h2 : ∀ x ∈ a2, is_poll x = true) :
    events (run_steps (erase_steps a1 r2 r3 a2 r5)).1 = [] := by
  have e1 := events_of_polls a1 h1
  have e2 := events_of_polls a2 h2
  simp only [run_steps, erase_steps]
  split_ifs <;> simp [events_append, events_cons, events_nil, e1, e2]

theorem run_steps_erase_failed (a1 : List Act) (r2 r3 : Bool) (a2 : List Act) (r5 : Bool)
    (h1 : ∀ x ∈ a1, is_poll x = true) (h2 : ∀ x ∈ a2, is_poll x = true)
    (hmem : Act.erase_chip false ∈ (run_steps (erase_steps a1 r2 r3 a2 r5)).1) :
    (run_steps (erase_steps a1 r2 r3 a2 r5)).1
        = a1 ++ [Act.set_write_enabled true true, Act.erase_chip false] ∧
      (run_steps (erase_steps a1 r2 r3 a2 r5)).2 = false := by
  have n1 : Act.erase_chip false ∉ a1 := fun h => by
    have := h1 _ h; simp [is_poll] at this
  have n2 : Act.erase_chip false ∉ a2 := fun h => by
    have := h2 _ h; simp [is_poll] at this
  cases hr1 : await_reports a1 <;> cases r2 <;> cases r3 <;> cases hr4 : await_reports a2 <;>
    cases r5 <;> simp [run_steps, erase_steps, hr1, hr4, n1, n2] at hmem ⊢

theorem erase_trace_shape (env : Env) (worker : SPIMemWorker) (fuel : Nat) (w : World)
    (h : spi_mem_chip_erase_process env worker fuel World.init = some w) :
    ∃ a1 r2 r3 a2 r5,
      (∀ x ∈ a1, is_poll x = true) ∧ (∀ x ∈ a2, is_poll x = true) ∧
      w.trace = (run_steps (erase_steps a1 r2 r3 a2 r5)).1
        ++ emit_trace worker (if (run_steps (erase_steps a1 r2 r3 a2 r5)).2
            then SPIMemCustomEventWorker.EraseDone
            else SPIMemCustomEventWorker.ChipReadFail) := by
  simp only [spi_mem_chip_erase_process] at h
  cases h1 : spi_mem_worker_await_chip_busy env fuel World.init with
  | none => rw [h1] at h; cases h
  | some r1 =>
    obtain ⟨a1, ht1, hp1, hr1, _, _⟩ := await_post env fuel _ r1 h1
    obtain ⟨b1, w1⟩ := r1
    simp only [World.init, List.nil_append] at ht1
    simp only at hr1
    rw [h1] at h
    cases b1 with
    | false =>
      simp only [Option.some.injEq] at h
      subst h
      exact ⟨a1, true, true, [], true, hp1, by simp,
        by simp [run_steps, erase_steps, ← hr1, run_worker_callback_eq, ht1]⟩
    | true =>
      simp only [spi_mem_tools_set_write_enabled, spi_mem_tools_erase_chip] at h
      cases h2 : env.wen_ok w1.n_wen with
      | false =>
        simp only [h2, Bool.not_false, if_true, Option.some.injEq] at h
        subst h
        exact ⟨a1, false, true, [], true, hp1, by simp,
          by simp [run_steps, erase_steps, ← hr1, run_worker_callback_eq, ht1]⟩
      | true =>
        simp only [h2, Bool.not_true, Bool.false_eq_true, if_false] at h
        cases h3 : env.erase_ok w1.n_erase with
        | false =>
          simp only [h3, Bool.not_false, if_true, Option.some.injEq] at h
          subst h
          exact ⟨a1, true, false, [], true, hp1, by simp,
            by simp [run_steps, erase_steps, ← hr1, run_worker_callback_eq, ht1]⟩
        | true =>
          simp only [h3, Bool.not_true, Bool.false_eq_true, if_false] at h
          cases h4 : spi_mem_worker_await_chip_busy env fuel
              { w1 with
                trace := w1.trace ++ [Act.set_write_enabled true true] ++ [Act.erase_chip true],
                n_wen := w1.n_wen + 1, n_erase := w1.n_erase + 1 } with
          | none => rw [h4] at h; cases h
          | some r4 =>
            obtain ⟨a2, ht2, hp2, hr2, _, _⟩ := await_post env fuel _ r4 h4
            obtain ⟨b4, w4⟩ := r4
            simp only at ht2 hr2
            rw [h4] at h
            cases b4 with
            | false =>
              simp only [Option.some.injEq] at h
              subst h
              exact ⟨a1, true, true, a2, true, hp1, hp2,
                by simp [run_steps, erase_steps, ← hr1, ← hr2, run_worker_callback_eq, ht1,
                  ht2]⟩
            | true =>
              cases h5 : env.wen_ok w4.n_wen with
              | false =>
                simp only [h5, Bool.not_false, if_true, Option.some.injEq] at h
                subst h
                exact ⟨a1, true, true, a2, false, hp1, hp2,
                  by simp [run_steps, erase_steps, ← hr1, ← hr2, run_worker_callback_eq, ht1,
                    ht2]⟩
              | true =>
                simp only [h5, Bool.not_true, Bool.false_eq_true, if_false,
                  Option.some.injEq] at h
                subst h
                exact ⟨a1, true, true, a2, true, hp1, hp2,
                  by simp [run_steps, erase_steps, ← hr1, ← hr2, run_worker_callback_eq, ht1,
                    ht2]⟩

theorem erase_not_mem_emit_trace (worker : SPIMemWorker) (e : SPIMemCustomEventWorker)
    (b : Bool) : Act.erase_chip b ∉ emit_trace worker e := by
  cases hcb : worker.callback <;> simp [emit_trace, hcb]

theorem erase_returns (env : Env) (worker : SPIMemWorker)
    (hst : ∀ k, ∃ j, k ≤ j ∧ env.status j ≠ SPIMemChipStatus.Busy) :
    ∃ fuel w, spi_mem_chip_erase_process env worker fuel World.init = some w := by
  obtain ⟨j1, hj1, hs1⟩ := hst World.init.n_status
  obtain ⟨r1, hr1⟩ := await_terminates env World.init j1 hj1 hs1
  obtain ⟨b1, w1⟩ := r1
  obtain ⟨j2, hj2, hs2⟩ := hst
    ({ w1 with
        trace := w1.trace ++ [Act.set_write_enabled true true] ++ [Act.erase_chip true],
        n_wen := w1.n_wen + 1, n_erase := w1.n_erase + 1 } : World).n_status
  obtain ⟨r4, hr4⟩ := await_terminates env _ j2 hj2 hs2
  obtain ⟨b4, w4⟩ := r4
  have h1 := loop_mono _ hr1 (Nat.le_max_left _ (j2 + 1 - w1.n_status))
  have h4 := loop_mono _ hr4 (Nat.le_max_right (j1 + 1 - World.init.n_status) _)
  refine ⟨max (j1 + 1 - World.init.n_status) (j2 + 1 - w1.n_status), ?_⟩
  simp only [spi_mem_chip_erase_process, spi_mem_worker_await_chip_busy, h1]
  cases b1 with
  | false => exact ⟨_, rfl⟩
  | true =>
    simp only [spi_mem_tools_set_write_enabled, spi_mem_tools_erase_chip]
    cases h2 : env.wen_ok w1.n_wen with
    | false => exact ⟨_, rfl⟩
    | true =>
      simp only [Bool.not_true, Bool.false_eq_true, if_false]
      cases h3 : env.erase_ok w1.n_erase with
      | false => exact ⟨_, rfl⟩
      | true =>
        simp only [Bool.not_true, Bool.false_eq_true, if_false, h4]
        cases b4 with
        | false => exact ⟨_, rfl⟩
        | true =>
          simp only
          cases h5 : env.wen_ok w4.n_wen with
          | false => exact ⟨_, rfl⟩
          | true => exact ⟨_, rfl⟩

/-- With the size plus the buffer size in the `size_t` range, verifying a chip and an
artifact of the same size `S` and identical bytes, with the open succeeding, no stop
observed and no I/O failure, returns with `ceil(S / C)` times `BlockReaded` followed by
one `VerifyDone`. -/
theorem verify_identical_in_range (env : Env) (worker : SPIMemWorker) (mem : Nat → Nat)
    (hC : 0 < env.SPI_MEM_FILE_BUFFER_SIZE)
    (hrange : spi_mem_worker_modes_get_total_size env + env.SPI_MEM_FILE_BUFFER_SIZE
      < env.size_mod)
    (hopen : env.open_ok 0 = true)
    (hstop : ∀ k, k ≤ chunk_count (spi_mem_worker_modes_get_total_size env)
        env.SPI_MEM_FILE_BUFFER_SIZE → env.stop k = false)
    (hchip : ∀ k, k < chunk_count (spi_mem_worker_modes_get_total_size env)
        env.SPI_MEM_FILE_BUFFER_SIZE → env.chip_ok k = true)
    (hfread : ∀ k, k < chunk_count (spi_mem_worker_modes_get_total_size env)
        env.SPI_MEM_FILE_BUFFER_SIZE → env.fread_ok k = true)
    (hmem : ∀ k a, env.chip_data k a = mem a) (hart : ∀ k p, env.file_data k p = mem p) :
    ∃ w : World,
      (∀ fuel, chunk_count (spi_mem_worker_modes_get_total_size env)
          env.SPI_MEM_FILE_BUFFER_SIZE < fuel →
        spi_mem_verify_process env worker fuel World.init = some w) ∧
      events w.trace
        = List.replicate (chunk_count (spi_mem_worker_modes_get_total_size env)
            env.SPI_MEM_FILE_BUFFER_SIZE) SPIMemCustomEventWorker.BlockReaded
          ++ [SPIMemCustomEventWorker.VerifyDone] := by
  have hmemf : ∀ k, env.chip_data k = mem := fun k => funext (hmem k)
  have hartf : ∀ k, env.file_data k = mem := fun k => funext (hart k)
  have hpre : verify_prefix_ok env (chunk_count (spi_mem_worker_modes_get_total_size env)
      env.SPI_MEM_FILE_BUFFER_SIZE) := by
    intro i hi
    have h1 := (chunk_count_lt _ _ i hC).mp hi
    obtain ⟨ho, hf⟩ := verify_offset_in_range env i hrange
    rw [ho, hf, hmemf, hartf]
    exact ⟨by omega, hstop i (Nat.le_of_lt hi), hchip i hi, hfread i hi, rfl⟩
  have hge := chunk_count_mul_ge (spi_mem_worker_modes_get_total_size env)
    env.SPI_MEM_FILE_BUFFER_SIZE hC
  refine ⟨verify_done_world env worker _, fun fuel hfuel =>
    verify_run_done env worker _ hopen hpre ?_ (hstop _ (Nat.le_refl _)) fuel hfuel,
    events_verify_done env worker _⟩
  rw [(verify_offset_in_range env _ hrange).1]
  omega

theorem await_world_zero (w : World) : await_world w 0 = w := by
  simp [await_world]

theorem await_step_busy (env : Env) (w : World) (i : Nat)
    (hstop : env.stop (w.n_stop + i) = false)
    (hst : env.status (w.n_status + i) = SPIMemChipStatus.Busy) :
    spi_mem_worker_await_chip_busy_body env (await_world w i)
      = Step.cont (await_world w (i + 1)) := by
  simp [spi_mem_worker_await_chip_busy_body, await_world, furi_delay_ms, World.log,
    spi_mem_worker_check_for_stop, spi_mem_tools_get_chip_status, hstop, hst,
    List.replicate_succ', busy_round, Nat.add_assoc]

theorem await_step_last (env : Env) (w : World) (j : Nat)
    (hend : env.stop (w.n_stop + j) = true
      ∨ env.status (w.n_status + j) ≠ SPIMemChipStatus.Busy) :
    spi_mem_worker_await_chip_busy_body env (await_world w j)
      = Step.brk
        (!(!env.stop (w.n_stop + j)
            && decide (env.status (w.n_status + j) = SPIMemChipStatus.Error)),
          { w with
            trace := w.trace ++ (List.replicate j busy_round).flatten
              ++ poll_round (env.stop (w.n_stop + j)) (env.status (w.n_status + j)),
            n_stop := w.n_stop + j + 1,
            n_status := if env.stop (w.n_stop + j) then w.n_status + j
              else w.n_status + j + 1 }) := by
  cases hs : env.stop (w.n_stop + j) with
  | true =>
    simp [spi_mem_worker_await_chip_busy_body, await_world, furi_delay_ms, World.log,
      spi_mem_worker_check_for_stop, hs, poll_round]
  | false =>
    rw [hs] at hend
    cases hst : env.status (w.n_status + j) with
    | Busy => rw [hst] at hend; simp at hend
    | Error =>
      simp [spi_mem_worker_await_chip_busy_body, await_world, furi_delay_ms, World.log,
        spi_mem_worker_check_for_stop, spi_mem_tools_get_chip_status, hs, hst, poll_round]
    | Ready =>
      simp [spi_mem_worker_await_chip_busy_body, await_world, furi_delay_ms, World.log,
        spi_mem_worker_check_for_stop, spi_mem_tools_get_chip_status, hs, hst, poll_round]

theorem await_run (env : Env) (w : World) (j : Nat)
    (hbusy : ∀ i, i < j → env.stop (w.n_stop + i) = false
      ∧ env.status (w.n_status + i) = SPIMemChipStatus.Busy)
    (hend : env.stop (w.n_stop + j) = true
      ∨ env.status (w.n_status + j) ≠ SPIMemChipStatus.Busy)
    (fuel : Nat) (hfuel : j < fuel) :
    spi_mem_worker_await_chip_busy env fuel w
      = some
        (!(!env.stop (w.n_stop + j)
            && decide (env.status (w.n_status + j) = SPIMemChipStatus.Error)),
          { w with
            trace := w.trace ++ (List.replicate j busy_round).flatten
              ++ poll_round (env.stop (w.n_stop + j)) (env.status (w.n_status + j)),
            n_stop := w.n_stop + j + 1,
            n_status := if env.stop (w.n_stop + j) then w.n_status + j
              else w.n_status + j + 1 }) := by
  obtain ⟨m, rfl⟩ : ∃ m, fuel = (m + 1) + j := ⟨fuel - j - 1, by omega⟩
  have h := loop_iterate (spi_mem_worker_await_chip_busy_body env) (await_world w) j
    (fun i hi => await_step_busy env w i (hbusy i hi).1 (hbusy i hi).2) (m + 1)
  rw [await_world_zero] at h
  rw [spi_mem_worker_await_chip_busy, h, loop_brk _ _ _ _ (await_step_last env w j hend)]

theorem detect_world_zero (w : World) : detect_world w 0 = w := by
  simp [detect_world]

theorem detect_step_retry (env : Env) (w : World) (i : Nat)
    (hinfo : env.info_ok (w.n_info + i) = false) (hstop : env.stop (w.n_stop + i) = false) :
    spi_mem_chip_detect_process_body env (detect_world w i)
      = Step.cont (detect_world w (i + 1)) := by
  simp [spi_mem_chip_detect_process_body, detect_world, spi_mem_tools_read_chip_info,
    spi_mem_worker_check_for_stop, hinfo, hstop, List.replicate_succ', retry_round,
    Nat.add_assoc]

theorem detect_step_found (env : Env) (w : World) (j : Nat)
    (hinfo : env.info_ok (w.n_info + j) = true) :
    spi_mem_chip_detect_process_body env (detect_world w j)
      = Step.brk (true,
          { w with
            trace := w.trace ++ (List.replicate j retry_round).flatten
              ++ [Act.read_chip_info true],
            n_info := w.n_info + j + 1, n_stop := w.n_stop + j }) := by
  simp [spi_mem_chip_detect_process_body, detect_world, spi_mem_tools_read_chip_info, hinfo]

theorem detect_step_stop (env : Env) (w : World) (j : Nat)
    (hinfo : env.info_ok (w.n_info + j) = false) (hstop : env.stop (w.n_stop + j) = true) :
    spi_mem_chip_detect_process_body env (detect_world w j)
      = Step.brk (false,
          { w with
            trace := w.trace ++ (List.replicate j retry_round).flatten
              ++ [Act.read_chip_info false, Act.check_for_stop true],
            n_info := w.n_info + j + 1, n_stop := w.n_stop + j + 1 }) := by
  simp [spi_mem_chip_detect_process_body, detect_world, spi_mem_tools_read_chip_info,
    spi_mem_worker_check_for_stop, hinfo, hstop]

theorem detect_loop_run (env : Env) (w : World) (j : Nat) (r : Bool × World)
    (hretry : ∀ i, i < j → env.info_ok (w.n_info + i) = false
      ∧ env.stop (w.n_stop + i) = false)
    (hlast : spi_mem_chip_detect_process_body env (detect_world w j) = Step.brk r)
    (fuel : Nat) (hfuel : j < fuel) :
    loop (spi_mem_chip_detect_process_body env) fuel w = some r := by
  obtain ⟨m, rfl⟩ : ∃ m, fuel = (m + 1) + j := ⟨fuel - j - 1, by omega⟩
  have h := loop_iterate (spi_mem_chip_detect_process_body env) (detect_world w) j
    (fun i hi => detect_step_retry env w i (hretry i hi).1 (hretry i hi).2) (m + 1)
  rw [detect_world_zero] at h
  rw [h, loop_brk _ _ _ _ hlast]

theorem detect_run_index (env : Env) (fuel : Nat) (r : Bool × World)
    (h : loop (spi_mem_chip_detect_process_body env) fuel World.init = some r) :
    ∃ j, (∀ i, i < j → env.info_ok i = false ∧ env.stop i = false) ∧
      ((r.1 = true ∧ env.info_ok j = true)
        ∨ (r.1 = false ∧ env.info_ok j = false ∧ env.stop j = true)) := by
  refine loop_invariant (spi_mem_chip_detect_process_body env)
    (fun s => s.n_info = s.n_stop
      ∧ ∀ i, i < s.n_info → env.info_ok i = false ∧ env.stop i = false)
    (fun r => ∃ j, (∀ i, i < j → env.info_ok i = false ∧ env.stop i = false) ∧
      ((r.1 = true ∧ env.info_ok j = true)
        ∨ (r.1 = false ∧ env.info_ok j = false ∧ env.stop j = true)))
    ?_ ?_ fuel World.init r ⟨rfl, fun i hi => absurd hi (Nat.not_lt_zero i)⟩ h
  · intro s r ⟨heq, hs⟩ hb
    cases hinfo : env.info_ok s.n_info with
    | true =>
      simp [spi_mem_chip_detect_process_body, spi_mem_tools_read_chip_info, hinfo] at hb
      subst hb
      exact ⟨s.n_info, hs, Or.inl ⟨rfl, hinfo⟩⟩
    | false =>
      cases hstop : env.stop s.n_stop with
      | true =>
        simp [spi_mem_chip_detect_process_body, spi_mem_tools_read_chip_info,
          spi_mem_worker_check_for_stop, World.log, hinfo, hstop] at hb
        subst hb
        exact ⟨s.n_info, hs, Or.inr ⟨rfl, hinfo, heq ▸ hstop⟩⟩
      | false =>
        simp [spi_mem_chip_detect_process_body, spi_mem_tools_read_chip_info,
          spi_mem_worker_check_for_stop, World.log, hinfo, hstop] at hb
  · intro s s1 ⟨heq, hs⟩ hb
    cases hinfo : env.info_ok s.n_info with
    | true =>
      simp [spi_mem_chip_detect_process_body, spi_mem_tools_read_chip_info, hinfo] at hb
    | false =>
      cases hstop : env.stop s.n_stop with
      | true =>
        simp [spi_mem_chip_detect_process_body, spi_mem_tools_read_chip_info,
          spi_mem_worker_check_for_stop, World.log, hinfo, hstop] at hb
      | false =>
        simp [spi_mem_chip_detect_process_body, spi_mem_tools_read_chip_info,
          spi_mem_worker_check_for_stop, World.log, hinfo, hstop] at hb
        subst hb
        refine ⟨by simp [heq], fun i hi => ?_⟩
        have hi1 : i < s.n_info ∨ i = s.n_info := by
          simp at hi; omega
        rcases hi1 with hi1 | hi1
        · exact hs i hi1
        · subst hi1; exact ⟨hinfo, heq ▸ hstop⟩

theorem await_stop_reports (env : Env) (fuel : Nat) (w : World) (r : Bool × World)
    (h : spi_mem_worker_await_chip_busy env fuel w = some r) (a : List Act)
    (ha : r.2.trace = w.trace ++ a) (hmem : Act.check_for_stop true ∈ a) : r.1 = true := by
  have key : ∃ b, r.2.trace = w.trace ++ b ∧ (Act.check_for_stop true ∈ b → r.1 = true) := by
    refine loop_invariant (spi_mem_worker_await_chip_busy_body env)
      (fun s => ∃ b, s.trace = w.trace ++ b ∧ Act.check_for_stop true ∉ b)
      (fun r => ∃ b, r.2.trace = w.trace ++ b ∧ (Act.check_for_stop true ∈ b → r.1 = true))
      ?_ ?_ fuel w r ⟨[], by simp⟩ h
    · intro s r ⟨b, hb1, hb2⟩ hb
      by_cases hstop : env.stop s.n_stop = true
      · simp [spi_mem_worker_await_chip_busy_body, furi_delay_ms, World.log,
          spi_mem_worker_check_for_stop, hstop] at hb
        subst hb
        exact ⟨b ++ [Act.delay_ms 200, Act.check_for_stop true], by simp [hb1], fun _ => rfl⟩
      · have hstop1 : env.stop s.n_stop = false := by simpa using hstop
        cases hst : env.status s.n_status with
        | Error =>
          simp [spi_mem_worker_await_chip_busy_body, furi_delay_ms, World.log,
            spi_mem_worker_check_for_stop, spi_mem_tools_get_chip_status, hstop1, hst] at hb
          subst hb
          exact ⟨b ++ [Act.delay_ms 200, Act.check_for_stop false,
            Act.get_chip_status SPIMemChipStatus.Error], by simp [hb1], by simp [hb2]⟩
        | Busy =>
          simp [spi_mem_worker_await_chip_busy_body, furi_delay_ms, World.log,
            spi_mem_worker_check_for_stop, spi_mem_tools_get_chip_status, hstop1, hst] at hb
        | Ready =>
          simp [spi_mem_worker_await_chip_busy_body, furi_delay_ms, World.log,
            spi_mem_worker_check_for_stop, spi_mem_tools_get_chip_status, hstop1, hst] at hb
          subst hb
          exact ⟨b ++ [Act.delay_ms 200, Act.check_for_stop false,
            Act.get_chip_status SPIMemChipStatus.Ready], by simp [hb1], fun _ => rfl⟩
    · intro s s1 ⟨b, hb1, hb2⟩ hb
      by_cases hstop : env.stop s.n_stop = true
      · simp [spi_mem_worker_await_chip_busy_body, furi_delay_ms, World.log,
          spi_mem_worker_check_for_stop, hstop] at hb
      · have hstop1 : env.stop s.n_stop = false := by simpa using hstop
        cases hst : env.status s.n_status with
        | Error =>
          simp [spi_mem_worker_await_chip_busy_body, furi_delay_ms, World.log,
            spi_mem_worker_check_for_stop, spi_mem_tools_get_chip_status, hstop1, hst] at hb
        | Busy =>
          simp [spi_mem_worker_await_chip_busy_body, furi_delay_ms, World.log,
            spi_mem_worker_check_for_stop, spi_mem_tools_get_chip_status, hstop1, hst] at hb
          subst hb
          exact ⟨b ++ [Act.delay_ms 200, Act.check_for_stop false,
            Act.get_chip_status SPIMemChipStatus.Busy], by simp [hb1], by simp [hb2]⟩
        | Ready =>
          simp [spi_mem_worker_await_chip_busy_body, furi_delay_ms, World.log,
            spi_mem_worker_check_for_stop, spi_mem_tools_get_chip_status, hstop1, hst] at hb
  obtain ⟨b, hb1, hb2⟩ := key
  have hab : a = b := List.append_cancel_left (ha.symm.trans hb1)
  exact hb2 (hab ▸ hmem)

theorem erase_shape_cancel (env : Env) (worker : SPIMemWorker) (fuel : Nat) (w : World)
    (h : spi_mem_chip_erase_process env worker fuel World.init = some w) :
    ∃ a1 r2 r3 a2 r5,
      (∀ x ∈ a1, is_poll x = true) ∧ (∀ x ∈ a2, is_poll x = true) ∧
      w.trace = (run_steps (erase_steps a1 r2 r3 a2 r5)).1
        ++ emit_trace worker (if (run_steps (erase_steps a1 r2 r3 a2 r5)).2
            then SPIMemCustomEventWorker.EraseDone
            else SPIMemCustomEventWorker.ChipReadFail) ∧
      (Act.check_for_stop true ∈ a1 → await_reports a1 = true) ∧
      (Act.check_for_stop true ∈ a2 →
        await_reports a1 = true ∧ r2 = true ∧ r3 = true ∧ await_reports a2 = true) := by
  simp only [spi_mem_chip_erase_process] at h
  cases h1 : spi_mem_worker_await_chip_busy env fuel World.init with
  | none => rw [h1] at h; cases h
  | some r1 =>
    obtain ⟨a1, ht1, hp1, hr1, _, _⟩ := await_post env fuel _ r1 h1
    have hc1 := await_stop_reports env fuel _ r1 h1 a1 ht1
    obtain ⟨b1, w1⟩ := r1
    simp only [World.init, List.nil_append] at ht1
    simp only at hr1 hc1
    rw [h1] at h
    cases b1 with
    | false =>
      simp only [Option.some.injEq] at h
      subst h
      exact ⟨a1, true, true, [], true, hp1, by simp,
        by simp [run_steps, erase_steps, ← hr1, run_worker_callback_eq, ht1],
        fun hm => absurd (hc1 hm) (by simp), by simp⟩
    | true =>
      simp only [spi_mem_tools_set_write_enabled, spi_mem_tools_erase_chip] at h
      cases h2 : env.wen_ok w1.n_wen with
      | false =>
        simp only [h2, Bool.not_false, if_true, Option.some.injEq] at h
        subst h
        exact ⟨a1, false, true, [], true, hp1, by simp,
          by simp [run_steps, erase_steps, ← hr1, run_worker_callback_eq, ht1],
          fun _ => hr1.symm, by simp⟩
      | true =>
        simp only [h2, Bool.not_true, Bool.false_eq_true, if_false] at h
        cases h3 : env.erase_ok w1.n_erase with
        | false =>
          simp only [h3, Bool.not_false, if_true, Option.some.injEq] at h
          subst h
          exact ⟨a1, true, false, [], true, hp1, by simp,
            by simp [run_steps, erase_steps, ← hr1, run_worker_callback_eq, ht1],
            fun _ => hr1.symm, by simp⟩
        | true =>
          simp only [h3, Bool.not_true, Bool.false_eq_true, if_false] at h
          cases h4 : spi_mem_worker_await_chip_busy env fuel
              { w1 with
                trace := w1.trace ++ [Act.set_write_enabled true true] ++ [Act.erase_chip true],
                n_wen := w1.n_wen + 1, n_erase := w1.n_erase + 1 } with
          | none => rw [h4] at h; cases h
          | some r4 =>
            obtain ⟨a2, ht2, hp2, hr2, _, _⟩ := await_post env fuel _ r4 h4
            have hc2 := await_stop_reports env fuel _ r4 h4 a2 ht2
            obtain ⟨b4, w4⟩ := r4
            simp only at ht2 hr2 hc2
            rw [h4] at h
            cases b4 with
            | false =>
              simp only [Option.some.injEq] at h
              subst h
              exact ⟨a1, true, true, a2, true, hp1, hp2,
                by simp [run_steps, erase_steps, ← hr1, ← hr2, run_worker_callback_eq, ht1,
                  ht2],
                fun _ => hr1.symm, fun hm => absurd (hc2 hm) (by simp)⟩
            | true =>
              cases h5 : env.wen_ok w4.n_wen with
              | false =>
                simp only [h5, Bool.not_false, if_true, Option.some.injEq] at h
                subst h
                exact ⟨a1, true, true, a2, false, hp1, hp2,
                  by simp [run_steps, erase_steps, ← hr1, ← hr2, run_worker_callback_eq, ht1,
                    ht2],
                  fun _ => hr1.symm, fun _ => ⟨hr1.symm, rfl, rfl, hr2.symm⟩⟩
              | true =>
                simp only [h5, Bool.not_true, Bool.false_eq_true, if_false,
                  Option.some.injEq] at h
                subst h
                exact ⟨a1, true, true, a2, true, hp1, hp2,
                  by simp [run_steps, erase_steps, ← hr1, ← hr2, run_worker_callback_eq, ht1,
                    ht2],
                  fun _ => hr1.symm, fun _ => ⟨hr1.symm, rfl, rfl, hr2.symm⟩⟩

theorem await_terminates_stop (env : Env) (w : World) (j : Nat) (hj : w.n_stop ≤ j)
    (hst : env.stop j = true) :
    ∃ r, spi_mem_worker_await_chip_busy env (j + 1 - w.n_stop) w = some r := by
  refine loop_terminates (spi_mem_worker_await_chip_busy_body env)
    (fun s => s.n_stop ≤ j) (fun s => j - s.n_stop) ?_ _ _ hj
    (by show j - w.n_stop < j + 1 - w.n_stop; omega)
  intro s s1 hs hb
  by_cases hstop : env.stop s.n_stop = true
  · simp [spi_mem_worker_await_chip_busy_body, furi_delay_ms, World.log,
      spi_mem_worker_check_for_stop, hstop] at hb
  · have hstop1 : env.stop s.n_stop = false := by simpa using hstop
    have hne : s.n_stop ≠ j := by
      intro heq; rw [heq, hst] at hstop1; cases hstop1
    cases hs1 : env.status s.n_status with
    | Error =>
      simp [spi_mem_worker_await_chip_busy_body, furi_delay_ms, World.log,
        spi_mem_worker_check_for_stop, spi_mem_tools_get_chip_status, hstop1, hs1] at hb
    | Busy =>
      simp [spi_mem_worker_await_chip_busy_body, furi_delay_ms, World.log,
        spi_mem_worker_check_for_stop, spi_mem_tools_get_chip_status, hstop1, hs1] at hb
      subst hb
      simp only
      omega
    | Ready =>
      simp [spi_mem_worker_await_chip_busy_body, furi_delay_ms, World.log,
        spi_mem_worker_check_for_stop, spi_mem_tools_get_chip_status, hstop1, hs1] at hb

theorem erase_returns_of_await (env : Env) (worker : SPIMemWorker)
    (hw : ∀ w : World, ∃ fuel r, spi_mem_worker_await_chip_busy env fuel w = some r) :
    ∃ fuel w, spi_mem_chip_erase_process env worker fuel World.init = some w := by
  obtain ⟨f1, r1, hr1⟩ := hw World.init
  obtain ⟨b1, w1⟩ := r1
  obtain ⟨f2, r4, hr4⟩ := hw
    { w1 with
      trace := w1.trace ++ [Act.set_write_enabled true true] ++ [Act.erase_chip true],
      n_wen := w1.n_wen + 1, n_erase := w1.n_erase + 1 }
  obtain ⟨b4, w4⟩ := r4
  have h1 := loop_mono _ hr1 (Nat.le_max_left f1 f2)
  have h4 := loop_mono _ hr4 (Nat.le_max_right f1 f2)
  refine ⟨max f1 f2, ?_⟩
  simp only [spi_mem_chip_erase_process, spi_mem_worker_await_chip_busy, h1]
  cases b1 with
  | false => exact ⟨_, rfl⟩
  | true =>
    simp only [spi_mem_tools_set_write_enabled, spi_mem_tools_erase_chip]
    cases h2 : env.wen_ok w1.n_wen with
    | false => exact ⟨_, rfl⟩
    | true =>
      simp only [Bool.not_true, Bool.false_eq_true, if_false]
      cases h3 : env.erase_ok w1.n_erase with
      | false => exact ⟨_, rfl⟩
      | true =>
        simp only [Bool.not_true, Bool.false_eq_true, if_false, h4]
        cases b4 with
        | false => exact ⟨_, rfl⟩
        | true =>
          simp only
          cases h5 : env.wen_ok w4.n_wen with
          | false => exact ⟨_, rfl⟩
          | true => exact ⟨_, rfl⟩

theorem close_not_mem_emit_trace (worker : SPIMemWorker) (e : SPIMemCustomEventWorker) :
    Act.file_close ∉ emit_trace worker e := by
  cases hcb : worker.callback <;> simp [emit_trace, hcb]

theorem transfer_not_mem_emit_trace (worker : SPIMemWorker) (e : SPIMemCustomEventWorker) :
    ∀ x ∈ emit_trace worker e, is_transfer x = false := by
  cases hcb : worker.callback <;> simp [emit_trace, hcb, is_transfer]

theorem replicate_block_succ (k : Nat) :
    List.replicate k SPIMemCustomEventWorker.BlockReaded ++ [SPIMemCustomEventWorker.BlockReaded]
      = List.replicate (k + 1) SPIMemCustomEventWorker.BlockReaded := by
  rw [List.replicate_succ']

theorem read_loop_shape (env : Env) (worker : SPIMemWorker) (w0 : World) (fuel : Nat)
    (r : LoopState)
    (h : loop (spi_mem_read_process_body env worker env.chip_size) fuel
      { world := w0, offset := 0, success := true } = some r) :
    ∃ a k, r.world.trace = w0.trace ++ a ∧ Act.file_close ∉ a ∧
      ((r.success = true ∧ events a = List.replicate k SPIMemCustomEventWorker.BlockReaded) ∨
        (r.success = false ∧ ∃ e, (e = SPIMemCustomEventWorker.ChipReadFail
            ∨ e = SPIMemCustomEventWorker.WriteFileFail) ∧
          events a = List.replicate k SPIMemCustomEventWorker.BlockReaded ++ [e])) := by
  refine loop_invariant (spi_mem_read_process_body env worker env.chip_size)
    (fun s => s.success = true ∧ ∃ a k, s.world.trace = w0.trace ++ a ∧ Act.file_close ∉ a ∧
      events a = List.replicate k SPIMemCustomEventWorker.BlockReaded)
    (fun r => ∃ a k, r.world.trace = w0.trace ++ a ∧ Act.file_close ∉ a ∧
      ((r.success = true ∧ events a = List.replicate k SPIMemCustomEventWorker.BlockReaded) ∨
        (r.success = false ∧ ∃ e, (e = SPIMemCustomEventWorker.ChipReadFail
            ∨ e = SPIMemCustomEventWorker.WriteFileFail) ∧
          events a = List.replicate k SPIMemCustomEventWorker.BlockReaded ++ [e])))
    ?_ ?_ fuel _ r ⟨rfl, [], 0, by simp, by simp, rfl⟩ h
  · intro s r ⟨hs, a, k, ha, hc, he⟩ hb
    rcases read_body_cases env worker s with
      ⟨_, h1⟩ | ⟨_, _, h1⟩ | ⟨_, _, _, len, h1⟩ | ⟨_, _, _, _, len, data, h1⟩ | ⟨_, _, _, _, data, h1⟩
    all_goals rw [h1] at hb
    · injection hb with hb; subst hb
      exact ⟨a ++ [Act.delay_tick 10, Act.check_for_stop true], k, by simp [ha], by simp [hc],
        Or.inl ⟨hs, by simp [events_append, events_cons, events_nil, he]⟩⟩
    · injection hb with hb; subst hb
      exact ⟨a ++ [Act.delay_tick 10, Act.check_for_stop false], k, by simp [ha],
        by simp [hc], Or.inl ⟨hs, by simp [events_append, events_cons, events_nil, he]⟩⟩
    · injection hb with hb; subst hb
      exact ⟨a ++ [Act.delay_tick 10, Act.check_for_stop false,
          Act.read_block_data s.offset len none]
          ++ emit_trace worker SPIMemCustomEventWorker.ChipReadFail, k, by simp [ha],
        by simp [hc, close_not_mem_emit_trace],
        Or.inr ⟨rfl, _, Or.inl rfl,
          by simp [events_append, events_cons, events_nil, events_emit_trace, he]⟩⟩
    · injection hb with hb; subst hb
      exact ⟨a ++ [Act.delay_tick 10, Act.check_for_stop false,
          Act.read_block_data s.offset len (some data), Act.file_write_block data false]
          ++ emit_trace worker SPIMemCustomEventWorker.WriteFileFail, k, by simp [ha],
        by simp [hc, close_not_mem_emit_trace],
        Or.inr ⟨rfl, _, Or.inr rfl,
          by simp [events_append, events_cons, events_nil, events_emit_trace, he]⟩⟩
    · cases hb
  · intro s s1 ⟨hs, a, k, ha, hc, he⟩ hb
    rcases read_body_cases env worker s with
      ⟨_, h1⟩ | ⟨_, _, h1⟩ | ⟨_, _, _, len, h1⟩ | ⟨_, _, _, _, len, data, h1⟩ | ⟨_, _, _, _, data, h1⟩
    all_goals rw [h1] at hb
    · cases hb
    · cases hb
    · cases hb
    · cases hb
    · injection hb with hb; subst hb
      exact ⟨hs, a ++ [Act.delay_tick 10, Act.check_for_stop false,
          Act.read_block_data s.offset (read_len env s.offset) (some data),
          Act.file_write_block data true]
          ++ emit_trace worker SPIMemCustomEventWorker.BlockReaded, k + 1, by simp [ha],
        by simp [hc, close_not_mem_emit_trace],
        by simp [events_append, events_cons, events_nil, events_emit_trace, he,
          replicate_block_succ]⟩

theorem verify_loop_shape (env : Env) (worker : SPIMemWorker) (w0 : World) (fuel : Nat)
    (r : LoopState)
    (h : loop (spi_mem_verify_process_body env worker (spi_mem_worker_modes_get_total_size env))
      fuel { world := w0, offset := 0, success := true } = some r) :
    ∃ a k, r.world.trace = w0.trace ++ a ∧ Act.file_close ∉ a ∧
      ((r.success = true ∧ events a = List.replicate k SPIMemCustomEventWorker.BlockReaded) ∨
        (r.success = false ∧ ∃ e, (e = SPIMemCustomEventWorker.ChipReadFail
            ∨ e = SPIMemCustomEventWorker.ReadFileFail
            ∨ e = SPIMemCustomEventWorker.VerifyFail) ∧
          events a = List.replicate k SPIMemCustomEventWorker.BlockReaded ++ [e])) := by
  refine loop_invariant
    (spi_mem_verify_process_body env worker (spi_mem_worker_modes_get_total_size env))
    (fun s => s.success = true ∧ ∃ a k, s.world.trace = w0.trace ++ a ∧ Act.file_close ∉ a ∧
      events a = List.replicate k SPIMemCustomEventWorker.BlockReaded)
    (fun r => ∃ a k, r.world.trace = w0.trace ++ a ∧ Act.file_close ∉ a ∧
      ((r.success = true ∧ events a = List.replicate k SPIMemCustomEventWorker.BlockReaded) ∨
        (r.success = false ∧ ∃ e, (e = SPIMemCustomEventWorker.ChipReadFail
            ∨ e = SPIMemCustomEventWorker.ReadFileFail
            ∨ e = SPIMemCustomEventWorker.VerifyFail) ∧
          events a = List.replicate k SPIMemCustomEventWorker.BlockReaded ++ [e])))
    ?_ ?_ fuel _ r ⟨rfl, [], 0, by simp, by simp, rfl⟩ h
  · intro s r ⟨hs, a, k, ha, hc, he⟩ hb
    rcases verify_body_cases env worker s with
      ⟨_, h1⟩ | ⟨_, _, h1⟩ | ⟨_, _, _, len, h1⟩ | ⟨_, _, _, _, len, data, h1⟩
        | ⟨_, _, _, _, len, d1, d2, _, h1⟩ | ⟨_, _, _, _, data, h1⟩
    all_goals rw [h1] at hb
    · injection hb with hb; subst hb
      exact ⟨a ++ [Act.delay_tick 10, Act.check_for_stop true], k, by simp [ha], by simp [hc],
        Or.inl ⟨hs, by simp [events_append, events_cons, events_nil, he]⟩⟩
    · injection hb with hb; subst hb
      exact ⟨a ++ [Act.delay_tick 10, Act.check_for_stop false], k, by simp [ha],
        by simp [hc], Or.inl ⟨hs, by simp [events_append, events_cons, events_nil, he]⟩⟩
    · injection hb with hb; subst hb
      exact ⟨a ++ [Act.delay_tick 10, Act.check_for_stop false,
          Act.read_block_data s.offset len none]
          ++ emit_trace worker SPIMemCustomEventWorker.ChipReadFail, k, by simp [ha],
        by simp [hc, close_not_mem_emit_trace],
        Or.inr ⟨rfl, _, Or.inl rfl,
          by simp [events_append, events_cons, events_nil, events_emit_trace, he]⟩⟩
    · injection hb with hb; subst hb
      exact ⟨a ++ [Act.delay_tick 10, Act.check_for_stop false,
          Act.read_block_data s.offset len (some data), Act.file_read_block len none]
          ++ emit_trace worker SPIMemCustomEventWorker.ReadFileFail, k, by simp [ha],
        by simp [hc, close_not_mem_emit_trace],
        Or.inr ⟨rfl, _, Or.inr (Or.inl rfl),
          by simp [events_append, events_cons, events_nil, events_emit_trace, he]⟩⟩
    · injection hb with hb; subst hb
      exact ⟨a ++ [Act.delay_tick 10, Act.check_for_stop false,
          Act.read_block_data s.offset len (some d1), Act.file_read_block len (some d2)]
          ++ emit_trace worker SPIMemCustomEventWorker.VerifyFail, k, by simp [ha],
        by simp [hc, close_not_mem_emit_trace],
        Or.inr ⟨rfl, _, Or.inr (Or.inr rfl),
          by simp [events_append, events_cons, events_nil, events_emit_trace, he]⟩⟩
    · cases hb
  · intro s s1 ⟨hs, a, k, ha, hc, he⟩ hb
    rcases verify_body_cases env worker s with
      ⟨_, h1⟩ | ⟨_, _, h1⟩ | ⟨_, _, _, len, h1⟩ | ⟨_, _, _, _, len, data, h1⟩
        | ⟨_, _, _, _, len, d1, d2, _, h1⟩ | ⟨_, _, _, _, data, h1⟩
    all_goals rw [h1] at hb
    · cases hb
    · cases hb
    · cases hb
    · cases hb
    · cases hb
    · injection hb with hb; subst hb
      exact ⟨hs, a ++ [Act.delay_tick 10, Act.check_for_stop false,
          Act.read_block_data s.offset (verify_len env s.offset) (some data),
          Act.file_read_block (verify_len env s.offset) (some data)]
          ++ emit_trace worker SPIMemCustomEventWorker.BlockReaded, k + 1, by simp [ha],
        by simp [hc, close_not_mem_emit_trace],
        by simp [events_append, events_cons, events_nil, events_emit_trace, he,
          replicate_block_succ]⟩

theorem read_process_shape (env : Env) (worker : SPIMemWorker) (fuel : Nat) (w : World)
    (h : spi_mem_read_process env worker fuel World.init = some w) :
    ∃ a k, Act.file_close ∉ a ∧
      ((w.trace = a ++ [Act.file_close] ++ emit_trace worker SPIMemCustomEventWorker.ReadDone
          ∧ events a = List.replicate k SPIMemCustomEventWorker.BlockReaded) ∨
        (w.trace = a ++ [Act.file_close] ∧
          ∃ e, (e = SPIMemCustomEventWorker.ChipReadFail
              ∨ e = SPIMemCustomEventWorker.WriteFileFail) ∧
            events a = List.replicate k SPIMemCustomEventWorker.BlockReaded ++ [e])) := by
  simp only [spi_mem_read_process, spi_mem_chip_get_size] at h
  cases hl : loop (spi_mem_read_process_body env worker env.chip_size) fuel
      { world := World.init, offset := 0, success := true } with
  | none => rw [hl] at h; cases h
  | some r =>
    rw [hl] at h
    obtain ⟨a, k, ha, hc, hr⟩ := read_loop_shape env worker World.init fuel r hl
    simp only [World.init, List.nil_append] at ha
    rcases hr with ⟨hs, he⟩ | ⟨hs, e, hee, he⟩
    · simp only [hs, if_true, Option.some.injEq] at h
      subst h
      exact ⟨a, k, hc, Or.inl ⟨by
        simp [run_worker_callback_eq, spi_mem_file_close, World.log, ha], he⟩⟩
    · simp only [hs, Bool.false_eq_true, if_false, Option.some.injEq] at h
      subst h
      exact ⟨a, k, hc, Or.inr ⟨by simp [spi_mem_file_close, World.log, ha], e, hee, he⟩⟩

theorem verify_process_shape (env : Env) (worker : SPIMemWorker) (fuel : Nat) (w : World)
    (hopen : env.open_ok 0 = true)
    (h : spi_mem_verify_process env worker fuel World.init = some w) :
    ∃ a k, Act.file_close ∉ a ∧
      ((w.trace = Act.file_open true :: a ++ [Act.file_close]
            ++ emit_trace worker SPIMemCustomEventWorker.VerifyDone
          ∧ events a = List.replicate k SPIMemCustomEventWorker.BlockReaded) ∨
        (w.trace = Act.file_open true :: a ++ [Act.file_close] ∧
          ∃ e, (e = SPIMemCustomEventWorker.ChipReadFail
              ∨ e = SPIMemCustomEventWorker.ReadFileFail
              ∨ e = SPIMemCustomEventWorker.VerifyFail) ∧
            events a = List.replicate k SPIMemCustomEventWorker.BlockReaded ++ [e])) := by
  simp only [spi_mem_verify_process, spi_mem_file_open, World.init, hopen, Bool.not_true,
    Bool.false_eq_true, if_false, if_true, List.nil_append] at h
  cases hl : loop (spi_mem_verify_process_body env worker
      (spi_mem_worker_modes_get_total_size env)) fuel
      { world := { trace := [Act.file_open true], n_stop := 0, n_info := 0, n_complete := 0,
                   n_status := 0, n_chip := 0, n_wen := 0, n_erase := 0, n_open := 0 + 1,
                   n_write := 0, n_fread := 0, fpos := 0 },
        offset := 0, success := true } with
  | none => rw [hl] at h; cases h
  | some r =>
    rw [hl] at h
    obtain ⟨a, k, ha, hc, hr⟩ := verify_loop_shape env worker _ fuel r hl
    simp only at ha
    rcases hr with ⟨hs, he⟩ | ⟨hs, e, hee, he⟩
    · simp only [hs, if_true, Option.some.injEq] at h
      subst h
      exact ⟨a, k, hc, Or.inl ⟨by
        simp [run_worker_callback_eq, spi_mem_file_close, World.log, ha], he⟩⟩
    · simp only [hs, Bool.false_eq_true, if_false, Option.some.injEq] at h
      subst h
      exact ⟨a, k, hc, Or.inr ⟨by simp [spi_mem_file_close, World.log, ha], e, hee, he⟩⟩

theorem verify_open_failed (env : Env) (worker : SPIMemWorker) (fuel : Nat) (w : World)
    (hopen : env.open_ok w.n_open = false) :
    spi_mem_verify_process env worker fuel w
      = some { w with trace := w.trace ++ [Act.file_open false], n_open := w.n_open + 1 } := by
  simp [spi_mem_verify_process, spi_mem_file_open, hopen]

theorem detect_loop_events (env : Env) (fuel : Nat) (r : Bool × World)
    (h : loop (spi_mem_chip_detect_process_body env) fuel World.init = some r) :
    events r.2.trace = [] ∧
      (r.1 = true → Act.check_for_stop true ∉ r.2.trace) ∧
      (r.1 = false → ∃ pre, r.2.trace = pre ++ [Act.check_for_stop true]) := by
  refine loop_invariant (spi_mem_chip_detect_process_body env)
    (fun s => events s.trace = [] ∧ Act.check_for_stop true ∉ s.trace)
    (fun r => events r.2.trace = [] ∧
      (r.1 = true → Act.check_for_stop true ∉ r.2.trace) ∧
      (r.1 = false → ∃ pre, r.2.trace = pre ++ [Act.check_for_stop true]))
    ?_ ?_ fuel World.init r ⟨rfl, by simp [World.init]⟩ h
  · intro s r ⟨he, hc⟩ hb
    cases hinfo : env.info_ok s.n_info with
    | true =>
      simp [spi_mem_chip_detect_process_body, spi_mem_tools_read_chip_info, hinfo] at hb
      subst hb
      exact ⟨by simp [events_append, events_cons, events_nil, he], fun _ => by simp [hc],
        fun hf => absurd hf (by simp)⟩
    | false =>
      cases hstop : env.stop s.n_stop with
      | true =>
        simp [spi_mem_chip_detect_process_body, spi_mem_tools_read_chip_info,
          spi_mem_worker_check_for_stop, World.log, hinfo, hstop] at hb
        subst hb
        exact ⟨by simp [events_append, events_cons, events_nil, he],
          fun hf => absurd hf (by simp),
          fun _ => ⟨s.trace ++ [Act.read_chip_info false], by simp⟩⟩
      | false =>
        simp [spi_mem_chip_detect_process_body, spi_mem_tools_read_chip_info,
          spi_mem_worker_check_for_stop, World.log, hinfo, hstop] at hb
  · intro s s1 ⟨he, hc⟩ hb
    cases hinfo : env.info_ok s.n_info with
    | true =>
      simp [spi_mem_chip_detect_process_body, spi_mem_tools_read_chip_info, hinfo] at hb
    | false =>
      cases hstop : env.stop s.n_stop with
      | true =>
        simp [spi_mem_chip_detect_process_body, spi_mem_tools_read_chip_info,
          spi_mem_worker_check_for_stop, World.log, hinfo, hstop] at hb
      | false =>
        simp [spi_mem_chip_detect_process_body, spi_mem_tools_read_chip_info,
          spi_mem_worker_check_for_stop, World.log, hinfo, hstop] at hb
        subst hb
        exact ⟨by simp [events_append, events_cons, events_nil, he], by simp [hc]⟩

theorem detect_loop_terminates (env : Env) (j : Nat)
    (hj : env.info_ok j = true ∨ env.stop j = true) :
    ∃ r, loop (spi_mem_chip_detect_process_body env) (j + 1) World.init = some r := by
  refine loop_terminates (spi_mem_chip_detect_process_body env)
    (fun s => s.n_info = s.n_stop ∧ s.n_info ≤ j) (fun s => j - s.n_info) ?_ _ _
    ⟨rfl, Nat.zero_le j⟩ (by simp [World.init])
  intro s s1 ⟨heq, hle⟩ hb
  cases hinfo : env.info_ok s.n_info with
  | true =>
    simp [spi_mem_chip_detect_process_body, spi_mem_tools_read_chip_info, hinfo] at hb
  | false =>
    cases hstop : env.stop s.n_stop with
    | true =>
      simp [spi_mem_chip_detect_process_body, spi_mem_tools_read_chip_info,
        spi_mem_worker_check_for_stop, World.log, hinfo, hstop] at hb
    | false =>
      simp [spi_mem_chip_detect_process_body, spi_mem_tools_read_chip_info,
        spi_mem_worker_check_for_stop, World.log, hinfo, hstop] at hb
      subst hb
      have hne : s.n_info ≠ j := by
        intro h1
        rcases hj with h2 | h2
        · rw [h1, h2] at hinfo; cases hinfo
        · rw [← heq, h1, h2] at hstop; cases hstop
      simp only
      omega

theorem loop_map {σ ρ σ1 ρ1 : Type} (body : σ → Step σ ρ) (body1 : σ1 → Step σ1 ρ1)
    (f : σ → σ1) (g : ρ → ρ1) (h : ∀ s, body1 (f s) = (body s).map f g) (fuel : Nat) (s : σ) :
    loop body1 fuel (f s) = (loop body fuel s).map g := by
  induction fuel generalizing s with
  | zero => rfl
  | succ n ih =>
    cases hb : body s with
    | brk r => simp [loop, h, hb, Step.map]
    | cont s1 => simp [loop, h, hb, Step.map, ih]

theorem ops_append (a b : List Act) : ops (a ++ b) = ops a ++ ops b := by
  simp [ops]

theorem ops_nil : ops [] = [] := rfl

theorem ops_cons (a : Act) (l : List Act) :
    ops (a :: l) = if is_callback a = true then ops l else a :: ops l := by
  cases h : is_callback a <;> simp [ops, h]

theorem ops_emit_trace (worker : SPIMemWorker) (e : SPIMemCustomEventWorker) :
    ops (emit_trace worker e) = [Act.emit e] := by
  cases hcb : worker.callback <;> simp [ops_cons, ops_nil, emit_trace, hcb, is_callback]

theorem emit_trace_silent (e : SPIMemCustomEventWorker) :
    emit_trace silent e = [Act.emit e] := rfl

theorem run_worker_callback_ops (worker : SPIMemWorker) (e : SPIMemCustomEventWorker)
    (w : World) :
    spi_mem_run_worker_callback silent e w.hide
      = (spi_mem_run_worker_callback worker e w).hide := by
  rw [run_worker_callback_eq, run_worker_callback_eq]
  simp only [World.hide, ops_append, ops_emit_trace, emit_trace_silent]

theorem read_body_ops (env : Env) (worker : SPIMemWorker) (chip_size : Nat) (s : LoopState) :
    spi_mem_read_process_body env silent chip_size s.hide
      = (spi_mem_read_process_body env worker chip_size s).map LoopState.hide
          LoopState.hide := by
  simp only [spi_mem_read_process_body, furi_delay_tick, World.log,
    spi_mem_worker_check_for_stop, spi_mem_tools_read_block_data, spi_mem_file_write_block,
    run_worker_callback_eq, LoopState.hide, World.hide, emit_trace_silent]
  by_cases hstop : env.stop s.world.n_stop = true
  · simp [hstop, Step.map, LoopState.hide, World.hide, ops_append, ops_cons, ops_nil,
      is_callback]
  · have hstop1 : env.stop s.world.n_stop = false := by simpa using hstop
    by_cases hoff : chip_size ≤ s.offset
    · simp [hstop1, hoff, Step.map, LoopState.hide, World.hide, ops_append, ops_cons,
        ops_nil, is_callback]
    · cases hchip : env.chip_ok s.world.n_chip with
      | false =>
        simp [hstop1, hoff, hchip, Step.map, LoopState.hide, World.hide, ops_append,
          ops_emit_trace, ops_cons, ops_nil, is_callback]
      | true =>
        cases hwrite : env.write_ok s.world.n_write with
        | false =>
          simp [hstop1, hoff, hchip, hwrite, Step.map, LoopState.hide, World.hide,
            ops_append, ops_emit_trace, ops_cons, ops_nil, is_callback]
        | true =>
          simp [hstop1, hoff, hchip, hwrite, Step.map, LoopState.hide, World.hide,
            ops_append, ops_emit_trace, ops_cons, ops_nil, is_callback]

theorem verify_body_ops (env : Env) (worker : SPIMemWorker) (total_size : Nat)
    (s : LoopState) :
    spi_mem_verify_process_body env silent total_size s.hide
      = (spi_mem_verify_process_body env worker total_size s).map LoopState.hide
          LoopState.hide := by
  simp only [spi_mem_verify_process_body, furi_delay_tick, World.log,
    spi_mem_worker_check_for_stop, spi_mem_tools_read_block_data, spi_mem_file_read_block,
    run_worker_callback_eq, LoopState.hide, World.hide, emit_trace_silent]
  by_cases hstop : env.stop s.world.n_stop = true
  · simp [hstop, Step.map, LoopState.hide, World.hide, ops_append, ops_cons, ops_nil,
      is_callback]
  · have hstop1 : env.stop s.world.n_stop = false := by simpa using hstop
    by_cases hoff : total_size ≤ s.offset
    · simp [hstop1, hoff, Step.map, LoopState.hide, World.hide, ops_append, ops_cons,
        ops_nil, is_callback]
    · cases hchip : env.chip_ok s.world.n_chip with
      | false =>
        simp [hstop1, hoff, hchip, Step.map, LoopState.hide, World.hide, ops_append,
          ops_emit_trace, ops_cons, ops_nil, is_callback]
      | true =>
        cases hfread : env.fread_ok s.world.n_fread with
        | false =>
          simp [hstop1, hoff, hchip, hfread, Step.map, LoopState.hide, World.hide,
            ops_append, ops_emit_trace, ops_cons, ops_nil, is_callback]
        | true =>
          simp only [hstop1, hoff, hchip, hfread, if_true, if_false, Bool.false_eq_true,
            ge_iff_le]
          split_ifs <;>
            simp [Step.map, LoopState.hide, World.hide, ops_append, ops_emit_trace, ops_cons,
              ops_nil, is_callback]

theorem await_body_ops (env : Env) (w : World) :
    spi_mem_worker_await_chip_busy_body env w.hide
      = (spi_mem_worker_await_chip_busy_body env w).map World.hide
          (fun r => (r.1, r.2.hide)) := by
  simp only [spi_mem_worker_await_chip_busy_body, furi_delay_ms, World.log,
    spi_mem_worker_check_for_stop, spi_mem_tools_get_chip_status, World.hide]
  by_cases hstop : env.stop w.n_stop = true
  · simp [hstop, Step.map, World.hide, ops_append, ops_cons, ops_nil, is_callback]
  · have hstop1 : env.stop w.n_stop = false := by simpa using hstop
    cases hst : env.status w.n_status <;>
      simp [hstop1, hst, Step.map, World.hide, ops_append, ops_cons, ops_nil, is_callback]

theorem detect_body_ops (env : Env) (w : World) :
    spi_mem_chip_detect_process_body env w.hide
      = (spi_mem_chip_detect_process_body env w).map World.hide
          (fun r => (r.1, r.2.hide)) := by
  simp only [spi_mem_chip_detect_process_body, spi_mem_tools_read_chip_info,
    spi_mem_worker_check_for_stop, World.hide]
  cases hinfo : env.info_ok w.n_info with
  | true => simp [Step.map, World.hide, ops_append, ops_cons, ops_nil, is_callback]
  | false =>
    cases hstop : env.stop w.n_stop <;>
      simp [Step.map, World.hide, ops_append, ops_cons, ops_nil, is_callback]

theorem file_close_ops (w : World) : spi_mem_file_close w.hide = (spi_mem_file_close w).hide := by
  simp [spi_mem_file_close, World.log, World.hide, ops_append, ops_cons, ops_nil, is_callback]

theorem read_process_ops (env : Env) (worker : SPIMemWorker) (fuel : Nat) (w : World) :
    spi_mem_read_process env silent fuel w.hide
      = (spi_mem_read_process env worker fuel w).map World.hide := by
  have hl := loop_map (spi_mem_read_process_body env worker (spi_mem_chip_get_size env))
    (spi_mem_read_process_body env silent (spi_mem_chip_get_size env))
    LoopState.hide LoopState.hide (read_body_ops env worker _) fuel
    { world := w, offset := 0, success := true }
  simp only [LoopState.hide] at hl
  simp only [spi_mem_read_process, hl]
  cases loop (spi_mem_read_process_body env worker (spi_mem_chip_get_size env)) fuel
      { world := w, offset := 0, success := true } with
  | none => rfl
  | some r =>
    cases hs : r.success <;>
      simp [hs, LoopState.hide, file_close_ops, run_worker_callback_ops worker]

theorem verify_process_ops (env : Env) (worker : SPIMemWorker) (fuel : Nat) (w : World) :
    spi_mem_verify_process env silent fuel w.hide
      = (spi_mem_verify_process env worker fuel w).map World.hide := by
  cases hopen : env.open_ok w.n_open with
  | false =>
    have h1 : env.open_ok w.hide.n_open = false := hopen
    rw [verify_open_failed env silent fuel w.hide h1, verify_open_failed env worker fuel w hopen]
    simp [World.hide, ops_append, ops_cons, ops_nil, is_callback]
  | true =>
    have hl := loop_map
      (spi_mem_verify_process_body env worker (spi_mem_worker_modes_get_total_size env))
      (spi_mem_verify_process_body env silent (spi_mem_worker_modes_get_total_size env))
      LoopState.hide LoopState.hide (verify_body_ops env worker _) fuel
      { world := (spi_mem_file_open env w).2, offset := 0, success := true }
    have hw : (spi_mem_file_open env w.hide).2 = (spi_mem_file_open env w).2.hide := by
      simp [spi_mem_file_open, World.hide, ops_append, ops_cons, ops_nil, is_callback]
    have h1 : (spi_mem_file_open env w.hide).1 = true := by
      simpa [spi_mem_file_open, World.hide] using hopen
    have h2 : (spi_mem_file_open env w).1 = true := by
      simpa [spi_mem_file_open] using hopen
    simp only [LoopState.hide] at hl
    simp only [spi_mem_verify_process, h1, h2, hw, hl, Bool.not_true, Bool.false_eq_true,
      if_false]
    cases loop (spi_mem_verify_process_body env worker
        (spi_mem_worker_modes_get_total_size env)) fuel
        { world := (spi_mem_file_open env w).2, offset := 0, success := true } with
    | none => rfl
    | some r =>
      cases hs : r.success <;>
        simp [hs, LoopState.hide, file_close_ops, run_worker_callback_ops worker]

theorem await_ops (env : Env) (fuel : Nat) (w : World) :
    spi_mem_worker_await_chip_busy env fuel w.hide
      = (spi_mem_worker_await_chip_busy env fuel w).map (fun r => (r.1, r.2.hide)) :=
  loop_map (spi_mem_worker_await_chip_busy_body env) (spi_mem_worker_await_chip_busy_body env)
    World.hide (fun r : Bool × World => (r.1, r.2.hide)) (await_body_ops env) fuel w

theorem detect_process_ops (env : Env) (worker : SPIMemWorker) (fuel : Nat) (w : World) :
    spi_mem_chip_detect_process env silent fuel w.hide
      = (spi_mem_chip_detect_process env worker fuel w).map World.hide := by
  have hl := loop_map (spi_mem_chip_detect_process_body env)
    (spi_mem_chip_detect_process_body env) World.hide
    (fun r : Bool × World => (r.1, r.2.hide))
    (detect_body_ops env) fuel w
  simp only [spi_mem_chip_detect_process, hl]
  cases loop (spi_mem_chip_detect_process_body env) fuel w with
  | none => rfl
  | some r =>
    obtain ⟨b, w1⟩ := r
    cases b with
    | false => rfl
    | true =>
      simp only [Option.map, spi_mem_chip_complete_info]
      rw [← run_worker_callback_ops worker]
      simp [World.hide, ops_append, ops_cons, ops_nil, is_callback]

theorem set_write_enabled_ops (env : Env) (b : Bool) (w : World) :
    spi_mem_tools_set_write_enabled env b w.hide
      = ((spi_mem_tools_set_write_enabled env b w).1,
          (spi_mem_tools_set_write_enabled env b w).2.hide) := by
  simp [spi_mem_tools_set_write_enabled, World.hide, ops_append, ops_cons, ops_nil,
    is_callback]

theorem erase_chip_ops (env : Env) (w : World) :
    spi_mem_tools_erase_chip env w.hide
      = ((spi_mem_tools_erase_chip env w).1, (spi_mem_tools_erase_chip env w).2.hide) := by
  simp [spi_mem_tools_erase_chip, World.hide, ops_append, ops_cons, ops_nil, is_callback]

theorem erase_process_ops (env : Env) (worker : SPIMemWorker) (fuel : Nat) (w : World) :
    spi_mem_chip_erase_process env silent fuel w.hide
      = (spi_mem_chip_erase_process env worker fuel w).map World.hide := by
  simp only [spi_mem_chip_erase_process, await_ops]
  cases spi_mem_worker_await_chip_busy env fuel w with
  | none => rfl
  | some r1 =>
    obtain ⟨b1, w1⟩ := r1
    cases b1 with
    | false => simp [run_worker_callback_ops worker]
    | true =>
      simp only [Option.map, set_write_enabled_ops]
      cases h2 : (spi_mem_tools_set_write_enabled env true w1).1 with
      | false => simp [run_worker_callback_ops worker]
      | true =>
        simp only [Bool.not_true, Bool.false_eq_true, if_false, erase_chip_ops]
        cases h3 : (spi_mem_tools_erase_chip env
            (spi_mem_tools_set_write_enabled env true w1).2).1 with
        | false => simp [run_worker_callback_ops worker]
        | true =>
          simp only [Bool.not_true, Bool.false_eq_true, if_false, await_ops]
          cases spi_mem_worker_await_chip_busy env fuel
              (spi_mem_tools_erase_chip env
                (spi_mem_tools_set_write_enabled env true w1).2).2 with
          | none => rfl
          | some r4 =>
            obtain ⟨b4, w4⟩ := r4
            cases b4 with
            | false => simp [run_worker_callback_ops worker]
            | true =>
              simp only [Option.map, set_write_enabled_ops]
              cases h5 : (spi_mem_tools_set_write_enabled env false w4).1 <;>
                simp [run_worker_callback_ops worker]

theorem projections_ops (tr : List Act) :
    chip_reads (ops tr) = chip_reads tr ∧ file_writes (ops tr) = file_writes tr ∧
      file_reads (ops tr) = file_reads tr ∧ events (ops tr) = events tr ∧
      closes (ops tr) = closes tr ∧ callbacks (ops tr) = [] := by
  induction tr with
  | nil => exact ⟨rfl, rfl, rfl, rfl, rfl, rfl⟩
  | cons a l ih =>
    obtain ⟨h1, h2, h3, h4, h5, h6⟩ := ih
    simp only [chip_reads, file_writes, file_reads, events, closes, callbacks] at h1 h2 h3 h4 h5 h6
    cases a <;>
      simp [ops_cons, is_callback, chip_reads, file_writes, file_reads, events, closes,
        callbacks, List.filterMap_cons, List.count_cons, h1, h2, h3, h4, h5, h6]

theorem read_pass_step (env : Env) (worker : SPIMemWorker) (k : Nat)
    (hlt : read_offset env k < env.chip_size)
    (hstop : env.stop k = false) (hchip : env.chip_ok k = true)
    (hwrite : env.write_ok k = true) :
    spi_mem_read_process_body env worker env.chip_size (read_pass_state env worker k)
      = Step.cont (read_pass_state env worker (k + 1)) := by
  have hlen : (if env.size_add (read_offset env k) env.SPI_MEM_FILE_BUFFER_SIZE
        > env.chip_size
      then env.size_sub env.chip_size (read_offset env k)
      else env.SPI_MEM_FILE_BUFFER_SIZE) = read_len env (read_offset env k) := rfl
  simp only [spi_mem_read_process_body, read_pass_state, furi_delay_tick,
    World.log, spi_mem_worker_check_for_stop, spi_mem_tools_read_block_data,
    spi_mem_file_write_block, run_worker_callback_eq, World.init, hstop, hchip, hwrite,
    hlen]
  simp [Nat.not_le.mpr hlt, read_pass_trace, read_calls, read_offset]

theorem read_pass_trace_succ (env : Env) (worker : SPIMemWorker) (k : Nat) :
    read_pass_trace env worker (k + 1)
      = read_pass_trace env worker k ++ read_calls env worker k := rfl

theorem overflow_env_read_offsets (k : Nat) :
    read_offset overflow_env k = (k * 4096) % 4294967296 ∧
    read_len overflow_env (read_offset overflow_env k) = 4096 := by
  have hS : overflow_env.chip_size = 4294967295 := rfl
  have hM : overflow_env.size_mod = 4294967296 := by
    simp [Env.size_mod, overflow_env, plain_env]
  have hC : overflow_env.SPI_MEM_FILE_BUFFER_SIZE = 4096 := rfl
  have hlen : ∀ o, read_len overflow_env o = 4096 := by
    intro o
    simp only [read_len, Env.size_add, hS, hM, hC]
    rw [if_neg (by omega)]
  refine ⟨?_, hlen _⟩
  induction k with
  | zero => rfl
  | succ k ih =>
    simp only [read_offset, hlen, Env.size_add, hM, ih]
    omega

theorem overflow_env_verify_offsets (k : Nat) :
    verify_offset overflow_env k = (k * 4096) % 4294967296 := by
  have hM : overflow_env.size_mod = 4294967296 := by
    simp [Env.size_mod, overflow_env, plain_env]
  induction k with
  | zero => rfl
  | succ k ih =>
    have h3 := (overflow_env_offsets k).2.2
    show overflow_env.size_add (verify_offset overflow_env k)
      (verify_len overflow_env (verify_offset overflow_env k)) = _
    rw [h3, ih]
    simp only [Env.size_add, hM]
    omega

theorem await_run_index (env : Env) (fuel : Nat) (w : World) (r : Bool × World)
    (h : spi_mem_worker_await_chip_busy env fuel w = some r) :
    ∃ j, wait_ends env w.n_stop w.n_status j := by
  refine loop_invariant (spi_mem_worker_await_chip_busy_body env)
    (fun s => ∃ i, s.n_stop = w.n_stop + i ∧ s.n_status = w.n_status + i ∧
      ∀ k, k < i → env.stop (w.n_stop + k) = false
        ∧ env.status (w.n_status + k) = SPIMemChipStatus.Busy)
    (fun _ => ∃ j, wait_ends env w.n_stop w.n_status j)
    ?_ ?_ fuel w r ⟨0, rfl, rfl, fun k hk => absurd hk (Nat.not_lt_zero k)⟩ h
  · intro s r ⟨i, h1, h2, h3⟩ hb
    refine ⟨i, h3, ?_⟩
    by_cases hstop : env.stop s.n_stop = true
    · exact Or.inl (h1 ▸ hstop)
    · have hstop1 : env.stop s.n_stop = false := by simpa using hstop
      right
      intro hbusy
      rw [← h2] at hbusy
      simp [spi_mem_worker_await_chip_busy_body, furi_delay_ms, World.log,
        spi_mem_worker_check_for_stop, spi_mem_tools_get_chip_status, hstop1, hbusy] at hb
  · intro s s1 ⟨i, h1, h2, h3⟩ hb
    by_cases hstop : env.stop s.n_stop = true
    · simp [spi_mem_worker_await_chip_busy_body, furi_delay_ms, World.log,
        spi_mem_worker_check_for_stop, hstop] at hb
    · have hstop1 : env.stop s.n_stop = false := by simpa using hstop
      cases hst : env.status s.n_status with
      | Error =>
        simp [spi_mem_worker_await_chip_busy_body, furi_delay_ms, World.log,
          spi_mem_worker_check_for_stop, spi_mem_tools_get_chip_status, hstop1, hst] at hb
      | Ready =>
        simp [spi_mem_worker_await_chip_busy_body, furi_delay_ms, World.log,
          spi_mem_worker_check_for_stop, spi_mem_tools_get_chip_status, hstop1, hst] at hb
      | Busy =>
        simp [spi_mem_worker_await_chip_busy_body, furi_delay_ms, World.log,
          spi_mem_worker_check_for_stop, spi_mem_tools_get_chip_status, hstop1, hst] at hb
        subst hb
        refine ⟨i + 1, by simp [h1, Nat.add_assoc], by simp [h2, Nat.add_assoc], ?_⟩
        intro k hk
        have hk1 : k < i ∨ k = i := by omega
        rcases hk1 with hk1 | hk1
        · exact h3 k hk1
        · subst hk1
          exact ⟨h1 ▸ hstop1, h2 ▸ hst⟩

theorem await_full (env : Env) (fuel : Nat) (w : World) (r : Bool × World)
    (h : spi_mem_worker_await_chip_busy env fuel w = some r) :
    ∃ j, wait_ends env w.n_stop w.n_status j ∧
      r.2.trace = w.trace ++ wait_calls env w.n_stop w.n_status j ∧
      (r.1 = false ↔ env.stop (w.n_stop + j) = false
        ∧ env.status (w.n_status + j) = SPIMemChipStatus.Error) ∧
      r.2.n_stop = w.n_stop + j + 1 ∧
      r.2.n_status = wait_status_count env w.n_stop w.n_status j ∧
      r.2.n_wen = w.n_wen ∧ r.2.n_erase = w.n_erase := by
  obtain ⟨j, hj⟩ := await_run_index env fuel w r h
  have h1 := loop_mono _ h (Nat.le_max_left fuel (j + 1))
  have h2 := await_run env w j hj.1 hj.2 (max fuel (j + 1))
    (Nat.lt_of_lt_of_le (Nat.lt_succ_self j) (Nat.le_max_right fuel (j + 1)))
  rw [spi_mem_worker_await_chip_busy] at h2
  rw [h1] at h2
  injection h2 with h2
  subst h2
  refine ⟨j, hj, by simp [wait_calls], ?_, rfl, rfl, rfl, rfl⟩
  cases env.stop (w.n_stop + j) <;> simp

theorem await_shape (env : Env) (fuel : Nat) (w : World) (r : Bool × World)
    (h : spi_mem_worker_await_chip_busy env fuel w = some r) :
    ∃ a j, r.2.trace = w.trace ++ a ∧ (∀ x ∈ a, is_poll x = true) ∧ r.1 = await_reports a ∧
      r.2.n_wen = w.n_wen ∧ r.2.n_erase = w.n_erase ∧
      wait_ends env w.n_stop w.n_status j ∧ a = wait_calls env w.n_stop w.n_status j ∧
      (await_reports a = false ↔ env.stop (w.n_stop + j) = false
        ∧ env.status (w.n_status + j) = SPIMemChipStatus.Error) ∧
      r.2.n_stop = w.n_stop + j + 1 ∧
      r.2.n_status = wait_status_count env w.n_stop w.n_status j := by
  obtain ⟨a, ht, hp, hr, hw, he⟩ := await_post env fuel w r h
  obtain ⟨j, hj, ht2, hf, hs1, hs2, _, _⟩ := await_full env fuel w r h
  have ha : a = wait_calls env w.n_stop w.n_status j :=
    List.append_cancel_left (ht.symm.trans ht2)
  exact ⟨a, j, ht, hp, hr, hw, he, hj, ha, hr ▸ hf, hs1, hs2⟩

theorem erase_shape_exact (env : Env) (worker : SPIMemWorker) (fuel : Nat) (w : World)
    (h : spi_mem_chip_erase_process env worker fuel World.init = some w) :
    ∃ a1 r2 r3 a2 r5,
      (∀ x ∈ a1, is_poll x = true) ∧ (∀ x ∈ a2, is_poll x = true) ∧
      w.trace = (run_steps (erase_steps a1 r2 r3 a2 r5)).1
        ++ emit_trace worker (if (run_steps (erase_steps a1 r2 r3 a2 r5)).2
            then SPIMemCustomEventWorker.EraseDone
            else SPIMemCustomEventWorker.ChipReadFail) ∧
      ∃ j1, wait_ends env 0 0 j1 ∧ a1 = wait_calls env 0 0 j1 ∧
        (await_reports a1 = false ↔ env.stop j1 = false
          ∧ env.status j1 = SPIMemChipStatus.Error) ∧
        (await_reports a1 = true → r2 = env.wen_ok 0 ∧
          (r2 = true → r3 = env.erase_ok 0 ∧
            (r3 = true →
              ∃ j2, wait_ends env (j1 + 1) (wait_status_count env 0 0 j1) j2 ∧
                a2 = wait_calls env (j1 + 1) (wait_status_count env 0 0 j1) j2 ∧
                (await_reports a2 = false ↔ env.stop (j1 + 1 + j2) = false
                  ∧ env.status (wait_status_count env 0 0 j1 + j2)
                    = SPIMemChipStatus.Error) ∧
                (await_reports a2 = true → r5 = env.wen_ok 1)))) := by
  simp only [spi_mem_chip_erase_process] at h
  cases h1 : spi_mem_worker_await_chip_busy env fuel World.init with
  | none => rw [h1] at h; cases h
  | some r1 =>
    obtain ⟨a1, j1, ht1, hp1, hr1, hw1, he1, hj1, ha1, hf1, hs1, hst1⟩ :=
      await_shape env fuel _ r1 h1
    obtain ⟨b1, w1⟩ := r1
    simp only [World.init, List.nil_append, Nat.zero_add] at ht1 hw1 he1 hj1 ha1 hf1 hs1 hst1
    simp only at hr1
    rw [h1] at h
    cases b1 with
    | false =>
      simp only [Option.some.injEq] at h
      subst h
      exact ⟨a1, true, true, [], true, hp1, by simp,
        by simp [run_steps, erase_steps, ← hr1, run_worker_callback_eq, ht1],
        j1, hj1, ha1, hf1, fun ht => by rw [← hr1] at ht; cases ht⟩
    | true =>
      simp only [spi_mem_tools_set_write_enabled, spi_mem_tools_erase_chip] at h
      cases h2 : env.wen_ok w1.n_wen with
      | false =>
        simp only [h2, Bool.not_false, if_true, Option.some.injEq] at h
        subst h
        exact ⟨a1, false, true, [], true, hp1, by simp,
          by simp [run_steps, erase_steps, ← hr1, run_worker_callback_eq, ht1],
          j1, hj1, ha1, hf1,
          fun _ => ⟨by rw [← hw1, h2], fun hc => by cases hc⟩⟩
      | true =>
        simp only [h2, Bool.not_true, Bool.false_eq_true, if_false] at h
        cases h3 : env.erase_ok w1.n_erase with
        | false =>
          simp only [h3, Bool.not_false, if_true, Option.some.injEq] at h
          subst h
          exact ⟨a1, true, false, [], true, hp1, by simp,
            by simp [run_steps, erase_steps, ← hr1, run_worker_callback_eq, ht1],
            j1, hj1, ha1, hf1,
            fun _ => ⟨by rw [← hw1, h2], fun _ => ⟨by rw [← he1, h3], fun hc => by cases hc⟩⟩⟩
        | true =>
          simp only [h3, Bool.not_true, Bool.false_eq_true, if_false] at h
          cases h4 : spi_mem_worker_await_chip_busy env fuel
              { w1 with
                trace := w1.trace ++ [Act.set_write_enabled true true] ++ [Act.erase_chip true],
                n_wen := w1.n_wen + 1, n_erase := w1.n_erase + 1 } with
          | none => rw [h4] at h; cases h
          | some r4 =>
            obtain ⟨a2, j2, ht2, hp2, hr2, hw2, _, hj2, ha2, hf2, _, _⟩ :=
              await_shape env fuel _ r4 h4
            obtain ⟨b4, w4⟩ := r4
            simp only [hs1, hst1, hw1, Nat.zero_add] at ht2 hw2 hj2 ha2 hf2
            simp only at hr2
            rw [h4] at h
            have hsecond : ∀ r5 : Bool, (b4 = true → r5 = env.wen_ok 1) →
                (true = true → true = env.wen_ok 0 ∧
                  (true = true → true = env.erase_ok 0 ∧
                    (true = true →
                      ∃ j2, wait_ends env (j1 + 1) (wait_status_count env 0 0 j1) j2 ∧
                        a2 = wait_calls env (j1 + 1) (wait_status_count env 0 0 j1) j2 ∧
                        (await_reports a2 = false ↔ env.stop (j1 + 1 + j2) = false
                          ∧ env.status (wait_status_count env 0 0 j1 + j2)
                            = SPIMemChipStatus.Error) ∧
                        (await_reports a2 = true → r5 = env.wen_ok 1)))) :=
              fun r5 h5 _ => ⟨by rw [← hw1, h2], fun _ => ⟨by rw [← he1, h3], fun _ =>
                ⟨j2, hj2, ha2, hf2, fun ht => h5 (hr2.trans ht)⟩⟩⟩
            cases b4 with
            | false =>
              simp only [Option.some.injEq] at h
              subst h
              exact ⟨a1, true, true, a2, true, hp1, hp2,
                by simp [run_steps, erase_steps, ← hr1, ← hr2, run_worker_callback_eq, ht1,
                  ht2],
                j1, hj1, ha1, hf1, fun _ => hsecond true (fun hc => by cases hc) rfl⟩
            | true =>
              cases h5 : env.wen_ok w4.n_wen with
              | false =>
                simp only [h5, Bool.not_false, if_true, Option.some.injEq] at h
                subst h
                exact ⟨a1, true, true, a2, false, hp1, hp2,
                  by simp [run_steps, erase_steps, ← hr1, ← hr2, run_worker_callback_eq, ht1,
                    ht2],
                  j1, hj1, ha1, hf1,
                  fun _ => hsecond false (fun _ => by rw [← h5, hw2]) rfl⟩
              | true =>
                simp only [h5, Bool.not_true, Bool.false_eq_true, if_false,
                  Option.some.injEq] at h
                subst h
                exact ⟨a1, true, true, a2, true, hp1, hp2,
                  by simp [run_steps, erase_steps, ← hr1, ← hr2, run_worker_callback_eq, ht1,
                    ht2],
                  j1, hj1, ha1, hf1,
                  fun _ => hsecond true (fun _ => by rw [← h5, hw2]) rfl⟩

theorem events_read_pass_trace (env : Env) (worker : SPIMemWorker) (k : Nat) :
    events (read_pass_trace env worker k)
      = List.replicate k SPIMemCustomEventWorker.BlockReaded := by
  induction k with
  | zero => rfl
  | succ k ih =>
    rw [read_pass_trace_succ, events_append, ih, read_calls, events_append,
      events_emit_trace]
    simp [events_cons, events_nil, replicate_block_succ]

theorem read_clean_read_pass_trace (env : Env) (worker : SPIMemWorker) (k : Nat) :
    read_clean (read_pass_trace env worker k) := by
  induction k with
  | zero => exact ⟨by simp [read_pass_trace, events], by simp [read_pass_trace, chip_reads],
      by simp [read_pass_trace, file_writes]⟩
  | succ k ih =>
    rw [read_pass_trace_succ, read_calls]
    refine read_clean_append _ _ ih (read_clean_append _ _ ?_ (read_clean_block_readed worker))
    refine ⟨?_, ?_, ?_⟩
    · simp [events_cons, events_nil]
    · simp [chip_reads_cons, chip_reads_nil]
    · simp [file_writes_cons, file_writes_nil]

/-- For every read run that returns, whatever the stop requests and I/O results,
`ReadDone` is emitted if and only if neither `ChipReadFail` nor `WriteFileFail` was
emitted, and if and only if no chip read and no file write failed; for every verify run
with the open succeeding that returns, `VerifyDone` is emitted if and only if none of
`ChipReadFail`, `ReadFileFail`, `VerifyFail` was emitted.  With a positive buffer size and
the total size plus the buffer size in the `size_t` range, every such run returns. -/
theorem done_iff_no_failure (env : Env) (worker : SPIMemWorker) :
    (∀ fuel w, spi_mem_read_process env worker fuel World.init = some w →
      (SPIMemCustomEventWorker.ReadDone ∈ events w.trace
        ↔ SPIMemCustomEventWorker.ChipReadFail ∉ events w.trace
          ∧ SPIMemCustomEventWorker.WriteFileFail ∉ events w.trace) ∧
      (SPIMemCustomEventWorker.ReadDone ∈ events w.trace
        ↔ (∀ x ∈ chip_reads w.trace, x.2.2 ≠ none)
          ∧ ∀ p ∈ file_writes w.trace, p.2 = true)) ∧
    (∀ fuel w, env.open_ok 0 = true →
      spi_mem_verify_process env worker fuel World.init = some w →
      (SPIMemCustomEventWorker.VerifyDone ∈ events w.trace
        ↔ SPIMemCustomEventWorker.ChipReadFail ∉ events w.trace
          ∧ SPIMemCustomEventWorker.ReadFileFail ∉ events w.trace
          ∧ SPIMemCustomEventWorker.VerifyFail ∉ events w.trace)) ∧
    (0 < env.SPI_MEM_FILE_BUFFER_SIZE →
      env.chip_size + env.SPI_MEM_FILE_BUFFER_SIZE < env.size_mod →
      ∃ fuel w, spi_mem_read_process env worker fuel World.init = some w) ∧
    (0 < env.SPI_MEM_FILE_BUFFER_SIZE →
      spi_mem_worker_modes_get_total_size env + env.SPI_MEM_FILE_BUFFER_SIZE < env.size_mod →
      ∃ fuel w, spi_mem_verify_process env worker fuel World.init = some w) := by
  refine ⟨?_, ?_, ?_, ?_⟩
  · intro fuel w h
    simp only [spi_mem_read_process, spi_mem_chip_get_size] at h
    cases hl : loop (spi_mem_read_process_body env worker env.chip_size) fuel
        { world := World.init, offset := 0, success := true } with
    | none => rw [hl] at h; cases h
    | some r =>
      rw [hl] at h
      rcases read_loop_post env worker fuel r hl with ⟨hs, hc1, hc2, hc3⟩ | ⟨hs, hf1, hf2, hf3⟩
      · simp only [hs, if_true, Option.some.injEq] at h
        subst h
        have hev : events (spi_mem_run_worker_callback worker SPIMemCustomEventWorker.ReadDone
            (spi_mem_file_close r.world)).trace
            = events r.world.trace ++ [SPIMemCustomEventWorker.ReadDone] := by
          simp only [run_worker_callback_eq, spi_mem_file_close, World.log, events_append,
            events_emit_trace, events_cons, events_nil, List.append_nil]
        have hcr : chip_reads (spi_mem_run_worker_callback worker
            SPIMemCustomEventWorker.ReadDone (spi_mem_file_close r.world)).trace
            = chip_reads r.world.trace := by
          simp only [run_worker_callback_eq, spi_mem_file_close, World.log, chip_reads_append,
            chip_reads_emit_trace, chip_reads_cons, chip_reads_nil, List.append_nil]
        have hfw : file_writes (spi_mem_run_worker_callback worker
            SPIMemCustomEventWorker.ReadDone (spi_mem_file_close r.world)).trace
            = file_writes r.world.trace := by
          simp only [run_worker_callback_eq, spi_mem_file_close, World.log,
            file_writes_append, file_writes_emit_trace, file_writes_cons, file_writes_nil,
            List.append_nil]
        rw [hev, hcr, hfw]
        have hno : ∀ e, e ≠ SPIMemCustomEventWorker.BlockReaded →
            e ≠ SPIMemCustomEventWorker.ReadDone →
            e ∉ events r.world.trace ++ [SPIMemCustomEventWorker.ReadDone] := by
          intro e h1 h2 hmem
          rcases List.mem_append.mp hmem with h3 | h3
          · exact h1 (hc1 e h3)
          · exact h2 (List.mem_singleton.mp h3)
        exact ⟨⟨fun _ => ⟨hno _ (by simp) (by simp), hno _ (by simp) (by simp)⟩,
          fun _ => by simp⟩, ⟨fun _ => ⟨hc2, hc3⟩, fun _ => by simp⟩⟩
      · simp only [hs, Bool.false_eq_true, if_false, Option.some.injEq] at h
        subst h
        have hev : events (spi_mem_file_close r.world).trace = events r.world.trace := by
          simp only [spi_mem_file_close, World.log, events_append, events_cons, events_nil,
            List.append_nil]
        have hcr : chip_reads (spi_mem_file_close r.world).trace
            = chip_reads r.world.trace := by
          simp only [spi_mem_file_close, World.log, chip_reads_append, chip_reads_cons,
            chip_reads_nil, List.append_nil]
        have hfw : file_writes (spi_mem_file_close r.world).trace
            = file_writes r.world.trace := by
          simp only [spi_mem_file_close, World.log, file_writes_append, file_writes_cons,
            file_writes_nil, List.append_nil]
        rw [hev, hcr, hfw]
        have hnd : SPIMemCustomEventWorker.ReadDone ∉ events r.world.trace :=
          fun hmem => hf1 _ hmem rfl
        refine ⟨⟨fun hd => absurd hd hnd, fun hn => ?_⟩, ⟨fun hd => absurd hd hnd, fun hn => ?_⟩⟩
        · rcases hf2 with h1 | h1
          · exact absurd h1 hn.1
          · exact absurd h1 hn.2
        · rcases hf3 with ⟨x, hx, hx1⟩ | ⟨p, hp, hp1⟩
          · exact absurd hx1 (hn.1 x hx)
          · have := hn.2 p hp
            rw [hp1] at this
            cases this
  · intro fuel w hopen h
    have hop : spi_mem_file_open env World.init
        = (true, { World.init with trace := [Act.file_open true], n_open := 1 }) := by
      simp [spi_mem_file_open, World.init, hopen]
    simp only [spi_mem_verify_process, hop, Bool.not_true, Bool.false_eq_true, if_false] at h
    cases hl : loop (spi_mem_verify_process_body env worker
        (spi_mem_worker_modes_get_total_size env)) fuel
        { world := { World.init with trace := [Act.file_open true], n_open := 1 }, offset := 0,
          success := true } with
    | none => rw [hl] at h; cases h
    | some r =>
      rw [hl] at h
      rcases verify_loop_post env worker _ (by simp [verify_clean, events_cons, events_nil])
        fuel r hl with ⟨hs, hc⟩ | ⟨hs, hf1, hf2⟩
      · simp only [hs, if_true, Option.some.injEq] at h
        subst h
        have hev : events (spi_mem_run_worker_callback worker
            SPIMemCustomEventWorker.VerifyDone (spi_mem_file_close r.world)).trace
            = events r.world.trace ++ [SPIMemCustomEventWorker.VerifyDone] := by
          simp only [run_worker_callback_eq, spi_mem_file_close, World.log, events_append,
            events_emit_trace, events_cons, events_nil, List.append_nil]
        rw [hev]
        have hno : ∀ e, e ≠ SPIMemCustomEventWorker.BlockReaded →
            e ≠ SPIMemCustomEventWorker.VerifyDone →
            e ∉ events r.world.trace ++ [SPIMemCustomEventWorker.VerifyDone] := by
          intro e h1 h2 hmem
          rcases List.mem_append.mp hmem with h3 | h3
          · exact h1 (hc e h3)
          · exact h2 (List.mem_singleton.mp h3)
        exact ⟨fun _ => ⟨hno _ (by simp) (by simp), hno _ (by simp) (by simp),
          hno _ (by simp) (by simp)⟩, fun _ => by simp⟩
      · simp only [hs, Bool.false_eq_true, if_false, Option.some.injEq] at h
        subst h
        have hev : events (spi_mem_file_close r.world).trace = events r.world.trace := by
          simp only [spi_mem_file_close, World.log, events_append, events_cons, events_nil,
            List.append_nil]
        rw [hev]
        refine ⟨fun hd => absurd rfl (hf1 _ hd), fun hn => ?_⟩
        rcases hf2 with h1 | h1 | h1
        · exact absurd h1 hn.1
        · exact absurd h1 hn.2.1
        · exact absurd h1 hn.2.2
  · intro hC hrange
    obtain ⟨r, hr⟩ := read_loop_terminates env worker hC hrange World.init
    refine ⟨env.chip_size + 1, ?_⟩
    simp only [spi_mem_read_process, spi_mem_chip_get_size, hr]
    by_cases hs : r.success = true <;> simp [hs]
  · intro hC hrange
    obtain ⟨r, hr⟩ := verify_loop_terminates env worker hC hrange
      (spi_mem_file_open env World.init).2
    refine ⟨spi_mem_worker_modes_get_total_size env + 1, ?_⟩
    simp only [spi_mem_verify_process]
    by_cases hopen : env.open_ok 0 = true
    · have hop : (spi_mem_file_open env World.init).1 = true := by
        simp [spi_mem_file_open, World.init, hopen]
      simp only [hop, Bool.not_true, Bool.false_eq_true, if_false, hr]
      by_cases hs : r.success = true <;> simp [hs]
    · have hop : (spi_mem_file_open env World.init).1 = false := by
        simpa [spi_mem_file_open, World.init] using hopen
      simp only [hop, Bool.not_false, if_true]
      exact ⟨_, rfl⟩

/-- Instances of `done_iff_no_failure`: a read run ended by a failed chip read emits no
`ReadDone`, a verify run of the demo environment emits `VerifyDone`, and both return. -/
theorem done_iff_no_failure_demo :
    (∃ w : World, spi_mem_read_process chipfail_env demo_worker 2 World.init = some w ∧
      SPIMemCustomEventWorker.ChipReadFail ∈ events w.trace ∧
      (SPIMemCustomEventWorker.ReadDone ∈ events w.trace
        ↔ SPIMemCustomEventWorker.ChipReadFail ∉ events w.trace
          ∧ SPIMemCustomEventWorker.WriteFileFail ∉ events w.trace)) ∧
    (∃ w : World, spi_mem_verify_process demo_env demo_worker 4 World.init = some w ∧
      (SPIMemCustomEventWorker.VerifyDone ∈ events w.trace
        ↔ SPIMemCustomEventWorker.ChipReadFail ∉ events w.trace
          ∧ SPIMemCustomEventWorker.ReadFileFail ∉ events w.trace
          ∧ SPIMemCustomEventWorker.VerifyFail ∉ events w.trace)) ∧
    (∃ fuel w, spi_mem_read_process demo_env demo_worker fuel World.init = some w) ∧
    (∃ fuel w, spi_mem_verify_process demo_env demo_worker fuel World.init = some w) :=
  ⟨⟨_, rfl, by decide, ((done_iff_no_failure chipfail_env demo_worker).1 2 _ rfl).1⟩,
    ⟨_, rfl, (done_iff_no_failure demo_env demo_worker).2.1 4 _ rfl rfl⟩,
    (done_iff_no_failure demo_env demo_worker).2.2.1 (by decide) (by decide),
    (done_iff_no_failure demo_env demo_worker).2.2.2 (by decide) (by decide)⟩

/-! ## The claims -/

/-- C1: in a read run with `S + C` in the `size_t` range, no stop observed and every
chip read and file write succeeding, the run returns (any fuel above the chunk count
suffices), the `k`-th chip read is issued at offset `k * C`, the `k`-th block written has
the bytes (hence the length) returned by the `k`-th chip read, and the written blocks
concatenated are the bytes of the addresses `0 .. S - 1`, each as returned by the read
that covers it. -/
theorem read_writes_are_chip_reads (env : Env) (worker : SPIMemWorker)
    (hC : 0 < env.SPI_MEM_FILE_BUFFER_SIZE)
    (hrange : env.chip_size + env.SPI_MEM_FILE_BUFFER_SIZE < env.size_mod)
    (hstop : ∀ k, k ≤ chunk_count env.chip_size env.SPI_MEM_FILE_BUFFER_SIZE → env.stop k = false)
    (hchip : ∀ k, k < chunk_count env.chip_size env.SPI_MEM_FILE_BUFFER_SIZE → env.chip_ok k = true)
    (hwrite : ∀ k, k < chunk_count env.chip_size env.SPI_MEM_FILE_BUFFER_SIZE → env.write_ok k = true) :
    ∃ w : World,
      (∀ fuel, chunk_count env.chip_size env.SPI_MEM_FILE_BUFFER_SIZE < fuel →
        spi_mem_read_process env worker fuel World.init = some w) ∧
      (chip_reads w.trace).length = chunk_count env.chip_size env.SPI_MEM_FILE_BUFFER_SIZE ∧
      (∀ k, k < (chip_reads w.trace).length →
        ((chip_reads w.trace).map (fun r => r.1))[k]?
          = some (k * env.SPI_MEM_FILE_BUFFER_SIZE)) ∧
      (file_writes w.trace).map (fun p => some p.1)
        = (chip_reads w.trace).map (fun r => r.2.2) ∧
      (file_writes w.trace).map (fun p => p.1.length)
        = (chip_reads w.trace).map (fun r => r.2.1) ∧
      ((file_writes w.trace).map (fun p => p.1)).flatten
        = (List.range env.chip_size).map
            (fun a => env.chip_data (a / env.SPI_MEM_FILE_BUFFER_SIZE) a) := by
  refine ⟨read_done_world env worker,
    fun fuel hf => read_run env worker hC hrange hstop hchip hwrite fuel hf, ?_⟩
  have hr : chip_reads (read_done_world env worker).trace
      = chip_reads (read_trace env worker
          (chunk_count env.chip_size env.SPI_MEM_FILE_BUFFER_SIZE)) := by
    simp only [read_done_world, World.init, chip_reads_append, chip_reads_emit_trace]
    simp [chip_reads]
  have hw : file_writes (read_done_world env worker).trace
      = file_writes (read_trace env worker
          (chunk_count env.chip_size env.SPI_MEM_FILE_BUFFER_SIZE)) := by
    simp only [read_done_world, World.init, file_writes_append, file_writes_emit_trace]
    simp [file_writes]
  rw [hr, hw, chip_reads_read_trace, file_writes_read_trace]
  refine ⟨by simp, ?_, by simp, ?_, ?_⟩
  · intro k hk
    simp only [List.length_map, List.length_range] at hk
    simp [List.getElem?_range hk]
  · simp [Function.comp_def, block_length]
  · have h := flatten_blocks env.chip_data env.chip_size env.SPI_MEM_FILE_BUFFER_SIZE
      (chunk_count env.chip_size env.SPI_MEM_FILE_BUFFER_SIZE)
    rw [Nat.min_eq_right (chunk_count_mul_ge _ _ hC)] at h
    rw [← h]
    simp [Function.comp_def]

/-- C2: in a read run with `S + C` in the `size_t` range, no stop observed and no I/O
failure, the run returns, the chunk sizes written sum to `S`, each is at most `C`, every
chunk but the last is `C`, the last is `S - C * (n - 1)` with `n = ceil(S / C)`, and the
events are `n` times `BlockReaded` followed by one `ReadDone`. -/
theorem read_chunk_sizes (env : Env) (worker : SPIMemWorker)
    (hC : 0 < env.SPI_MEM_FILE_BUFFER_SIZE)
    (hrange : env.chip_size + env.SPI_MEM_FILE_BUFFER_SIZE < env.size_mod)
    (hstop : ∀ k, k ≤ chunk_count env.chip_size env.SPI_MEM_FILE_BUFFER_SIZE → env.stop k = false)
    (hchip : ∀ k, k < chunk_count env.chip_size env.SPI_MEM_FILE_BUFFER_SIZE → env.chip_ok k = true)
    (hwrite : ∀ k, k < chunk_count env.chip_size env.SPI_MEM_FILE_BUFFER_SIZE → env.write_ok k = true) :
    ∃ w : World,
      (∀ fuel, chunk_count env.chip_size env.SPI_MEM_FILE_BUFFER_SIZE < fuel →
        spi_mem_read_process env worker fuel World.init = some w) ∧
      ((file_writes w.trace).map (fun p => p.1.length)).sum = env.chip_size ∧
      (∀ x ∈ (file_writes w.trace).map (fun p => p.1.length),
        x ≤ env.SPI_MEM_FILE_BUFFER_SIZE) ∧
      ((file_writes w.trace).map (fun p => p.1.length)).length
        = chunk_count env.chip_size env.SPI_MEM_FILE_BUFFER_SIZE ∧
      (∀ k, k + 1 < chunk_count env.chip_size env.SPI_MEM_FILE_BUFFER_SIZE →
        ((file_writes w.trace).map (fun p => p.1.length))[k]?
          = some env.SPI_MEM_FILE_BUFFER_SIZE) ∧
      (0 < chunk_count env.chip_size env.SPI_MEM_FILE_BUFFER_SIZE →
        ((file_writes w.trace).map (fun p => p.1.length))[
            chunk_count env.chip_size env.SPI_MEM_FILE_BUFFER_SIZE - 1]?
          = some (env.chip_size - env.SPI_MEM_FILE_BUFFER_SIZE
              * (chunk_count env.chip_size env.SPI_MEM_FILE_BUFFER_SIZE - 1))) ∧
      events w.trace
        = List.replicate (chunk_count env.chip_size env.SPI_MEM_FILE_BUFFER_SIZE)
            SPIMemCustomEventWorker.BlockReaded ++ [SPIMemCustomEventWorker.ReadDone] := by
  refine ⟨read_done_world env worker,
    fun fuel hf => read_run env worker hC hrange hstop hchip hwrite fuel hf, ?_⟩
  have hw : (file_writes (read_done_world env worker).trace).map (fun p => p.1.length)
      = (List.range (chunk_count env.chip_size env.SPI_MEM_FILE_BUFFER_SIZE)).map
          (chunk_len env.chip_size env.SPI_MEM_FILE_BUFFER_SIZE) := by
    simp only [read_done_world, World.init, file_writes_append, file_writes_emit_trace,
      file_writes_read_trace]
    simp [file_writes, Function.comp_def, block_length]
  have hge := chunk_count_mul_ge env.chip_size env.SPI_MEM_FILE_BUFFER_SIZE hC
  rw [hw]
  refine ⟨?_, ?_, by simp, ?_, ?_, ?_⟩
  · rw [chunk_len_sum, Nat.min_eq_right hge]
  · intro x hx
    obtain ⟨i, _, rfl⟩ := List.mem_map.mp hx
    unfold chunk_len; omega
  · intro k hk
    have h1 := (chunk_count_lt _ _ (k + 1) hC).mp hk
    rw [Nat.succ_mul] at h1
    rw [List.getElem?_map, List.getElem?_range (by omega)]
    simp only [Option.map_some', chunk_len]
    congr 1; omega
  · intro hn
    have h1 := (chunk_count_lt env.chip_size env.SPI_MEM_FILE_BUFFER_SIZE
      (chunk_count env.chip_size env.SPI_MEM_FILE_BUFFER_SIZE - 1) hC).mp (by omega)
    rw [List.getElem?_map, List.getElem?_range (by omega)]
    simp only [Option.map_some', chunk_len]
    congr 1
    have h2 : (chunk_count env.chip_size env.SPI_MEM_FILE_BUFFER_SIZE - 1 + 1)
        * env.SPI_MEM_FILE_BUFFER_SIZE
        = chunk_count env.chip_size env.SPI_MEM_FILE_BUFFER_SIZE
          * env.SPI_MEM_FILE_BUFFER_SIZE := by
      rw [Nat.sub_add_cancel hn]
    rw [Nat.succ_mul] at h2
    rw [Nat.mul_comm env.SPI_MEM_FILE_BUFFER_SIZE]
    omega
  · simp only [read_done_world, World.init, events_append, events_emit_trace,
      events_read_trace]
    simp [events]
/-- C3 (amended): with `min(A, B) + C` in the `size_t` range, the open succeeding, no stop
observed and no chip-read or file-read failure, the verify run returns; every chip read
and every file read lies within the first `min(A, B)` bytes; `VerifyDone` is emitted if and
only if chip and artifact agree on each of these bytes, and then the compared chunk sizes
sum to `min(A, B)`; an empty artifact gives `VerifyDone` with no chip read and no
`BlockReaded`. -/
theorem verify_compares_first_min (env : Env) (worker : SPIMemWorker) (mem art : Nat → Nat)
    (hC : 0 < env.SPI_MEM_FILE_BUFFER_SIZE)
    (hrange : min env.chip_size env.file_size + env.SPI_MEM_FILE_BUFFER_SIZE < env.size_mod)
    (hopen : env.open_ok 0 = true)
    (hstop : ∀ k, k ≤ chunk_count (min env.chip_size env.file_size)
        env.SPI_MEM_FILE_BUFFER_SIZE → env.stop k = false)
    (hchip : ∀ k, k < chunk_count (min env.chip_size env.file_size)
        env.SPI_MEM_FILE_BUFFER_SIZE → env.chip_ok k = true)
    (hfread : ∀ k, k < chunk_count (min env.chip_size env.file_size)
        env.SPI_MEM_FILE_BUFFER_SIZE → env.fread_ok k = true)
    (hmem : ∀ k a, env.chip_data k a = mem a) (hart : ∀ k p, env.file_data k p = art p) :
    ∃ w : World,
      (∀ fuel, chunk_count (min env.chip_size env.file_size) env.SPI_MEM_FILE_BUFFER_SIZE < fuel →
        spi_mem_verify_process env worker fuel World.init = some w) ∧
      spi_mem_worker_modes_get_total_size env = min env.chip_size env.file_size ∧
      (∀ r ∈ chip_reads w.trace, r.1 + r.2.1 ≤ min env.chip_size env.file_size) ∧
      ((file_reads w.trace).map (fun r => r.1)).sum ≤ min env.chip_size env.file_size ∧
      (SPIMemCustomEventWorker.VerifyDone ∈ events w.trace
        ↔ ∀ a, a < min env.chip_size env.file_size → mem a = art a) ∧
      ((∀ a, a < min env.chip_size env.file_size → mem a = art a) →
        ((chip_reads w.trace).map (fun r => r.2.1)).sum = min env.chip_size env.file_size ∧
        ((file_reads w.trace).map (fun r => r.1)).sum = min env.chip_size env.file_size) ∧
      (env.file_size = 0 →
        chip_reads w.trace = [] ∧ events w.trace = [SPIMemCustomEventWorker.VerifyDone]) := by
  have hT := total_size_eq_min env
  rw [← hT] at hrange hstop hchip hfread ⊢
  generalize hTd : spi_mem_worker_modes_get_total_size env = T at *
  generalize hCd : env.SPI_MEM_FILE_BUFFER_SIZE = C at *
  have hrange2 : spi_mem_worker_modes_get_total_size env + env.SPI_MEM_FILE_BUFFER_SIZE
      < env.size_mod := by rw [hTd, hCd]; exact hrange
  have hoff : ∀ k, verify_offset env k = min (k * C) T ∧ verify_fpos env k = min (k * C) T := by
    intro k; have := verify_offset_in_range env k hrange2; rwa [hTd, hCd] at this
  have hlen : ∀ k, verify_len env (min (k * C) T) = chunk_len T C k := by
    intro k; have := verify_len_in_range env k hrange2; rwa [hTd, hCd] at this
  have hlens : ∀ k, (List.range k).map (fun i => verify_len env (verify_offset env i))
      = (List.range k).map (chunk_len T C) := by
    intro k; have := verify_lens_in_range env k hrange2; rwa [hTd, hCd] at this
  have hmemf : ∀ k, env.chip_data k = mem := fun k => funext (hmem k)
  have hartf : ∀ k, env.file_data k = art := fun k => funext (hart k)
  -- a pass goes round again exactly when its two blocks are equal
  have hpre : ∀ k, k ≤ chunk_count T C → (∀ i, i < k → i * C < T ∧
      block mem (min (i * C) T) (chunk_len T C i) = block art (min (i * C) T) (chunk_len T C i))
      → verify_prefix_ok env k := by
    intro k hk h i hi
    obtain ⟨h1, h2⟩ := h i hi
    rw [(hoff i).1, (hoff i).2, hlen i, hmemf, hartf, hTd]
    exact ⟨by omega, hstop i (by omega), hchip i (by omega), hfread i (by omega), h2⟩
  have hreads : ∀ (k : Nat) (r : Nat × Nat × Option (List Nat)),
      r ∈ chip_reads (verify_trace env worker k) → r.1 + r.2.1 ≤ T := by
    intro k r hr
    rw [chip_reads_verify_trace] at hr
    obtain ⟨i, _, rfl⟩ := List.mem_map.mp hr
    simp only [(hoff i).1, hlen i]
    have := chunk_len_step T C i
    omega
  have hcsum : ∀ k, ((chip_reads (verify_trace env worker k)).map (fun r => r.2.1)).sum
      = min (k * C) T := by
    intro k
    rw [chip_reads_verify_trace, List.map_map]
    have := hlens k
    simp only [Function.comp_def] at this ⊢
    rw [this, chunk_len_sum]
  have hfsum : ∀ k, ((file_reads (verify_trace env worker k)).map (fun r => r.1)).sum
      = min (k * C) T := by
    intro k
    rw [file_reads_verify_trace, List.map_map]
    have := hlens k
    simp only [Function.comp_def] at this ⊢
    rw [this, chunk_len_sum]
  by_cases hex : ∃ i, i < chunk_count T C ∧
      block mem (min (i * C) T) (chunk_len T C i) ≠ block art (min (i * C) T) (chunk_len T C i)
  · -- some chunk differs: the run stops at the first such chunk
    have hj := Nat.find_spec hex
    have hmin : ∀ i, i < Nat.find hex → i * C < T ∧
        block mem (min (i * C) T) (chunk_len T C i)
          = block art (min (i * C) T) (chunk_len T C i) := by
      intro i hi
      have h1 := Nat.find_min hex hi
      have h2 : i < chunk_count T C := by omega
      refine ⟨(chunk_count_lt T C i hC).mp h2, ?_⟩
      by_contra hne
      exact h1 ⟨h2, hne⟩
    have hjlt := (chunk_count_lt T C _ hC).mp hj.1
    have hne : block (env.chip_data (Nat.find hex)) (verify_offset env (Nat.find hex))
          (verify_len env (verify_offset env (Nat.find hex)))
        ≠ block (env.file_data (Nat.find hex)) (verify_fpos env (Nat.find hex))
          (verify_len env (verify_offset env (Nat.find hex))) := by
      rw [(hoff _).1, (hoff _).2, hlen, hmemf, hartf]; exact hj.2
    have hnot : ¬ ∀ a, a < T → mem a = art a := by
      intro hag
      apply hj.2
      apply block_congr
      intro a ha
      apply hag
      have := chunk_len_step T C (Nat.find hex)
      omega
    refine ⟨verify_mismatch_world env worker (Nat.find hex), ?_, rfl, ?_, ?_, ?_, ?_, ?_⟩
    · intro fuel hfuel
      exact verify_run_mismatch env worker _ hopen (hpre _ (Nat.le_of_lt hj.1) hmin)
        (by rw [(hoff _).1, hTd]; omega) (hstop _ (Nat.le_of_lt hj.1)) (hchip _ hj.1)
        (hfread _ hj.1) hne fuel (by omega)
    · intro r hr
      rw [chip_reads_verify_mismatch] at hr
      exact hreads _ r hr
    · rw [file_reads_verify_mismatch, hfsum]; omega
    · rw [events_verify_mismatch]
      simp [hnot]
    · intro hag; exact absurd hag hnot
    · intro hz
      omega
  · -- every chunk matches: the run reaches the total size
    have hall : ∀ i, i < chunk_count T C → i * C < T ∧
        block mem (min (i * C) T) (chunk_len T C i)
          = block art (min (i * C) T) (chunk_len T C i) := by
      intro i hi
      refine ⟨(chunk_count_lt T C i hC).mp hi, ?_⟩
      by_contra hne
      exact hex ⟨i, hi, hne⟩
    have hge := chunk_count_mul_ge T C hC
    have hag : ∀ a, a < T → mem a = art a := by
      intro a ha
      have hdm := Nat.div_add_mod a C
      have hml := Nat.mod_lt a hC
      have hmul : a / C * C = C * (a / C) := Nat.mul_comm _ _
      have hi : a / C < chunk_count T C := (chunk_count_lt T C _ hC).mpr (by omega)
      have hb := (hall _ hi).2
      have hcl : chunk_len T C (a / C) = min C (T - a / C * C) := rfl
      exact block_eq_at mem art _ _ a hb (by omega) (by omega)
    refine ⟨verify_done_world env worker (chunk_count T C), ?_, rfl, ?_, ?_, ?_, ?_, ?_⟩
    · intro fuel hfuel
      exact verify_run_done env worker _ hopen (hpre _ (Nat.le_refl _) hall)
        (by rw [(hoff _).1, hTd]; omega) (hstop _ (Nat.le_refl _)) fuel hfuel
    · intro r hr
      rw [chip_reads_verify_done] at hr
      exact hreads _ r hr
    · rw [file_reads_verify_done, hfsum]; omega
    · rw [events_verify_done]
      exact ⟨fun _ => hag, fun _ => by simp⟩
    · intro _
      rw [chip_reads_verify_done, file_reads_verify_done, hcsum, hfsum]
      omega
    · intro hz
      have hT0 : T = 0 := by omega
      have hn0 : chunk_count T C = 0 := by
        by_contra hne
        have := (chunk_count_lt T C 0 hC).mp (by omega)
        omega
      rw [chip_reads_verify_done, events_verify_done, hn0]
      simp [verify_trace, chip_reads]

/-- C4 (failing input): on a 32-bit `size_t` with a 4096-byte buffer, verifying a chip
and an artifact of `2 ^ 32 - 1` identical bytes with no stop and no I/O failure never
leaves the loop, for any amount of fuel: `offset + block_size` wraps to 0 in the last
chunk, the chunk is not clamped, and `offset` itself wraps to 0 afterwards. -/
theorem verify_overflow_never_returns (worker : SPIMemWorker) (fuel : Nat) :
    spi_mem_verify_process overflow_env worker fuel World.init = none := by
  have hsteps : ∀ i, spi_mem_verify_process_body overflow_env worker
      (spi_mem_worker_modes_get_total_size overflow_env) (verify_state overflow_env worker i)
      = Step.cont (verify_state overflow_env worker (i + 1)) := by
    intro i
    obtain ⟨h1, h2, _⟩ := overflow_env_offsets i
    have hT : spi_mem_worker_modes_get_total_size overflow_env = 4294967295 := rfl
    exact verify_step overflow_env worker i (by rw [hT]; omega) rfl rfl rfl rfl
  have h0 : verify_state overflow_env worker 0
      = { world := (verify_state overflow_env worker 0).world, offset := 0, success := true } :=
    rfl
  simp only [spi_mem_verify_process, verify_state_zero overflow_env worker rfl, Bool.not_true,
    Bool.false_eq_true, if_false]
  rw [← h0, loop_diverge _ (verify_state overflow_env worker) hsteps fuel 0]

/-- C5: when chip and artifact differ in the byte at offset `X` below the compared size
and agree on every other byte below it, the open succeeds, no stop is observed and no
I/O fails, the verify run returns with `floor(X / C)` times `BlockReaded` followed by one
`VerifyFail`; it makes `floor(X / C) + 1` chip reads and as many file reads, none of them
starting beyond `X`, and emits no `VerifyDone`. -/
theorem verify_single_difference (env : Env) (worker : SPIMemWorker) (mem art : Nat → Nat)
    (X : Nat)
    (hC : 0 < env.SPI_MEM_FILE_BUFFER_SIZE)
    (hS : spi_mem_worker_modes_get_total_size env < env.size_mod)
    (hX : X < spi_mem_worker_modes_get_total_size env)
    (hopen : env.open_ok 0 = true)
    (hstop : ∀ k, k ≤ X / env.SPI_MEM_FILE_BUFFER_SIZE → env.stop k = false)
    (hchip : ∀ k, k ≤ X / env.SPI_MEM_FILE_BUFFER_SIZE → env.chip_ok k = true)
    (hfread : ∀ k, k ≤ X / env.SPI_MEM_FILE_BUFFER_SIZE → env.fread_ok k = true)
    (hmem : ∀ k a, env.chip_data k a = mem a) (hart : ∀ k p, env.file_data k p = art p)
    (hdiff : mem X ≠ art X)
    (hsame : ∀ a, a < spi_mem_worker_modes_get_total_size env → a ≠ X → mem a = art a) :
    ∃ w : World,
      (∀ fuel, X / env.SPI_MEM_FILE_BUFFER_SIZE < fuel →
        spi_mem_verify_process env worker fuel World.init = some w) ∧
      events w.trace
        = List.replicate (X / env.SPI_MEM_FILE_BUFFER_SIZE) SPIMemCustomEventWorker.BlockReaded
          ++ [SPIMemCustomEventWorker.VerifyFail] ∧
      (chip_reads w.trace).length = X / env.SPI_MEM_FILE_BUFFER_SIZE + 1 ∧
      (file_reads w.trace).length = X / env.SPI_MEM_FILE_BUFFER_SIZE + 1 ∧
      (∀ r ∈ chip_reads w.trace, r.1 ≤ X) ∧
      SPIMemCustomEventWorker.VerifyDone ∉ events w.trace := by
  have hmemf : ∀ k, env.chip_data k = mem := fun k => funext (hmem k)
  have hartf : ∀ k, env.file_data k = art := fun k => funext (hart k)
  have hdm := Nat.div_add_mod X env.SPI_MEM_FILE_BUFFER_SIZE
  have hml := Nat.mod_lt X hC
  have hmul : X / env.SPI_MEM_FILE_BUFFER_SIZE * env.SPI_MEM_FILE_BUFFER_SIZE
      = env.SPI_MEM_FILE_BUFFER_SIZE * (X / env.SPI_MEM_FILE_BUFFER_SIZE) := Nat.mul_comm _ _
  have hjle : X / env.SPI_MEM_FILE_BUFFER_SIZE * env.SPI_MEM_FILE_BUFFER_SIZE ≤ X := by omega
  have hpre : verify_prefix_ok env (X / env.SPI_MEM_FILE_BUFFER_SIZE) := by
    apply verify_prefix_full env _ hS (by omega) hC (fun i hi => hstop i (Nat.le_of_lt hi))
      (fun i hi => hchip i (Nat.le_of_lt hi)) (fun i hi => hfread i (Nat.le_of_lt hi))
    intro i hi
    rw [hmemf, hartf]
    apply block_congr
    intro a ha
    have hle : (i + 1) * env.SPI_MEM_FILE_BUFFER_SIZE
        ≤ X / env.SPI_MEM_FILE_BUFFER_SIZE * env.SPI_MEM_FILE_BUFFER_SIZE :=
      Nat.mul_le_mul_right _ hi
    rw [Nat.succ_mul] at hle
    exact hsame a (by omega) (by omega)
  obtain ⟨ho, hf⟩ := verify_offset_full env (X / env.SPI_MEM_FILE_BUFFER_SIZE) hS (by omega)
  have hcov := verify_len_covers env
    (X / env.SPI_MEM_FILE_BUFFER_SIZE * env.SPI_MEM_FILE_BUFFER_SIZE) X hS hX hjle (by omega)
  have hne : block (env.chip_data (X / env.SPI_MEM_FILE_BUFFER_SIZE))
        (verify_offset env (X / env.SPI_MEM_FILE_BUFFER_SIZE))
        (verify_len env (verify_offset env (X / env.SPI_MEM_FILE_BUFFER_SIZE)))
      ≠ block (env.file_data (X / env.SPI_MEM_FILE_BUFFER_SIZE))
        (verify_fpos env (X / env.SPI_MEM_FILE_BUFFER_SIZE))
        (verify_len env (verify_offset env (X / env.SPI_MEM_FILE_BUFFER_SIZE))) := by
    rw [ho, hf, hmemf, hartf]
    intro heq
    exact hdiff (block_eq_at mem art _ _ X heq hjle hcov)
  refine ⟨verify_mismatch_world env worker (X / env.SPI_MEM_FILE_BUFFER_SIZE), ?_, ?_, ?_, ?_,
    ?_, ?_⟩
  · intro fuel hfuel
    exact verify_run_mismatch env worker _ hopen hpre (by rw [ho]; omega)
      (hstop _ (Nat.le_refl _)) (hchip _ (Nat.le_refl _)) (hfread _ (Nat.le_refl _)) hne fuel
      hfuel
  · exact events_verify_mismatch env worker _
  · rw [chip_reads_verify_mismatch, chip_reads_verify_trace]; simp
  · rw [file_reads_verify_mismatch, file_reads_verify_trace]; simp
  · intro r hr
    rw [chip_reads_verify_mismatch, chip_reads_verify_trace] at hr
    obtain ⟨i, hi, rfl⟩ := List.mem_map.mp hr
    have hi1 : i ≤ X / env.SPI_MEM_FILE_BUFFER_SIZE := by
      have := List.mem_range.mp hi; omega
    have hle : i * env.SPI_MEM_FILE_BUFFER_SIZE
        ≤ X / env.SPI_MEM_FILE_BUFFER_SIZE * env.SPI_MEM_FILE_BUFFER_SIZE :=
      Nat.mul_le_mul_right _ hi1
    rw [(verify_offset_full env i hS (by omega)).1]
    omega
  · rw [events_verify_mismatch]
    simp

/-- C6: when no stop is observed, chunks `0 .. k - 1` are processed successfully (and
match, in verify) and the chip read of chunk `k < ceil(S / C)` fails, the run returns with
exactly `k` times `BlockReaded` followed by one `ChipReadFail`, no `ReadDone` or
`VerifyDone`, `k` file writes (reads, in verify), `k + 1` chip reads, and exactly one
close.  First conjunct: read; second conjunct: verify with the open succeeding. -/
theorem chip_read_failure_at_chunk (env : Env) (worker : SPIMemWorker) (k : Nat)
    (hC : 0 < env.SPI_MEM_FILE_BUFFER_SIZE) (hfail : env.chip_ok k = false)
    (hstop : ∀ i, i ≤ k → env.stop i = false)
    (hchip : ∀ i, i < k → env.chip_ok i = true) :
    (env.chip_size < env.size_mod →
      k < chunk_count env.chip_size env.SPI_MEM_FILE_BUFFER_SIZE →
      (∀ i, i < k → env.write_ok i = true) →
      ∃ w : World,
        (∀ fuel, k < fuel → spi_mem_read_process env worker fuel World.init = some w) ∧
        events w.trace = List.replicate k SPIMemCustomEventWorker.BlockReaded
          ++ [SPIMemCustomEventWorker.ChipReadFail] ∧
        SPIMemCustomEventWorker.ReadDone ∉ events w.trace ∧
        (file_writes w.trace).length = k ∧
        (chip_reads w.trace).length = k + 1 ∧
        closes w.trace = 1) ∧
    (spi_mem_worker_modes_get_total_size env < env.size_mod →
      k < chunk_count (spi_mem_worker_modes_get_total_size env) env.SPI_MEM_FILE_BUFFER_SIZE →
      env.open_ok 0 = true →
      (∀ i, i < k → env.fread_ok i = true) →
      (∀ i, i < k →
        block (env.chip_data i) (i * env.SPI_MEM_FILE_BUFFER_SIZE) env.SPI_MEM_FILE_BUFFER_SIZE
          = block (env.file_data i) (i * env.SPI_MEM_FILE_BUFFER_SIZE)
              env.SPI_MEM_FILE_BUFFER_SIZE) →
      ∃ w : World,
        (∀ fuel, k < fuel → spi_mem_verify_process env worker fuel World.init = some w) ∧
        events w.trace = List.replicate k SPIMemCustomEventWorker.BlockReaded
          ++ [SPIMemCustomEventWorker.ChipReadFail] ∧
        SPIMemCustomEventWorker.VerifyDone ∉ events w.trace ∧
        (file_reads w.trace).length = k ∧
        (chip_reads w.trace).length = k + 1 ∧
        closes w.trace = 1) := by
  constructor
  · intro hS hk hwrite
    have hk1 := (chunk_count_lt _ _ k hC).mp hk
    refine ⟨read_chipfail_world env worker k,
      fun fuel hf => read_run_chipfail env worker k hC hS hk1 hstop hchip hwrite hfail fuel hf,
      ?_⟩
    have hev : events (read_chipfail_world env worker k).trace
        = List.replicate k SPIMemCustomEventWorker.BlockReaded
          ++ [SPIMemCustomEventWorker.ChipReadFail] := by
      simp only [read_chipfail_world, World.init, events_append, events_emit_trace,
        events_read_trace]
      simp [events]
    refine ⟨hev, ?_, ?_, ?_, ?_⟩
    · rw [hev]; simp
    · simp only [read_chipfail_world, World.init, file_writes_append, file_writes_emit_trace,
        file_writes_read_trace]
      simp [file_writes]
    · simp only [read_chipfail_world, World.init, chip_reads_append, chip_reads_emit_trace,
        chip_reads_read_trace]
      simp [chip_reads]
    · simp only [read_chipfail_world, World.init, closes_append, closes_emit_trace,
        closes_read_trace]
      simp [closes]
  · intro hS hk hopen hfread heq
    have hk1 := (chunk_count_lt _ _ k hC).mp hk
    have hpre := verify_prefix_full env k hS (by omega) hC (fun i hi => hstop i (by omega))
      hchip hfread heq
    have hoff := (verify_offset_full env k hS (by omega)).1
    refine ⟨verify_chipfail_world env worker k,
      fun fuel hf => verify_run_chipfail env worker k hopen hpre (by rw [hoff]; exact hk1)
        (hstop k (Nat.le_refl k)) hfail fuel hf, ?_⟩
    refine ⟨events_verify_chipfail env worker k, ?_, ?_, ?_, ?_⟩
    · rw [events_verify_chipfail]; simp
    · simp only [verify_chipfail_world, file_reads_append, file_reads_emit_trace,
        file_reads_verify_trace]
      simp [file_reads]
    · simp only [verify_chipfail_world, chip_reads_append, chip_reads_emit_trace,
        chip_reads_verify_trace]
      simp [chip_reads]
    · simp only [verify_chipfail_world, closes_append, closes_emit_trace, closes_verify_trace]
      simp [closes]

/-- C7 (amended): when the first stop check observes the stop request, the run returns
after that check with no chip or file I/O and no `BlockReaded`; it closes the artifact and
then emits the terminal-success event (`ReadDone` for read, `VerifyDone` for verify with
the open succeeding), which is its only event. -/
theorem stop_at_first_check (env : Env) (worker : SPIMemWorker) (hstop : env.stop 0 = true) :
    (∃ w : World,
      (∀ fuel, 0 < fuel → spi_mem_read_process env worker fuel World.init = some w) ∧
      w.trace = [Act.delay_tick 10, Act.check_for_stop true, Act.file_close]
        ++ emit_trace worker SPIMemCustomEventWorker.ReadDone ∧
      events w.trace = [SPIMemCustomEventWorker.ReadDone]) ∧
    (env.open_ok 0 = true →
      ∃ w : World,
        (∀ fuel, 0 < fuel → spi_mem_verify_process env worker fuel World.init = some w) ∧
        w.trace = [Act.file_open true, Act.delay_tick 10, Act.check_for_stop true,
            Act.file_close]
          ++ emit_trace worker SPIMemCustomEventWorker.VerifyDone ∧
        events w.trace = [SPIMemCustomEventWorker.VerifyDone]) := by
  constructor
  · refine ⟨{ World.init with
        trace := [Act.delay_tick 10, Act.check_for_stop true, Act.file_close]
          ++ emit_trace worker SPIMemCustomEventWorker.ReadDone,
        n_stop := 1 }, ?_, rfl, ?_⟩
    · intro fuel hfuel
      obtain ⟨m, rfl⟩ : ∃ m, fuel = m + 1 := ⟨fuel - 1, by omega⟩
      simp [spi_mem_read_process, loop, spi_mem_read_process_body, furi_delay_tick, World.log,
        spi_mem_worker_check_for_stop, spi_mem_file_close, run_worker_callback_eq,
        World.init, hstop]
    · rw [events_append, events_emit_trace]; rfl
  · intro hopen
    refine ⟨{ World.init with
        trace := [Act.file_open true, Act.delay_tick 10, Act.check_for_stop true,
            Act.file_close]
          ++ emit_trace worker SPIMemCustomEventWorker.VerifyDone,
        n_stop := 1, n_open := 1 }, ?_, rfl, ?_⟩
    · intro fuel hfuel
      obtain ⟨m, rfl⟩ : ∃ m, fuel = m + 1 := ⟨fuel - 1, by omega⟩
      simp [spi_mem_verify_process, loop, spi_mem_verify_process_body, furi_delay_tick,
        World.log, spi_mem_worker_check_for_stop, spi_mem_file_close, spi_mem_file_open,
        run_worker_callback_eq, World.init, hstop, hopen]
    · rw [events_append, events_emit_trace]; rfl

/-- C7 (counterexample): with the stop request observed at the first check, the read run
of `stop_env` emits `ReadDone`. -/
theorem cancelled_read_emits_done :
    stop_env.stop 0 = true ∧
    ∃ w : World, spi_mem_read_process stop_env demo_worker 1 World.init = some w ∧
      SPIMemCustomEventWorker.ReadDone ∈ events w.trace :=
  ⟨rfl, _, rfl, by decide⟩

/-- C8 (failing input): on a 32-bit `size_t` with a 4096-byte buffer and a chip and a file
of `2 ^ 32 - 1` bytes, with no stop request and every chip read, file write and file read
succeeding, neither the read run nor the verify run returns, for any amount of fuel:
after any number `k` of passes the run is still in its loop with `success` set, it has
emitted `k` times `BlockReaded` and nothing else, and none of its chip reads, file
writes or file reads has failed. So no failure occurs and no failure event is emitted,
and yet `ReadDone` (`VerifyDone`) is never emitted. -/
theorem overflow_no_failure_no_done (worker : SPIMemWorker) :
    (∀ fuel, spi_mem_read_process overflow_env worker fuel World.init = none) ∧
    (∀ k fuel, loop (spi_mem_read_process_body overflow_env worker overflow_env.chip_size)
        (fuel + k) { world := World.init, offset := 0, success := true }
      = loop (spi_mem_read_process_body overflow_env worker overflow_env.chip_size) fuel
          (read_pass_state overflow_env worker k)) ∧
    (∀ k, (read_pass_state overflow_env worker k).success = true ∧
      events (read_pass_state overflow_env worker k).world.trace
        = List.replicate k SPIMemCustomEventWorker.BlockReaded ∧
      (∀ x ∈ chip_reads (read_pass_state overflow_env worker k).world.trace, x.2.2 ≠ none) ∧
      (∀ p ∈ file_writes (read_pass_state overflow_env worker k).world.trace, p.2 = true)) ∧
    (∀ fuel, spi_mem_verify_process overflow_env worker fuel World.init = none) ∧
    (∀ k fuel, loop (spi_mem_verify_process_body overflow_env worker
          (spi_mem_worker_modes_get_total_size overflow_env))
        (fuel + k)
        { world := (spi_mem_file_open overflow_env World.init).2, offset := 0,
          success := true }
      = loop (spi_mem_verify_process_body overflow_env worker
          (spi_mem_worker_modes_get_total_size overflow_env)) fuel
          (verify_state overflow_env worker k)) ∧
    (∀ k, (verify_state overflow_env worker k).success = true ∧
      events (verify_state overflow_env worker k).world.trace
        = List.replicate k SPIMemCustomEventWorker.BlockReaded ∧
      (∀ x ∈ chip_reads (verify_state overflow_env worker k).world.trace, x.2.2 ≠ none) ∧
      (∀ x ∈ file_reads (verify_state overflow_env worker k).world.trace, x.2 ≠ none)) := by
  have hread : ∀ i, spi_mem_read_process_body overflow_env worker overflow_env.chip_size
      (read_pass_state overflow_env worker i)
      = Step.cont (read_pass_state overflow_env worker (i + 1)) := by
    intro i
    have h1 := (overflow_env_read_offsets i).1
    have hS : overflow_env.chip_size = 4294967295 := rfl
    exact read_pass_step overflow_env worker i (by rw [h1, hS]; omega) rfl rfl rfl
  have hverify : ∀ i, spi_mem_verify_process_body overflow_env worker
      (spi_mem_worker_modes_get_total_size overflow_env) (verify_state overflow_env worker i)
      = Step.cont (verify_state overflow_env worker (i + 1)) := by
    intro i
    obtain ⟨h1, h2, _⟩ := overflow_env_offsets i
    have hT : spi_mem_worker_modes_get_total_size overflow_env = 4294967295 := rfl
    exact verify_step overflow_env worker i (by rw [hT]; omega) rfl rfl rfl rfl
  have hr0 : read_pass_state overflow_env worker 0
      = { world := World.init, offset := 0, success := true } := rfl
  have hv0 : verify_state overflow_env worker 0
      = { world := (spi_mem_file_open overflow_env World.init).2, offset := 0,
          success := true } := by
    rw [verify_state_zero overflow_env worker rfl]
    rfl
  refine ⟨?_, ?_, ?_, ?_, ?_, ?_⟩
  · intro fuel
    have hd := loop_diverge _ (read_pass_state overflow_env worker) hread fuel 0
    rw [hr0] at hd
    simp only [spi_mem_read_process, spi_mem_chip_get_size, hd]
  · intro k fuel
    rw [← hr0]
    exact loop_iterate _ (read_pass_state overflow_env worker) k (fun i _ => hread i) fuel
  · intro k
    obtain ⟨_, c2, c3⟩ := read_clean_read_pass_trace overflow_env worker k
    exact ⟨rfl, events_read_pass_trace overflow_env worker k, c2, c3⟩
  · intro fuel
    have hd := loop_diverge _ (verify_state overflow_env worker) hverify fuel 0
    rw [hv0] at hd
    have hop : (spi_mem_file_open overflow_env World.init).1 = true := rfl
    simp only [spi_mem_verify_process, hop, Bool.not_true, Bool.false_eq_true, if_false, hd]
  · intro k fuel
    rw [← hv0]
    exact loop_iterate _ (verify_state overflow_env worker) k (fun i _ => hverify i) fuel
  · intro k
    refine ⟨rfl, events_verify_trace overflow_env worker k, ?_, ?_⟩
    · intro x hx
      have hx1 : x ∈ chip_reads (verify_trace overflow_env worker k) := hx
      rw [chip_reads_verify_trace] at hx1
      obtain ⟨i, _, rfl⟩ := List.mem_map.mp hx1
      simp
    · intro x hx
      have hx1 : x ∈ file_reads (verify_trace overflow_env worker k) := hx
      rw [file_reads_verify_trace] at hx1
      obtain ⟨i, _, rfl⟩ := List.mem_map.mp hx1
      simp

/-- C9: every pass of the read loop and of the verify loop starts with the delay and
exactly one stop check, before any other call of the pass, and a pass whose check
observes the stop request makes no further call and leaves the loop; in a run that
returns, an observed stop request is followed by nothing but the close of the artifact
and the terminal event (so by no chip read, file read, file write, `BlockReaded` or
failure event), and no earlier check observed a stop; a run in which some stop check
would observe a request returns. -/
theorem stop_checked_each_pass (env : Env) (worker : SPIMemWorker) :
    (∀ s : LoopState, ∃ rest,
      (spi_mem_read_process_body env worker env.chip_size s).out.world.trace
        = s.world.trace
          ++ [Act.delay_tick 10, Act.check_for_stop (env.stop s.world.n_stop)] ++ rest ∧
      (∀ c, Act.check_for_stop c ∉ rest) ∧
      (env.stop s.world.n_stop = true →
        rest = [] ∧ (spi_mem_read_process_body env worker env.chip_size s).leaves = true)) ∧
    (∀ s : LoopState, ∃ rest,
      (spi_mem_verify_process_body env worker (spi_mem_worker_modes_get_total_size env)
          s).out.world.trace
        = s.world.trace
          ++ [Act.delay_tick 10, Act.check_for_stop (env.stop s.world.n_stop)] ++ rest ∧
      (∀ c, Act.check_for_stop c ∉ rest) ∧
      (env.stop s.world.n_stop = true →
        rest = [] ∧ (spi_mem_verify_process_body env worker
          (spi_mem_worker_modes_get_total_size env) s).leaves = true)) ∧
    (∀ fuel w, spi_mem_read_process env worker fuel World.init = some w →
      Act.check_for_stop true ∈ w.trace →
      ∃ pre, w.trace = pre ++ [Act.check_for_stop true, Act.file_close]
          ++ emit_trace worker SPIMemCustomEventWorker.ReadDone ∧
        Act.check_for_stop true ∉ pre) ∧
    (∀ fuel w, env.open_ok 0 = true →
      spi_mem_verify_process env worker fuel World.init = some w →
      Act.check_for_stop true ∈ w.trace →
      ∃ pre, w.trace = pre ++ [Act.check_for_stop true, Act.file_close]
          ++ emit_trace worker SPIMemCustomEventWorker.VerifyDone ∧
        Act.check_for_stop true ∉ pre) ∧
    (∀ k, env.stop k = true →
      ∃ fuel w, spi_mem_read_process env worker fuel World.init = some w) ∧
    (∀ k, env.stop k = true →
      ∃ fuel w, spi_mem_verify_process env worker fuel World.init = some w) := by
  refine ⟨read_pass_shape env worker, verify_pass_shape env worker, ?_, ?_, ?_, ?_⟩
  · intro fuel w h hmem
    simp only [spi_mem_read_process, spi_mem_chip_get_size] at h
    cases hl : loop (spi_mem_read_process_body env worker env.chip_size) fuel
        { world := World.init, offset := 0, success := true } with
    | none => rw [hl] at h; cases h
    | some r =>
      rw [hl] at h
      rcases read_loop_stop_post env worker World.init (by simp [World.init]) fuel r hl with
        hno | ⟨hs, pre, hpre, hnot⟩
      · exfalso
        by_cases hs : r.success = true
        · simp only [hs, if_true, Option.some.injEq] at h
          subst h
          simp [run_worker_callback_eq, spi_mem_file_close, World.log, hno,
            check_not_mem_emit_trace] at hmem
        · simp only [hs, Bool.false_eq_true, if_false, Option.some.injEq] at h
          subst h
          simp [spi_mem_file_close, World.log, hno] at hmem
      · simp only [hs, if_true, Option.some.injEq] at h
        subst h
        exact ⟨pre, by simp [run_worker_callback_eq, spi_mem_file_close, World.log, hpre],
          hnot⟩
  · intro fuel w hopen h hmem
    have hop : spi_mem_file_open env World.init
        = (true, { World.init with trace := [Act.file_open true], n_open := 1 }) := by
      simp [spi_mem_file_open, World.init, hopen]
    simp only [spi_mem_verify_process, hop, Bool.not_true, Bool.false_eq_true, if_false] at h
    cases hl : loop (spi_mem_verify_process_body env worker
        (spi_mem_worker_modes_get_total_size env)) fuel
        { world := { World.init with trace := [Act.file_open true], n_open := 1 }, offset := 0,
          success := true } with
    | none => rw [hl] at h; cases h
    | some r =>
      rw [hl] at h
      rcases verify_loop_stop_post env worker _ (by simp) fuel r hl with
        hno | ⟨hs, pre, hpre, hnot⟩
      · exfalso
        by_cases hs : r.success = true
        · simp only [hs, if_true, Option.some.injEq] at h
          subst h
          simp [run_worker_callback_eq, spi_mem_file_close, World.log, hno,
            check_not_mem_emit_trace] at hmem
        · simp only [hs, Bool.false_eq_true, if_false, Option.some.injEq] at h
          subst h
          simp [spi_mem_file_close, World.log, hno] at hmem
      · simp only [hs, if_true, Option.some.injEq] at h
        subst h
        exact ⟨pre, by simp [run_worker_callback_eq, spi_mem_file_close, World.log, hpre],
          hnot⟩
  · intro k hk
    obtain ⟨r, hr⟩ := read_loop_stops env worker k hk World.init rfl
    refine ⟨k + 1, ?_⟩
    simp only [spi_mem_read_process, spi_mem_chip_get_size, hr]
    by_cases hs : r.success = true <;> simp [hs]
  · intro k hk
    obtain ⟨r, hr⟩ := verify_loop_stops env worker k hk
      (spi_mem_file_open env World.init).2 rfl
    refine ⟨k + 1, ?_⟩
    simp only [spi_mem_verify_process]
    by_cases hopen : env.open_ok 0 = true
    · have hop : (spi_mem_file_open env World.init).1 = true := by
        simp [spi_mem_file_open, World.init, hopen]
      simp only [hop, Bool.not_true, Bool.false_eq_true, if_false, hr]
      by_cases hs : r.success = true <;> simp [hs]
    · have hop : (spi_mem_file_open env World.init).1 = false := by
        simpa [spi_mem_file_open, World.init] using hopen
      simp only [hop, Bool.not_false, if_true]
      exact ⟨_, rfl⟩

/-- C10: in every erase run that returns, the calls made are those of a prefix of the
five ordered steps (await ready, write-enable on, erase chip, await ready, write-enable
off) ending at the first step that reports failure, followed by exactly one event, which
is `EraseDone` if all five steps reported success and `ChipReadFail` otherwise; if the
erase command fails the run consists of the first await, the write-enable, the failed
erase command and `ChipReadFail`, with no second await and no write-disable.  The calls of
each await step are those of the busy-wait helper on the answers of the environment: poll
rounds that observe no stop request and find the chip busy, then one round that
observes a stop request or a status other than `Busy`, the step reporting failure exactly
when that round observes no stop request and the status `Error`; the flags of the other
steps are the answers of the write-enable and erase calls, in call order.  The run
returns whenever the chip status never stays `Busy` forever. -/
theorem erase_steps_in_order (env : Env) (worker : SPIMemWorker) :
    (∀ fuel w, spi_mem_chip_erase_process env worker fuel World.init = some w →
      ∃ a1 r2 r3 a2 r5,
        (∀ x ∈ a1, is_poll x = true) ∧ (∀ x ∈ a2, is_poll x = true) ∧
        w.trace = (run_steps (erase_steps a1 r2 r3 a2 r5)).1
          ++ emit_trace worker (if (run_steps (erase_steps a1 r2 r3 a2 r5)).2
              then SPIMemCustomEventWorker.EraseDone
              else SPIMemCustomEventWorker.ChipReadFail) ∧
        events w.trace = [if await_reports a1 && r2 && r3 && await_reports a2 && r5
          then SPIMemCustomEventWorker.EraseDone
          else SPIMemCustomEventWorker.ChipReadFail] ∧
        (Act.erase_chip false ∈ w.trace →
          w.trace = a1 ++ [Act.set_write_enabled true true, Act.erase_chip false]
            ++ emit_trace worker SPIMemCustomEventWorker.ChipReadFail) ∧
        ∃ j1, wait_ends env 0 0 j1 ∧ a1 = wait_calls env 0 0 j1 ∧
          (await_reports a1 = false ↔ env.stop j1 = false
            ∧ env.status j1 = SPIMemChipStatus.Error) ∧
          (await_reports a1 = true → r2 = env.wen_ok 0 ∧
            (r2 = true → r3 = env.erase_ok 0 ∧
              (r3 = true →
                ∃ j2, wait_ends env (j1 + 1) (wait_status_count env 0 0 j1) j2 ∧
                  a2 = wait_calls env (j1 + 1) (wait_status_count env 0 0 j1) j2 ∧
                  (await_reports a2 = false ↔ env.stop (j1 + 1 + j2) = false
                    ∧ env.status (wait_status_count env 0 0 j1 + j2)
                      = SPIMemChipStatus.Error) ∧
                  (await_reports a2 = true → r5 = env.wen_ok 1))))) ∧
    ((∀ k, ∃ j, k ≤ j ∧ env.status j ≠ SPIMemChipStatus.Busy) →
      ∃ fuel w, spi_mem_chip_erase_process env worker fuel World.init = some w) := by
  refine ⟨?_, erase_returns env worker⟩
  intro fuel w h
  obtain ⟨a1, r2, r3, a2, r5, hp1, hp2, ht, hx⟩ := erase_shape_exact env worker fuel w h
  refine ⟨a1, r2, r3, a2, r5, hp1, hp2, ht, ?_, ?_, hx⟩
  · rw [ht, events_append, events_emit_trace, events_run_steps a1 r2 r3 a2 r5 hp1 hp2,
      run_steps_all]
    rfl
  · intro hmem
    rw [ht] at hmem
    rcases List.mem_append.mp hmem with h1 | h1
    · obtain ⟨e1, e2⟩ := run_steps_erase_failed a1 r2 r3 a2 r5 hp1 hp2 h1
      rw [ht, e1, e2]
      rfl
    · exact absurd h1 (erase_not_mem_emit_trace worker _ false)

/-- C11 (amended): in every returned run of the erase procedure the busy-wait
helper treats an observed stop request like a ready chip, not like a failure. If the stop
is observed in the wait of step 1, that wait reports success, the run goes on to the
write-enable call of step 2, and its single event is `EraseDone` exactly when steps 2 to 5
all report success (`ChipReadFail` otherwise). If the stop is observed in the wait of
step 4, steps 1 to 4 all reported success, the run goes on to the write-disable call of
step 5, and its single event is `EraseDone` exactly when that call succeeds. When stop
requests keep being observable, the run returns. -/
theorem erase_wait_cancelled (env : Env) (worker : SPIMemWorker) :
    (∀ fuel w, spi_mem_chip_erase_process env worker fuel World.init = some w →
      ∃ a1 r2 r3 a2 r5,
        (∀ x ∈ a1, is_poll x = true) ∧ (∀ x ∈ a2, is_poll x = true) ∧
        w.trace = (run_steps (erase_steps a1 r2 r3 a2 r5)).1
          ++ emit_trace worker (if (run_steps (erase_steps a1 r2 r3 a2 r5)).2
              then SPIMemCustomEventWorker.EraseDone
              else SPIMemCustomEventWorker.ChipReadFail) ∧
        (Act.check_for_stop true ∈ a1 →
          await_reports a1 = true ∧
          (∃ rest, w.trace = a1 ++ Act.set_write_enabled true r2 :: rest) ∧
          events w.trace = [if (r2 && r3 && await_reports a2 && r5) = true
            then SPIMemCustomEventWorker.EraseDone
            else SPIMemCustomEventWorker.ChipReadFail]) ∧
        (Act.check_for_stop true ∈ a2 →
          await_reports a2 = true ∧
          (∃ rest, w.trace = a1 ++ [Act.set_write_enabled true true, Act.erase_chip true]
            ++ a2 ++ Act.set_write_enabled false r5 :: rest) ∧
          events w.trace = [if r5 = true then SPIMemCustomEventWorker.EraseDone
            else SPIMemCustomEventWorker.ChipReadFail])) ∧
    ((∀ k, ∃ j, k ≤ j ∧ env.stop j = true) →
      ∃ fuel w, spi_mem_chip_erase_process env worker fuel World.init = some w) := by
  constructor
  · intro fuel w h
    obtain ⟨a1, r2, r3, a2, r5, hp1, hp2, ht, hc1, hc2⟩ :=
      erase_shape_cancel env worker fuel w h
    have hev : events w.trace = [if (await_reports a1 && r2 && r3 && await_reports a2 && r5)
        = true then SPIMemCustomEventWorker.EraseDone
        else SPIMemCustomEventWorker.ChipReadFail] := by
      rw [ht, events_append, events_run_steps a1 r2 r3 a2 r5 hp1 hp2, events_emit_trace,
        run_steps_all]
      rfl
    refine ⟨a1, r2, r3, a2, r5, hp1, hp2, ht, ?_, ?_⟩
    · intro hm
      have h1 := hc1 hm
      refine ⟨h1, ?_, ?_⟩
      · rw [ht]
        cases r2 <;> cases r3 <;> cases hr4 : await_reports a2 <;> cases r5 <;>
          simp [run_steps, erase_steps, h1, hr4]
      · rw [hev, h1]
        simp
    · intro hm
      obtain ⟨h1, h2, h3, h4⟩ := hc2 hm
      subst h2
      subst h3
      refine ⟨h4, ?_, ?_⟩
      · rw [ht]
        cases r5 <;> simp [run_steps, erase_steps, h1, h4]
      · rw [hev, h1, h4]
        simp
  · intro hstop
    refine erase_returns_of_await env worker (fun w => ?_)
    obtain ⟨j, hj, hs⟩ := hstop w.n_stop
    obtain ⟨r, hr⟩ := await_terminates_stop env w j hj hs
    exact ⟨_, r, hr⟩

/-- C12: started in any world, if the first `j` poll rounds observe no stop request and
find the chip busy and round `j` does not, the busy-wait helper returns after round `j`
(any fuel above `j` suffices); its calls are `j` rounds of delay, stop check and status
query followed by round `j`, in which the stop flag is checked first and the status is
queried only if no stop is observed; it returns `false` if and only if round `j` observes
no stop request and finds the status `Error`, and `true` otherwise. -/
theorem await_poll_rounds (env : Env) (w : World) (j : Nat)
    (hbusy : ∀ i, i < j → env.stop (w.n_stop + i) = false
      ∧ env.status (w.n_status + i) = SPIMemChipStatus.Busy)
    (hend : env.stop (w.n_stop + j) = true
      ∨ env.status (w.n_status + j) ≠ SPIMemChipStatus.Busy) :
    ∃ r w1,
      (∀ fuel, j < fuel → spi_mem_worker_await_chip_busy env fuel w = some (r, w1)) ∧
      w1.trace = w.trace ++ (List.replicate j busy_round).flatten
        ++ poll_round (env.stop (w.n_stop + j)) (env.status (w.n_status + j)) ∧
      (r = false ↔ env.stop (w.n_stop + j) = false
        ∧ env.status (w.n_status + j) = SPIMemChipStatus.Error) ∧
      (r = true ↔ env.stop (w.n_stop + j) = true
        ∨ env.status (w.n_status + j) = SPIMemChipStatus.Ready) ∧
      (env.stop (w.n_stop + j) = true → w1.n_status = w.n_status + j) := by
  refine ⟨_, _, fun fuel hf => await_run env w j hbusy hend fuel hf, rfl, ?_, ?_, ?_⟩
  · cases env.stop (w.n_stop + j) <;> simp
  · cases hs : env.stop (w.n_stop + j)
    · rw [hs] at hend
      cases hst : env.status (w.n_status + j) <;> simp [hst] at hend ⊢
    · simp
  · intro h; simp [h]

/-- C13: if the first `j` identification attempts fail and the stop check after each of
them observes no stop request, the chip-detect run makes attempt `j`; if that attempt
succeeds the run returns with no further attempt and exactly one event, `ChipIdentified`
when the chip information is complete at that moment and `ChipUnknown` otherwise; if it
fails and the stop check after it observes a stop request, the run returns with no
further attempt and no event. Every run that returns is of one of these two kinds. -/
theorem chip_detect_retries (env : Env) (worker : SPIMemWorker) (j : Nat)
    (hretry : ∀ i, i < j → env.info_ok i = false ∧ env.stop i = false) :
    (env.info_ok j = true →
      ∃ w : World,
        (∀ fuel, j < fuel →
          spi_mem_chip_detect_process env worker fuel World.init = some w) ∧
        w.trace = (List.replicate j retry_round).flatten
          ++ [Act.read_chip_info true, Act.complete_info (env.complete 0)]
          ++ emit_trace worker (if env.complete 0 then SPIMemCustomEventWorker.ChipIdentified
              else SPIMemCustomEventWorker.ChipUnknown) ∧
        events w.trace = [if env.complete 0 then SPIMemCustomEventWorker.ChipIdentified
          else SPIMemCustomEventWorker.ChipUnknown]) ∧
    (env.info_ok j = false → env.stop j = true →
      ∃ w : World,
        (∀ fuel, j < fuel →
          spi_mem_chip_detect_process env worker fuel World.init = some w) ∧
        w.trace = (List.replicate j retry_round).flatten
          ++ [Act.read_chip_info false, Act.check_for_stop true] ∧
        events w.trace = []) ∧
    (∀ fuel w, spi_mem_chip_detect_process env worker fuel World.init = some w →
      ∃ k, (∀ i, i < k → env.info_ok i = false ∧ env.stop i = false) ∧
        (env.info_ok k = true ∨ (env.info_ok k = false ∧ env.stop k = true))) := by
  have hretry0 : ∀ i, i < j → env.info_ok (World.init.n_info + i) = false
      ∧ env.stop (World.init.n_stop + i) = false := by
    intro i hi
    simpa [World.init] using hretry i hi
  have hev : events (List.replicate j retry_round).flatten = [] := by
    induction j with
    | zero => rfl
    | succ k ih =>
      rw [List.replicate_succ', List.flatten_append, events_append,
        ih (fun i hi => hretry i (by omega)) (fun i hi => hretry0 i (by omega))]
      rfl
  refine ⟨?_, ?_, ?_⟩
  · intro hinfo
    have hlast := detect_step_found env World.init j (by simpa [World.init] using hinfo)
    refine ⟨{ World.init with
        trace := (List.replicate j retry_round).flatten
          ++ [Act.read_chip_info true, Act.complete_info (env.complete 0)]
          ++ emit_trace worker (if env.complete 0 then SPIMemCustomEventWorker.ChipIdentified
              else SPIMemCustomEventWorker.ChipUnknown),
        n_info := j + 1, n_stop := j, n_complete := 1 }, fun fuel hf => ?_, rfl, ?_⟩
    · simp only [spi_mem_chip_detect_process,
        detect_loop_run env World.init j _ hretry0 hlast fuel hf, spi_mem_chip_complete_info,
        run_worker_callback_eq]
      simp [World.init]
    · simp only [events_append, events_emit_trace, hev, events_cons, events_nil]
      simp
  · intro hinfo hstop
    have hlast := detect_step_stop env World.init j (by simpa [World.init] using hinfo)
      (by simpa [World.init] using hstop)
    refine ⟨{ World.init with
        trace := (List.replicate j retry_round).flatten
          ++ [Act.read_chip_info false, Act.check_for_stop true],
        n_info := j + 1, n_stop := j + 1 }, fun fuel hf => ?_, rfl, ?_⟩
    · simp only [spi_mem_chip_detect_process,
        detect_loop_run env World.init j _ hretry0 hlast fuel hf]
      simp [World.init]
    · simp only [events_append, hev, events_cons, events_nil]
      simp
  · intro fuel w h
    simp only [spi_mem_chip_detect_process] at h
    cases hl : loop (spi_mem_chip_detect_process_body env) fuel World.init with
    | none => rw [hl] at h; cases h
    | some r =>
      obtain ⟨k, hk, hk1⟩ := detect_run_index env fuel r hl
      exact ⟨k, hk, hk1.elim (fun x => Or.inl x.2) (fun x => Or.inr x.2)⟩

/-- C14: a verify run in which opening the file fails returns at once, whatever the
fuel: its only call is the failed open, so it emits no event, reads no block from the chip
or the file, does not close the file and checks for no stop request. -/
theorem verify_open_failure_silent (env : Env) (worker : SPIMemWorker) (fuel : Nat)
    (w : World) (hopen : env.open_ok w.n_open = false) :
    ∃ w1, spi_mem_verify_process env worker fuel w = some w1 ∧
      w1.trace = w.trace ++ [Act.file_open false] ∧
      events w1.trace = events w.trace ∧
      chip_reads w1.trace = chip_reads w.trace ∧
      file_reads w1.trace = file_reads w.trace ∧
      closes w1.trace = closes w.trace ∧
      w1.n_chip = w.n_chip ∧ w1.n_fread = w.n_fread ∧ w1.n_stop = w.n_stop := by
  refine ⟨_, verify_open_failed env worker fuel w hopen, rfl, ?_, ?_, ?_, ?_, rfl, rfl, rfl⟩
  · simp [events_append, events_cons, events_nil]
  · simp [chip_reads_append, chip_reads_cons, chip_reads_nil]
  · simp [file_reads_append, file_reads]
  · simp [closes_append, closes]

/-- C15: every read run that returns, and every verify run that returns after a
successful open, calls `spi_mem_file_close` exactly once, whatever ended the loop: the
trace is a part without any close, then the close, then either nothing or the calls of
the `ReadDone` (`VerifyDone`) event; all chip and file transfers lie before the close and
the done event is not emitted before it. With a positive buffer size and the total size
plus the buffer size in the `size_t` range, every such run returns. -/
theorem close_called_once (env : Env) (worker : SPIMemWorker) :
    (∀ fuel w, spi_mem_read_process env worker fuel World.init = some w →
      ∃ pre post, w.trace = pre ++ [Act.file_close] ++ post ∧
        Act.file_close ∉ pre ∧
        (post = [] ∨ post = emit_trace worker SPIMemCustomEventWorker.ReadDone) ∧
        (∀ x ∈ post, is_transfer x = false) ∧
        SPIMemCustomEventWorker.ReadDone ∉ events pre ∧
        closes w.trace = 1) ∧
    (∀ fuel w, env.open_ok 0 = true →
      spi_mem_verify_process env worker fuel World.init = some w →
      ∃ pre post, w.trace = pre ++ [Act.file_close] ++ post ∧
        Act.file_close ∉ pre ∧
        (post = [] ∨ post = emit_trace worker SPIMemCustomEventWorker.VerifyDone) ∧
        (∀ x ∈ post, is_transfer x = false) ∧
        SPIMemCustomEventWorker.VerifyDone ∉ events pre ∧
        closes w.trace = 1) ∧
    (0 < env.SPI_MEM_FILE_BUFFER_SIZE →
      env.chip_size + env.SPI_MEM_FILE_BUFFER_SIZE < env.size_mod →
      ∃ fuel w, spi_mem_read_process env worker fuel World.init = some w) ∧
    (0 < env.SPI_MEM_FILE_BUFFER_SIZE →
      spi_mem_worker_modes_get_total_size env + env.SPI_MEM_FILE_BUFFER_SIZE < env.size_mod →
      ∃ fuel w, spi_mem_verify_process env worker fuel World.init = some w) := by
  have hcount : ∀ (pre post : List Act), Act.file_close ∉ pre → Act.file_close ∉ post →
      closes (pre ++ [Act.file_close] ++ post) = 1 := by
    intro pre post h1 h2
    simp [closes, List.count_eq_zero_of_not_mem h1, List.count_eq_zero_of_not_mem h2]
  refine ⟨?_, ?_, ?_, ?_⟩
  · intro fuel w h
    obtain ⟨a, k, hc, hr⟩ := read_process_shape env worker fuel w h
    rcases hr with ⟨ht, he⟩ | ⟨ht, e, hee, he⟩
    · refine ⟨a, emit_trace worker SPIMemCustomEventWorker.ReadDone, ht, hc, Or.inr rfl,
        transfer_not_mem_emit_trace worker _, ?_, ?_⟩
      · rw [he]
        intro hm
        cases List.eq_of_mem_replicate hm
      · rw [ht]
        exact hcount _ _ hc (close_not_mem_emit_trace worker _)
    · refine ⟨a, [], by simpa using ht, hc, Or.inl rfl, by simp, ?_, ?_⟩
      · rw [he]
        intro hm
        rcases List.mem_append.mp hm with h1 | h1
        · cases List.eq_of_mem_replicate h1
        · rcases hee with h2 | h2 <;> subst h2 <;> simp at h1
      · rw [ht]
        simpa using hcount a [] hc (by simp)
  · intro fuel w hopen h
    obtain ⟨a, k, hc, hr⟩ := verify_process_shape env worker fuel w hopen h
    have hc1 : Act.file_close ∉ Act.file_open true :: a := by simp [hc]
    have hev : events (Act.file_open true :: a) = events a := by
      simp [events_cons]
    rcases hr with ⟨ht, he⟩ | ⟨ht, e, hee, he⟩
    · refine ⟨Act.file_open true :: a, emit_trace worker SPIMemCustomEventWorker.VerifyDone,
        ht, hc1, Or.inr rfl, transfer_not_mem_emit_trace worker _, ?_, ?_⟩
      · rw [hev, he]
        intro hm
        cases List.eq_of_mem_replicate hm
      · rw [ht]
        exact hcount _ _ hc1 (close_not_mem_emit_trace worker _)
    · refine ⟨Act.file_open true :: a, [], by simpa using ht, hc1, Or.inl rfl, by simp,
        ?_, ?_⟩
      · rw [hev, he]
        intro hm
        rcases List.mem_append.mp hm with h1 | h1
        · cases List.eq_of_mem_replicate h1
        · rcases hee with h2 | h2 | h2 <;> subst h2 <;> simp at h1
      · rw [ht]
        simpa using hcount (Act.file_open true :: a) [] hc1 (by simp)
  · intro hC hrange
    obtain ⟨r, hr⟩ := read_loop_terminates env worker hC hrange World.init
    refine ⟨env.chip_size + 1, ?_⟩
    simp only [spi_mem_read_process, spi_mem_chip_get_size, hr]
    cases r.success <;> simp
  · intro hC hrange
    cases hopen : env.open_ok 0 with
    | false =>
      exact ⟨0, _, verify_open_failed env worker 0 World.init hopen⟩
    | true =>
      obtain ⟨r, hr⟩ := verify_loop_terminates env worker hC hrange
        (spi_mem_file_open env World.init).2
      refine ⟨spi_mem_worker_modes_get_total_size env + 1, ?_⟩
      have hop : (spi_mem_file_open env World.init).1 = true := by
        simp [spi_mem_file_open, World.init, hopen]
      simp only [spi_mem_verify_process, hop, Bool.not_true, Bool.false_eq_true, if_false, hr]
      cases r.success <;> simp

/-- C16 (amended): the event trace of every returned run, cancelled or not. A read
run emits zero or more `BlockReaded` events followed by exactly one of `ReadDone`,
`ChipReadFail`, `WriteFileFail`; a verify run whose open succeeded emits zero or more
`BlockReaded` events followed by exactly one of `VerifyDone`, `ChipReadFail`,
`ReadFileFail`, `VerifyFail`; a verify run whose open failed emits no event; an erase run
emits exactly one event, `EraseDone` or `ChipReadFail`; a chip-detect run emits exactly
one event, `ChipIdentified` or `ChipUnknown`, and observes no stop request, or it ends
with the stop check that observed a stop request and emits no event. The runs return
under the stated conditions on sizes, chip status and identification. -/
theorem event_trace_shape (env : Env) (worker : SPIMemWorker) :
    (∀ fuel w, spi_mem_read_process env worker fuel World.init = some w →
      ∃ k t, events w.trace = List.replicate k SPIMemCustomEventWorker.BlockReaded ++ [t] ∧
        (t = SPIMemCustomEventWorker.ReadDone ∨ t = SPIMemCustomEventWorker.ChipReadFail
          ∨ t = SPIMemCustomEventWorker.WriteFileFail)) ∧
    (∀ fuel w, env.open_ok 0 = true →
      spi_mem_verify_process env worker fuel World.init = some w →
      ∃ k t, events w.trace = List.replicate k SPIMemCustomEventWorker.BlockReaded ++ [t] ∧
        (t = SPIMemCustomEventWorker.VerifyDone ∨ t = SPIMemCustomEventWorker.ChipReadFail
          ∨ t = SPIMemCustomEventWorker.ReadFileFail
          ∨ t = SPIMemCustomEventWorker.VerifyFail)) ∧
    (∀ fuel w, env.open_ok 0 = false →
      spi_mem_verify_process env worker fuel World.init = some w →
      events w.trace = [] ∧ Act.check_for_stop true ∉ w.trace) ∧
    (∀ fuel w, spi_mem_chip_erase_process env worker fuel World.init = some w →
      events w.trace = [SPIMemCustomEventWorker.EraseDone]
        ∨ events w.trace = [SPIMemCustomEventWorker.ChipReadFail]) ∧
    (∀ fuel w, spi_mem_chip_detect_process env worker fuel World.init = some w →
      ((events w.trace = [SPIMemCustomEventWorker.ChipIdentified]
          ∨ events w.trace = [SPIMemCustomEventWorker.ChipUnknown])
        ∧ Act.check_for_stop true ∉ w.trace)
      ∨ (events w.trace = [] ∧ ∃ pre, w.trace = pre ++ [Act.check_for_stop true])) ∧
    (0 < env.SPI_MEM_FILE_BUFFER_SIZE →
      env.chip_size + env.SPI_MEM_FILE_BUFFER_SIZE < env.size_mod →
      ∃ fuel w, spi_mem_read_process env worker fuel World.init = some w) ∧
    (0 < env.SPI_MEM_FILE_BUFFER_SIZE →
      spi_mem_worker_modes_get_total_size env + env.SPI_MEM_FILE_BUFFER_SIZE < env.size_mod →
      ∃ fuel w, spi_mem_verify_process env worker fuel World.init = some w) ∧
    ((∀ k, ∃ j, k ≤ j ∧ env.status j ≠ SPIMemChipStatus.Busy) →
      ∃ fuel w, spi_mem_chip_erase_process env worker fuel World.init = some w) ∧
    ((∃ j, env.info_ok j = true ∨ env.stop j = true) →
      ∃ fuel w, spi_mem_chip_detect_process env worker fuel World.init = some w) := by
  refine ⟨?_, ?_, ?_, ?_, ?_, ?_, ?_, erase_returns env worker, ?_⟩
  · intro fuel w h
    obtain ⟨a, k, _, hr⟩ := read_process_shape env worker fuel w h
    rcases hr with ⟨ht, he⟩ | ⟨ht, e, hee, he⟩
    · exact ⟨k, _, by
        rw [ht]
        simp only [events_append, events_emit_trace, events_cons, events_nil, he]
        simp, Or.inl rfl⟩
    · exact ⟨k, e, by
        rw [ht]
        simp only [events_append, events_cons, events_nil, he]
        simp, Or.inr hee⟩
  · intro fuel w hopen h
    obtain ⟨a, k, _, hr⟩ := verify_process_shape env worker fuel w hopen h
    rcases hr with ⟨ht, he⟩ | ⟨ht, e, hee, he⟩
    · exact ⟨k, _, by
        rw [ht]
        simp only [List.cons_append, events_append, events_emit_trace, events_cons,
          events_nil, he]
        simp, Or.inl rfl⟩
    · exact ⟨k, e, by
        rw [ht]
        simp only [List.cons_append, events_append, events_cons, events_nil, he]
        simp, Or.inr hee⟩
  · intro fuel w hopen h
    rw [verify_open_failed env worker fuel World.init hopen] at h
    injection h with h
    subst h
    exact ⟨rfl, by simp [World.init]⟩
  · intro fuel w h
    obtain ⟨a1, r2, r3, a2, r5, hp1, hp2, ht⟩ := erase_trace_shape env worker fuel w h
    rw [ht, events_append, events_emit_trace, events_run_steps a1 r2 r3 a2 r5 hp1 hp2]
    cases (run_steps (erase_steps a1 r2 r3 a2 r5)).2
    · exact Or.inr rfl
    · exact Or.inl rfl
  · intro fuel w h
    simp only [spi_mem_chip_detect_process] at h
    cases hl : loop (spi_mem_chip_detect_process_body env) fuel World.init with
    | none => rw [hl] at h; cases h
    | some r =>
      rw [hl] at h
      obtain ⟨he, hc1, hc2⟩ := detect_loop_events env fuel r hl
      obtain ⟨b, w1⟩ := r
      simp only at he hc1 hc2
      cases b with
      | false =>
        simp only [Option.some.injEq] at h
        subst h
        exact Or.inr ⟨he, hc2 rfl⟩
      | true =>
        simp only [spi_mem_chip_complete_info, run_worker_callback_eq,
          Option.some.injEq] at h
        subst h
        left
        refine ⟨?_, ?_⟩
        · simp only [events_append, events_emit_trace, events_cons, events_nil, he]
          by_cases hcmp : env.complete w1.n_complete = true <;> simp [hcmp]
        · simp [hc1 rfl, check_not_mem_emit_trace]
  · intro hC hrange
    obtain ⟨r, hr⟩ := read_loop_terminates env worker hC hrange World.init
    refine ⟨env.chip_size + 1, ?_⟩
    simp only [spi_mem_read_process, spi_mem_chip_get_size, hr]
    cases r.success <;> simp
  · intro hC hrange
    cases hopen : env.open_ok 0 with
    | false =>
      exact ⟨0, _, verify_open_failed env worker 0 World.init hopen⟩
    | true =>
      obtain ⟨r, hr⟩ := verify_loop_terminates env worker hC hrange
        (spi_mem_file_open env World.init).2
      refine ⟨spi_mem_worker_modes_get_total_size env + 1, ?_⟩
      have hop : (spi_mem_file_open env World.init).1 = true := by
        simp [spi_mem_file_open, World.init, hopen]
      simp only [spi_mem_verify_process, hop, Bool.not_true, Bool.false_eq_true, if_false, hr]
      cases r.success <;> simp
  · intro ⟨j, hj⟩
    obtain ⟨r, hr⟩ := detect_loop_terminates env j hj
    obtain ⟨b, w1⟩ := r
    refine ⟨j + 1, ?_⟩
    simp only [spi_mem_chip_detect_process, hr]
    cases b
    · exact ⟨_, rfl⟩
    · exact ⟨_, rfl⟩

/-- C17: the dispatch table has one entry for each of the five modes: `Idle` holds no
procedure, `ChipDetect`, `Read`, `Verify` and `ChipErase` hold the chip-detect, read,
verify and erase procedure respectively; no mode other than `Idle` holds no procedure, and
no two modes hold the same entry. -/
theorem worker_modes_table :
    (spi_mem_worker_modes SPIMemWorkerMode.Idle).process = none ∧
    (spi_mem_worker_modes SPIMemWorkerMode.ChipDetect).process
      = some ModeProcess.chip_detect ∧
    (spi_mem_worker_modes SPIMemWorkerMode.Read).process = some ModeProcess.read ∧
    (spi_mem_worker_modes SPIMemWorkerMode.Verify).process = some ModeProcess.verify ∧
    (spi_mem_worker_modes SPIMemWorkerMode.ChipErase).process
      = some ModeProcess.chip_erase ∧
    (∀ env, ModeProcess.run env ModeProcess.chip_detect = spi_mem_chip_detect_process env ∧
      ModeProcess.run env ModeProcess.read = spi_mem_read_process env ∧
      ModeProcess.run env ModeProcess.verify = spi_mem_verify_process env ∧
      ModeProcess.run env ModeProcess.chip_erase = spi_mem_chip_erase_process env) ∧
    (∀ m, (spi_mem_worker_modes m).process = none ↔ m = SPIMemWorkerMode.Idle) ∧
    (∀ m1 m2, (spi_mem_worker_modes m1).process = (spi_mem_worker_modes m2).process →
      m1 = m2) := by
  refine ⟨rfl, rfl, rfl, rfl, rfl, fun _ => ⟨rfl, rfl, rfl, rfl⟩, ?_, ?_⟩
  · intro m
    cases m <;> simp [spi_mem_worker_modes]
  · intro m1 m2 h
    cases m1 <;> cases m2 <;> simp [spi_mem_worker_modes] at h ⊢

/-- C18: the event bridge `spi_mem_run_worker_callback` invokes a registered callback
exactly once, with the stored context and the given event, and invokes nothing when no
callback is registered; in both cases it changes no counter and no file position. For the
same environment and starting world, each of the four mode procedures run with any two
workers returns with the same fuel and makes the same calls in the same order apart from
the callback invocations, so the chip reads, file writes, file reads, events and closes
are the same whether or not a callback is registered. -/
theorem callback_bridge (env : Env) (wk1 wk2 : SPIMemWorker) :
    (∀ (worker : SPIMemWorker) (e : SPIMemCustomEventWorker) (w : World) (fn : Nat),
      worker.callback = some fn →
      spi_mem_run_worker_callback worker e w
        = { w with trace := w.trace ++ [Act.emit e, Act.callback fn worker.cb_ctx e] }) ∧
    (∀ (worker : SPIMemWorker) (e : SPIMemCustomEventWorker) (w : World),
      worker.callback = none →
      spi_mem_run_worker_callback worker e w = { w with trace := w.trace ++ [Act.emit e] }) ∧
    (∀ (worker : SPIMemWorker) (e : SPIMemCustomEventWorker) (w : World),
      callbacks (spi_mem_run_worker_callback worker e w).trace
        = callbacks w.trace ++ (match worker.callback with
          | some fn => [(fn, worker.cb_ctx, e)]
          | none => [])) ∧
    (∀ fuel w, (spi_mem_chip_detect_process env wk1 fuel w).map World.hide
      = (spi_mem_chip_detect_process env wk2 fuel w).map World.hide) ∧
    (∀ fuel w, (spi_mem_read_process env wk1 fuel w).map World.hide
      = (spi_mem_read_process env wk2 fuel w).map World.hide) ∧
    (∀ fuel w, (spi_mem_verify_process env wk1 fuel w).map World.hide
      = (spi_mem_verify_process env wk2 fuel w).map World.hide) ∧
    (∀ fuel w, (spi_mem_chip_erase_process env wk1 fuel w).map World.hide
      = (spi_mem_chip_erase_process env wk2 fuel w).map World.hide) ∧
    (∀ tr, chip_reads (ops tr) = chip_reads tr ∧ file_writes (ops tr) = file_writes tr ∧
      file_reads (ops tr) = file_reads tr ∧ events (ops tr) = events tr ∧
      closes (ops tr) = closes tr ∧ callbacks (ops tr) = []) := by
  refine ⟨?_, ?_, ?_, ?_, ?_, ?_, ?_, projections_ops⟩
  · intro worker e w fn h
    simp [spi_mem_run_worker_callback, World.log, h]
  · intro worker e w h
    simp [spi_mem_run_worker_callback, World.log, h]
  · intro worker e w
    cases h : worker.callback <;>
      simp [spi_mem_run_worker_callback, World.log, h, callbacks]
  · intro fuel w
    rw [← detect_process_ops env wk1, ← detect_process_ops env wk2]
  · intro fuel w
    rw [← read_process_ops env wk1, ← read_process_ops env wk2]
  · intro fuel w
    rw [← verify_process_ops env wk1, ← verify_process_ops env wk2]
  · intro fuel w
    rw [← erase_process_ops env wk1, ← erase_process_ops env wk2]

/-- C19 (failing input): on a 32-bit `size_t` with a 4096-byte buffer, reading a chip
of `2 ^ 32 - 1` bytes with no stop and no I/O failure never leaves the loop, for any
amount of fuel. After 1048575 full chunks the offset is 4294963200, the sum
`offset + block_size` wraps to 0, the chunk is not clamped, the chip read issued asks for
4096 bytes and so extends one byte past the chip size, and `offset` itself wraps to 0:
the run is back at offset 0 after 1048576 passes. The verify loop computes the same
offsets and the same unclamped length. -/
theorem read_overflow_never_returns (worker : SPIMemWorker) :
    (∀ fuel, spi_mem_read_process overflow_env worker fuel World.init = none) ∧
    (∀ fuel, loop (spi_mem_read_process_body overflow_env worker overflow_env.chip_size)
        (fuel + 1048576) { world := World.init, offset := 0, success := true }
      = loop (spi_mem_read_process_body overflow_env worker overflow_env.chip_size) fuel
          (read_pass_state overflow_env worker 1048576)) ∧
    (∃ pre data, (read_pass_state overflow_env worker 1048576).world.trace
      = pre ++ [Act.delay_tick 10, Act.check_for_stop false,
          Act.read_block_data 4294963200 4096 (some data), Act.file_write_block data true]
        ++ emit_trace worker SPIMemCustomEventWorker.BlockReaded) ∧
    overflow_env.chip_size < 4294963200 + 4096 ∧
    (read_pass_state overflow_env worker 1048576).offset = 0 ∧
    verify_offset overflow_env 1048575 = 4294963200 ∧
    verify_len overflow_env (verify_offset overflow_env 1048575) = 4096 ∧
    verify_offset overflow_env 1048576 = 0 := by
  have hsteps : ∀ i, spi_mem_read_process_body overflow_env worker overflow_env.chip_size
      (read_pass_state overflow_env worker i)
      = Step.cont (read_pass_state overflow_env worker (i + 1)) := by
    intro i
    have h1 := (overflow_env_read_offsets i).1
    have hS : overflow_env.chip_size = 4294967295 := rfl
    exact read_pass_step overflow_env worker i (by rw [h1, hS]; omega) rfl rfl rfl
  have h0 : read_pass_state overflow_env worker 0
      = { world := World.init, offset := 0, success := true } := rfl
  have ho : read_offset overflow_env 1048575 = 4294963200 := by
    rw [(overflow_env_read_offsets 1048575).1]
  have hl : read_len overflow_env (read_offset overflow_env 1048575) = 4096 :=
    (overflow_env_read_offsets 1048575).2
  refine ⟨?_, ?_, ?_, by decide, ?_, ?_, ?_, ?_⟩
  · intro fuel
    have hd := loop_diverge _ (read_pass_state overflow_env worker) hsteps fuel 0
    rw [h0] at hd
    simp only [spi_mem_read_process, spi_mem_chip_get_size, hd]
  · intro fuel
    rw [← h0]
    exact loop_iterate _ (read_pass_state overflow_env worker) 1048576
      (fun i _ => hsteps i) fuel
  · refine ⟨read_pass_trace overflow_env worker 1048575,
      block (overflow_env.chip_data 1048575) 4294963200 4096, ?_⟩
    have e1 : (read_pass_state overflow_env worker 1048576).world.trace
        = read_pass_trace overflow_env worker (1048575 + 1) := rfl
    rw [ho] at hl
    rw [e1, read_pass_trace_succ, read_calls, ho, hl, List.append_assoc]
  · show read_offset overflow_env 1048576 = 0
    rw [(overflow_env_read_offsets 1048576).1]
  · rw [overflow_env_verify_offsets]
  · exact (overflow_env_offsets 1048575).2.2
  · rw [overflow_env_verify_offsets]

/-! ## Witnesses and counterexamples -/

/-- C1 (witness): the 10-byte demo chip read through a 4-byte buffer, in 3 chunks. -/
theorem read_writes_are_chip_reads_witness :
    ∃ w : World,
      (∀ fuel, 3 < fuel →
        spi_mem_read_process demo_env demo_worker fuel World.init = some w) ∧
      (chip_reads w.trace).length = 3 ∧
      (∀ k, k < (chip_reads w.trace).length →
        ((chip_reads w.trace).map (fun r => r.1))[k]? = some (k * 4)) ∧
      (file_writes w.trace).map (fun p => some p.1)
        = (chip_reads w.trace).map (fun r => r.2.2) ∧
      (file_writes w.trace).map (fun p => p.1.length)
        = (chip_reads w.trace).map (fun r => r.2.1) ∧
      ((file_writes w.trace).map (fun p => p.1)).flatten
        = (List.range 10).map (fun a => a % 256) :=
  read_writes_are_chip_reads demo_env demo_worker (by decide) (by decide) (fun _ _ => rfl)
    (fun _ _ => rfl) (fun _ _ => rfl)

/-- C2 (witness): the 10-byte demo chip read through a 4-byte buffer: chunks of 4, 4 and
2 bytes. -/
theorem read_chunk_sizes_witness :
    ∃ w : World,
      (∀ fuel, 3 < fuel →
        spi_mem_read_process demo_env demo_worker fuel World.init = some w) ∧
      ((file_writes w.trace).map (fun p => p.1.length)).sum = 10 ∧
      (∀ x ∈ (file_writes w.trace).map (fun p => p.1.length), x ≤ 4) ∧
      ((file_writes w.trace).map (fun p => p.1.length)).length = 3 ∧
      (∀ k, k + 1 < 3 → ((file_writes w.trace).map (fun p => p.1.length))[k]? = some 4) ∧
      (0 < 3 → ((file_writes w.trace).map (fun p => p.1.length))[3 - 1]? = some (10 - 4 * (3 - 1))) ∧
      events w.trace
        = List.replicate 3 SPIMemCustomEventWorker.BlockReaded
          ++ [SPIMemCustomEventWorker.ReadDone] :=
  read_chunk_sizes demo_env demo_worker (by decide) (by decide) (fun _ _ => rfl)
    (fun _ _ => rfl) (fun _ _ => rfl)

/-- C3 (witness): chip and file of 8 bytes that differ in byte 0, with a 4-byte buffer. -/
theorem verify_compares_first_min_witness :
    ∃ w : World,
      (∀ fuel, 2 < fuel →
        spi_mem_verify_process mismatch_env demo_worker fuel World.init = some w) ∧
      spi_mem_worker_modes_get_total_size mismatch_env = 8 ∧
      (∀ r ∈ chip_reads w.trace, r.1 + r.2.1 ≤ 8) ∧
      ((file_reads w.trace).map (fun r => r.1)).sum ≤ 8 ∧
      (SPIMemCustomEventWorker.VerifyDone ∈ events w.trace
        ↔ ∀ a, a < 8 → 0 = if a = 0 then 1 else 0) ∧
      ((∀ a, a < 8 → 0 = if a = 0 then 1 else 0) →
        ((chip_reads w.trace).map (fun r => r.2.1)).sum = 8 ∧
        ((file_reads w.trace).map (fun r => r.1)).sum = 8) ∧
      (mismatch_env.file_size = 0 →
        chip_reads w.trace = [] ∧ events w.trace = [SPIMemCustomEventWorker.VerifyDone]) :=
  verify_compares_first_min mismatch_env demo_worker (fun _ => 0)
    (fun a => if a = 0 then 1 else 0) (by decide) (by decide) rfl (fun _ _ => rfl)
    (fun _ _ => rfl) (fun _ _ => rfl) (fun _ _ => rfl) (fun _ _ => rfl)

/-- C5 (witness): chip and file of 10 bytes that differ in byte 5, with a 4-byte buffer:
one `BlockReaded`, then `VerifyFail` in chunk 1. -/
theorem verify_single_difference_witness :
    ∃ w : World,
      (∀ fuel, 1 < fuel →
        spi_mem_verify_process diff5_env demo_worker fuel World.init = some w) ∧
      events w.trace
        = List.replicate 1 SPIMemCustomEventWorker.BlockReaded
          ++ [SPIMemCustomEventWorker.VerifyFail] ∧
      (chip_reads w.trace).length = 1 + 1 ∧
      (file_reads w.trace).length = 1 + 1 ∧
      (∀ r ∈ chip_reads w.trace, r.1 ≤ 5) ∧
      SPIMemCustomEventWorker.VerifyDone ∉ events w.trace :=
  verify_single_difference diff5_env demo_worker (fun _ => 0)
    (fun a => if a = 5 then 1 else 0) 5 (by decide) (by decide) (by decide) rfl
    (fun _ _ => rfl) (fun _ _ => rfl) (fun _ _ => rfl) (fun _ _ => rfl) (fun _ _ => rfl)
    (by decide)
    (fun a _ ha => by simp [ha])

/-- C3 (counterexample): chip and artifact of 8 bytes that differ in byte 0, read through
a 4-byte buffer with no stop and no I/O failure: the verify run compares one chunk of 4
bytes only, so the compared chunk sizes do not sum to `min(8, 8) = 8`. -/
theorem verify_chunk_sum_counterexample :
    min mismatch_env.chip_size mismatch_env.file_size = 8 ∧
    ∃ w : World, spi_mem_verify_process mismatch_env demo_worker 3 World.init = some w ∧
      ((chip_reads w.trace).map (fun r => r.2.1)).sum = 4 ∧
      ((file_reads w.trace).map (fun r => r.1)).sum = 4 ∧
      ((file_reads w.trace).map (fun r => r.1)).sum
        ≠ min mismatch_env.chip_size mismatch_env.file_size ∧
      events w.trace = [SPIMemCustomEventWorker.VerifyFail] :=
  ⟨rfl, _, rfl, rfl, rfl, by decide, rfl⟩

/-- C6 (witness): the demo environment with the chip read of chunk 1 failing. -/
theorem chip_read_failure_at_chunk_witness :
    (∃ w : World,
      (∀ fuel, 1 < fuel →
        spi_mem_read_process chipfail_env demo_worker fuel World.init = some w) ∧
      events w.trace = List.replicate 1 SPIMemCustomEventWorker.BlockReaded
        ++ [SPIMemCustomEventWorker.ChipReadFail] ∧
      SPIMemCustomEventWorker.ReadDone ∉ events w.trace ∧
      (file_writes w.trace).length = 1 ∧
      (chip_reads w.trace).length = 1 + 1 ∧
      closes w.trace = 1) ∧
    (∃ w : World,
      (∀ fuel, 1 < fuel →
        spi_mem_verify_process chipfail_env demo_worker fuel World.init = some w) ∧
      events w.trace = List.replicate 1 SPIMemCustomEventWorker.BlockReaded
        ++ [SPIMemCustomEventWorker.ChipReadFail] ∧
      SPIMemCustomEventWorker.VerifyDone ∉ events w.trace ∧
      (file_reads w.trace).length = 1 ∧
      (chip_reads w.trace).length = 1 + 1 ∧
      closes w.trace = 1) :=
  ⟨(chip_read_failure_at_chunk chipfail_env demo_worker 1 (by decide) rfl (fun _ _ => rfl)
      (fun i hi => by have h0 : i = 0 := by omega
                      subst h0; rfl)).1
      (by decide) (by decide) (fun _ _ => rfl),
    (chip_read_failure_at_chunk chipfail_env demo_worker 1 (by decide) rfl (fun _ _ => rfl)
      (fun i hi => by have h0 : i = 0 := by omega
                      subst h0; rfl)).2
      (by decide) (by decide) rfl (fun _ _ => rfl) (fun _ _ => rfl)⟩

/-- C7 (witness): the demo environment with every stop check observing a stop. -/
theorem stop_at_first_check_witness :
    (∃ w : World,
      (∀ fuel, 0 < fuel → spi_mem_read_process stop_env demo_worker fuel World.init = some w) ∧
      w.trace = [Act.delay_tick 10, Act.check_for_stop true, Act.file_close]
        ++ emit_trace demo_worker SPIMemCustomEventWorker.ReadDone ∧
      events w.trace = [SPIMemCustomEventWorker.ReadDone]) ∧
    (∃ w : World,
      (∀ fuel, 0 < fuel →
        spi_mem_verify_process stop_env demo_worker fuel World.init = some w) ∧
      w.trace = [Act.file_open true, Act.delay_tick 10, Act.check_for_stop true,
          Act.file_close]
        ++ emit_trace demo_worker SPIMemCustomEventWorker.VerifyDone ∧
      events w.trace = [SPIMemCustomEventWorker.VerifyDone]) :=
  ⟨(stop_at_first_check stop_env demo_worker rfl).1,
    (stop_at_first_check stop_env demo_worker rfl).2 rfl⟩

/-- C9 (witness): the demo environment with the second stop check observing a stop. -/
theorem stop_checked_each_pass_witness :
    (∃ w : World, spi_mem_read_process stop_second_env demo_worker 2 World.init = some w ∧
      ∃ pre, w.trace = pre ++ [Act.check_for_stop true, Act.file_close]
          ++ emit_trace demo_worker SPIMemCustomEventWorker.ReadDone ∧
        Act.check_for_stop true ∉ pre) ∧
    (∃ w : World, spi_mem_verify_process stop_second_env demo_worker 2 World.init = some w ∧
      ∃ pre, w.trace = pre ++ [Act.check_for_stop true, Act.file_close]
          ++ emit_trace demo_worker SPIMemCustomEventWorker.VerifyDone ∧
        Act.check_for_stop true ∉ pre) ∧
    (∃ fuel w, spi_mem_read_process stop_second_env demo_worker fuel World.init = some w) ∧
    (∃ fuel w, spi_mem_verify_process stop_second_env demo_worker fuel World.init = some w) :=
  ⟨⟨_, rfl, (stop_checked_each_pass stop_second_env demo_worker).2.2.1 2 _ rfl (by decide)⟩,
    ⟨_, rfl,
      (stop_checked_each_pass stop_second_env demo_worker).2.2.2.1 2 _ rfl rfl (by decide)⟩,
    (stop_checked_each_pass stop_second_env demo_worker).2.2.2.2.1 1 rfl,
    (stop_checked_each_pass stop_second_env demo_worker).2.2.2.2.2 1 rfl⟩

/-- C10 (witness): the demo environment with the erase command failing. -/
theorem erase_steps_in_order_witness :
    (∃ w : World, spi_mem_chip_erase_process erase_fail_env demo_worker 1 World.init = some w ∧
      ∃ a1 r2 r3 a2 r5,
        (∀ x ∈ a1, is_poll x = true) ∧ (∀ x ∈ a2, is_poll x = true) ∧
        w.trace = (run_steps (erase_steps a1 r2 r3 a2 r5)).1
          ++ emit_trace demo_worker (if (run_steps (erase_steps a1 r2 r3 a2 r5)).2
              then SPIMemCustomEventWorker.EraseDone
              else SPIMemCustomEventWorker.ChipReadFail) ∧
        events w.trace = [if await_reports a1 && r2 && r3 && await_reports a2 && r5
          then SPIMemCustomEventWorker.EraseDone
          else SPIMemCustomEventWorker.ChipReadFail] ∧
        (Act.erase_chip false ∈ w.trace →
          w.trace = a1 ++ [Act.set_write_enabled true true, Act.erase_chip false]
            ++ emit_trace demo_worker SPIMemCustomEventWorker.ChipReadFail) ∧
        ∃ j1, wait_ends erase_fail_env 0 0 j1 ∧ a1 = wait_calls erase_fail_env 0 0 j1 ∧
          (await_reports a1 = false ↔ erase_fail_env.stop j1 = false
            ∧ erase_fail_env.status j1 = SPIMemChipStatus.Error) ∧
          (await_reports a1 = true → r2 = erase_fail_env.wen_ok 0 ∧
            (r2 = true → r3 = erase_fail_env.erase_ok 0 ∧
              (r3 = true →
                ∃ j2, wait_ends erase_fail_env (j1 + 1)
                    (wait_status_count erase_fail_env 0 0 j1) j2 ∧
                  a2 = wait_calls erase_fail_env (j1 + 1)
                    (wait_status_count erase_fail_env 0 0 j1) j2 ∧
                  (await_reports a2 = false ↔ erase_fail_env.stop (j1 + 1 + j2) = false
                    ∧ erase_fail_env.status (wait_status_count erase_fail_env 0 0 j1 + j2)
                      = SPIMemChipStatus.Error) ∧
                  (await_reports a2 = true → r5 = erase_fail_env.wen_ok 1))))) ∧
    (∃ fuel w, spi_mem_chip_erase_process erase_fail_env demo_worker fuel World.init
      = some w) :=
  ⟨⟨_, rfl, (erase_steps_in_order erase_fail_env demo_worker).1 1 _ rfl⟩,
    (erase_steps_in_order erase_fail_env demo_worker).2
      (fun k => ⟨k, Nat.le_refl k,
        show SPIMemChipStatus.Ready ≠ SPIMemChipStatus.Busy by decide⟩)⟩

/-- C11 (counterexample): with every stop check answering "stop", the
erase run observes the stop in its first wait and still executes the write-enable, the
chip erase, the second wait and the write-disable, and emits `EraseDone`, not
`ChipReadFail`. -/
theorem cancelled_erase_emits_done :
    ∃ w, spi_mem_chip_erase_process stop_env demo_worker 1 World.init = some w ∧
      w.trace = [Act.delay_ms 200, Act.check_for_stop true,
        Act.set_write_enabled true true, Act.erase_chip true,
        Act.delay_ms 200, Act.check_for_stop true,
        Act.set_write_enabled false true]
        ++ emit_trace demo_worker SPIMemCustomEventWorker.EraseDone ∧
      events w.trace = [SPIMemCustomEventWorker.EraseDone] :=
  ⟨_, rfl, rfl, rfl⟩

/-- C16 (counterexample): a verify run whose open fails is not ended by
cancellation (it checks for no stop request) and emits no terminal event; a verify run
cancelled at its first stop check emits `VerifyDone` after the stop was observed. -/
theorem verify_events_counterexample :
    (∃ w, spi_mem_verify_process open_fail_env demo_worker 1 World.init = some w ∧
      Act.check_for_stop true ∉ w.trace ∧ events w.trace = []) ∧
    (∃ w, spi_mem_verify_process stop_env demo_worker 1 World.init = some w ∧
      w.trace = [Act.file_open true, Act.delay_tick 10, Act.check_for_stop true,
          Act.file_close]
        ++ emit_trace demo_worker SPIMemCustomEventWorker.VerifyDone ∧
      events w.trace = [SPIMemCustomEventWorker.VerifyDone]) :=
  ⟨⟨_, rfl, by decide, rfl⟩, ⟨_, rfl, rfl, rfl⟩⟩

/-- C11 (witness): the demo environment with every stop check observing a stop. -/
theorem erase_wait_cancelled_witness :
    (∃ w : World, spi_mem_chip_erase_process stop_env demo_worker 1 World.init = some w ∧
      ∃ a1 r2 r3 a2 r5,
        (∀ x ∈ a1, is_poll x = true) ∧ (∀ x ∈ a2, is_poll x = true) ∧
        w.trace = (run_steps (erase_steps a1 r2 r3 a2 r5)).1
          ++ emit_trace demo_worker (if (run_steps (erase_steps a1 r2 r3 a2 r5)).2
              then SPIMemCustomEventWorker.EraseDone
              else SPIMemCustomEventWorker.ChipReadFail) ∧
        (Act.check_for_stop true ∈ a1 →
          await_reports a1 = true ∧
          (∃ rest, w.trace = a1 ++ Act.set_write_enabled true r2 :: rest) ∧
          events w.trace = [if (r2 && r3 && await_reports a2 && r5) = true
            then SPIMemCustomEventWorker.EraseDone
            else SPIMemCustomEventWorker.ChipReadFail]) ∧
        (Act.check_for_stop true ∈ a2 →
          await_reports a2 = true ∧
          (∃ rest, w.trace = a1 ++ [Act.set_write_enabled true true, Act.erase_chip true]
            ++ a2 ++ Act.set_write_enabled false r5 :: rest) ∧
          events w.trace = [if r5 = true then SPIMemCustomEventWorker.EraseDone
            else SPIMemCustomEventWorker.ChipReadFail])) ∧
    (∀ k, ∃ j, k ≤ j ∧ stop_env.stop j = true) ∧
    (∃ fuel w, spi_mem_chip_erase_process stop_env demo_worker fuel World.init = some w) :=
  ⟨⟨_, rfl, (erase_wait_cancelled stop_env demo_worker).1 1 _ rfl⟩,
    fun k => ⟨k, Nat.le_refl k, rfl⟩,
    (erase_wait_cancelled stop_env demo_worker).2 (fun k => ⟨k, Nat.le_refl k, rfl⟩)⟩

/-- C12 (witness): a chip that is busy for two rounds and then reports an error, with no
stop request: the helper polls three times and reports the error outcome. -/
theorem await_poll_rounds_witness :
    ∃ r w1,
      (∀ fuel, 2 < fuel →
        spi_mem_worker_await_chip_busy busy_env fuel World.init = some (r, w1)) ∧
      w1.trace = [Act.delay_ms 200, Act.check_for_stop false,
        Act.get_chip_status SPIMemChipStatus.Busy,
        Act.delay_ms 200, Act.check_for_stop false,
        Act.get_chip_status SPIMemChipStatus.Busy,
        Act.delay_ms 200, Act.check_for_stop false,
        Act.get_chip_status SPIMemChipStatus.Error] ∧
      r = false := by
  obtain ⟨r, w1, h1, h2, h3, _, _⟩ := await_poll_rounds busy_env World.init 2
    (fun i hi => by
      have h : i = 0 ∨ i = 1 := by omega
      rcases h with h | h <;> subst h <;> exact ⟨rfl, rfl⟩)
    (Or.inr (by decide))
  exact ⟨r, w1, h1, h2, h3.mpr ⟨rfl, rfl⟩⟩

/-- C13 (witness): two failed identification attempts followed by a successful one on a
chip whose information is incomplete, and one failed attempt followed by a stop request
after the second. -/
theorem chip_detect_retries_witness :
    (∃ w : World,
      (∀ fuel, 2 < fuel →
        spi_mem_chip_detect_process detect_env demo_worker fuel World.init = some w) ∧
      w.trace = [Act.read_chip_info false, Act.check_for_stop false,
          Act.read_chip_info false, Act.check_for_stop false,
          Act.read_chip_info true, Act.complete_info false]
        ++ emit_trace demo_worker SPIMemCustomEventWorker.ChipUnknown ∧
      events w.trace = [SPIMemCustomEventWorker.ChipUnknown]) ∧
    (∃ w : World,
      (∀ fuel, 1 < fuel →
        spi_mem_chip_detect_process detect_stop_env demo_worker fuel World.init = some w) ∧
      w.trace = [Act.read_chip_info false, Act.check_for_stop false,
          Act.read_chip_info false, Act.check_for_stop true] ∧
      events w.trace = []) :=
  ⟨(chip_detect_retries detect_env demo_worker 2
      (fun i hi => by
        have h : i = 0 ∨ i = 1 := by omega
        rcases h with h | h <;> subst h <;> exact ⟨rfl, rfl⟩)).1 rfl,
    (chip_detect_retries detect_stop_env demo_worker 1
      (fun i hi => by
        have h : i = 0 := by omega
        subst h; exact ⟨rfl, rfl⟩)).2.1 rfl rfl⟩

/-- C14 (witness): the demo environment with the open failing, run without any fuel. -/
theorem verify_open_failure_silent_witness :
    ∃ w1, spi_mem_verify_process open_fail_env demo_worker 0 World.init = some w1 ∧
      w1.trace = [Act.file_open false] ∧
      events w1.trace = [] ∧
      chip_reads w1.trace = [] ∧
      file_reads w1.trace = [] ∧
      closes w1.trace = 0 ∧
      w1.n_chip = 0 ∧ w1.n_fread = 0 ∧ w1.n_stop = 0 :=
  verify_open_failure_silent open_fail_env demo_worker 0 World.init rfl

/-- C15 (witness): a read run ended by a failed chip read and a complete verify run of the
demo environment each close the file once, and both return. -/
theorem close_called_once_witness :
    (∃ w : World, spi_mem_read_process chipfail_env demo_worker 2 World.init = some w ∧
      ∃ pre post, w.trace = pre ++ [Act.file_close] ++ post ∧
        Act.file_close ∉ pre ∧
        (post = [] ∨ post = emit_trace demo_worker SPIMemCustomEventWorker.ReadDone) ∧
        (∀ x ∈ post, is_transfer x = false) ∧
        SPIMemCustomEventWorker.ReadDone ∉ events pre ∧
        closes w.trace = 1) ∧
    (∃ w : World, spi_mem_verify_process demo_env demo_worker 4 World.init = some w ∧
      ∃ pre post, w.trace = pre ++ [Act.file_close] ++ post ∧
        Act.file_close ∉ pre ∧
        (post = [] ∨ post = emit_trace demo_worker SPIMemCustomEventWorker.VerifyDone) ∧
        (∀ x ∈ post, is_transfer x = false) ∧
        SPIMemCustomEventWorker.VerifyDone ∉ events pre ∧
        closes w.trace = 1) ∧
    (∃ fuel w, spi_mem_read_process demo_env demo_worker fuel World.init = some w) ∧
    (∃ fuel w, spi_mem_verify_process demo_env demo_worker fuel World.init = some w) :=
  ⟨⟨_, rfl, (close_called_once chipfail_env demo_worker).1 2 _ rfl⟩,
    ⟨_, rfl, (close_called_once demo_env demo_worker).2.1 4 _ rfl rfl⟩,
    (close_called_once demo_env demo_worker).2.2.1 (by decide) (by decide),
    (close_called_once demo_env demo_worker).2.2.2 (by decide) (by decide)⟩

/-- C16 (witness): a read run ended by a failed chip read, a verify run cancelled at its
first stop check, a verify run whose open fails, an erase run cancelled in its waits and a
chip-detect run cancelled after its second attempt; the runs of the demo environment
return. -/
theorem event_trace_shape_witness :
    (∃ w : World, spi_mem_read_process chipfail_env demo_worker 2 World.init = some w ∧
      ∃ k t, events w.trace = List.replicate k SPIMemCustomEventWorker.BlockReaded ++ [t] ∧
        (t = SPIMemCustomEventWorker.ReadDone ∨ t = SPIMemCustomEventWorker.ChipReadFail
          ∨ t = SPIMemCustomEventWorker.WriteFileFail)) ∧
    (∃ w : World, spi_mem_verify_process stop_env demo_worker 1 World.init = some w ∧
      ∃ k t, events w.trace = List.replicate k SPIMemCustomEventWorker.BlockReaded ++ [t] ∧
        (t = SPIMemCustomEventWorker.VerifyDone ∨ t = SPIMemCustomEventWorker.ChipReadFail
          ∨ t = SPIMemCustomEventWorker.ReadFileFail
          ∨ t = SPIMemCustomEventWorker.VerifyFail)) ∧
    (∃ w : World, spi_mem_verify_process open_fail_env demo_worker 0 World.init = some w ∧
      events w.trace = [] ∧ Act.check_for_stop true ∉ w.trace) ∧
    (∃ w : World, spi_mem_chip_erase_process stop_env demo_worker 1 World.init = some w ∧
      (events w.trace = [SPIMemCustomEventWorker.EraseDone]
        ∨ events w.trace = [SPIMemCustomEventWorker.ChipReadFail])) ∧
    (∃ w : World,
      spi_mem_chip_detect_process detect_stop_env demo_worker 2 World.init = some w ∧
      (((events w.trace = [SPIMemCustomEventWorker.ChipIdentified]
          ∨ events w.trace = [SPIMemCustomEventWorker.ChipUnknown])
        ∧ Act.check_for_stop true ∉ w.trace)
      ∨ (events w.trace = [] ∧ ∃ pre, w.trace = pre ++ [Act.check_for_stop true]))) ∧
    (∃ fuel w, spi_mem_read_process demo_env demo_worker fuel World.init = some w) ∧
    (∃ fuel w, spi_mem_verify_process demo_env demo_worker fuel World.init = some w) ∧
    (∃ fuel w, spi_mem_chip_erase_process demo_env demo_worker fuel World.init = some w) ∧
    (∃ fuel w, spi_mem_chip_detect_process demo_env demo_worker fuel World.init = some w) :=
  ⟨⟨_, rfl, (event_trace_shape chipfail_env demo_worker).1 2 _ rfl⟩,
    ⟨_, rfl, (event_trace_shape stop_env demo_worker).2.1 1 _ rfl rfl⟩,
    ⟨_, rfl, (event_trace_shape open_fail_env demo_worker).2.2.1 0 _ rfl rfl⟩,
    ⟨_, rfl, (event_trace_shape stop_env demo_worker).2.2.2.1 1 _ rfl⟩,
    ⟨_, rfl, (event_trace_shape detect_stop_env demo_worker).2.2.2.2.1 2 _ rfl⟩,
    (event_trace_shape demo_env demo_worker).2.2.2.2.2.1 (by decide) (by decide),
    (event_trace_shape demo_env demo_worker).2.2.2.2.2.2.1 (by decide) (by decide),
    (event_trace_shape demo_env demo_worker).2.2.2.2.2.2.2.1
      (fun k => ⟨k, Nat.le_refl k,
        show SPIMemChipStatus.Ready ≠ SPIMemChipStatus.Busy by decide⟩),
    (event_trace_shape demo_env demo_worker).2.2.2.2.2.2.2.2 ⟨0, Or.inl rfl⟩⟩

/-- C17 (witness): a mode holding the entry of `Read` is `Read`, and the entry of
`ChipErase` is empty only if `ChipErase` is `Idle`. -/
theorem worker_modes_table_witness :
    ((spi_mem_worker_modes SPIMemWorkerMode.Read).process
        = (spi_mem_worker_modes SPIMemWorkerMode.Read).process ∧
      SPIMemWorkerMode.Read = SPIMemWorkerMode.Read) ∧
    ((spi_mem_worker_modes SPIMemWorkerMode.ChipErase).process = none
      ↔ SPIMemWorkerMode.ChipErase = SPIMemWorkerMode.Idle) :=
  ⟨⟨rfl, worker_modes_table.2.2.2.2.2.2.2 SPIMemWorkerMode.Read SPIMemWorkerMode.Read rfl⟩,
    worker_modes_table.2.2.2.2.2.2.1 SPIMemWorkerMode.ChipErase⟩

/-- C18 (witness): the event bridge of the demo worker, which has callback `1` registered
for context `2`, and of the worker without a callback; the read run of the demo
environment makes the same calls with both, apart from the callback invocations. -/
theorem callback_bridge_witness :
    (demo_worker.callback = some 1 ∧
      spi_mem_run_worker_callback demo_worker SPIMemCustomEventWorker.ReadDone World.init
        = { World.init with
            trace := [Act.emit SPIMemCustomEventWorker.ReadDone,
              Act.callback 1 2 SPIMemCustomEventWorker.ReadDone] }) ∧
    (silent.callback = none ∧
      spi_mem_run_worker_callback silent SPIMemCustomEventWorker.ReadDone World.init
        = { World.init with trace := [Act.emit SPIMemCustomEventWorker.ReadDone] }) ∧
    (spi_mem_read_process demo_env demo_worker 4 World.init).map World.hide
      = (spi_mem_read_process demo_env silent 4 World.init).map World.hide :=
  ⟨⟨rfl, (callback_bridge demo_env demo_worker silent).1 demo_worker
      SPIMemCustomEventWorker.ReadDone World.init 1 rfl⟩,
    ⟨rfl, (callback_bridge demo_env demo_worker silent).2.1 silent
      SPIMemCustomEventWorker.ReadDone World.init rfl⟩,
    (callback_bridge demo_env demo_worker silent).2.2.2.2.1 4 World.init⟩

end SpiMem
